import Mathlib

/-!
# Ralloc 2.0: the scheduling engine, the memory optimizer and the OS actuator

A shallow embedding of `src/scheduler/process_manager.cpp`,
`src/scheduler/scheduler.cpp`, `src/memory/memory_manager.cpp` and
`src/analytics/performance_analyzer.cpp`.

Modelling conventions.

* `pid_t`, `int` and `long` values are `Int`, without a width.  Every priority
  the program puts in a table comes from `getpriority` or from one of the
  clamped assignments below, and `suspended_count` never exceeds 3, so no
  arithmetic of the modelled functions comes near the limits of the machine
  types (where signed overflow would be undefined behaviour anyway).
* `double` values (`cpu_usage`, `mem_threshold_mb`, the memory and swap
  readings) are rationals: the code only compares them with constants and with
  `memory_usage`, and multiplies the threshold by `1024 * 1024`.  Rounding of
  `long` to `double`, infinities and NaN are outside the model.
* The operating system is an oracle `OS`: given the system calls issued so far
  and the next call, it answers `none` (the call returned 0) or `some errno`.
  Every function that performs system calls takes the history `h` of earlier
  calls and returns, next to its result, the list of calls it issued itself.
* A C++ exception is the `Except.error` branch carrying the `what()` text.
* `std::sort` is a parameter `StdSort`: any function that returns a sorted
  permutation when the comparator is a strict weak ordering.  The order of
  equivalent elements is left open, as in the C++ standard.
* What the probe reads from `/proc` is an input: the parsed values of
  `/proc/meminfo` and `/proc/stat`, and per process a `ProcReading`; the
  stream extraction of the stat fields after the command name is a parameter
  `parse_fields`.  `std::string` is a list of characters, function-local
  statics and static members are explicit state (`CpuSampler`, `ProbeMemory`,
  `PerformanceAnalyzer`), and the steady clock is a rational number of seconds.
* The controller is the record `Scheduler` of its data members; threads and
  locks are not modelled.
* The vectors of `ProcessInfo*` built by `hybrid_schedule` are lists of
  indices into the table.  `bucket_pass` and `hybrid_walk` restate its loops
  as walks over the table; `hybrid_schedule_eq_walk` proves the two models
  equal, and every hybrid theorem is stated about `hybrid_schedule`.
-/

namespace Ralloc

/-! ## Data model (`include/process_manager.h`, `include/scheduler.h`) -/

/-- The record `struct ProcessInfo`. -/
structure ProcessInfo where
  pid : Int
  name : String
  is_system : Bool
  is_foreground : Bool
  is_suspended : Bool
  priority : Int
  memory_usage : Int
  cpu_usage : ℚ
  last_cpu_time : Int
deriving DecidableEq

/-- The enumeration `enum class Mode`. -/
inductive Mode where
  | GAMING
  | PRODUCTIVITY
  | POWER_SAVING
deriving DecidableEq

/-- The enumeration `enum class SchedulingAlgorithm`. -/
inductive SchedulingAlgorithm where
  | FCFS
  | SJF
  | PRIORITY
  | RR
  | HYBRID
deriving DecidableEq

/-! ## The operating system boundary -/

/-- The three signals the actuator sends with `kill`. -/
inductive Signal where
  | SIGSTOP
  | SIGCONT
  | SIGTERM
deriving DecidableEq

/-- The value of `errno` after a failed call; `other` carries `strerror(errno)`. -/
inductive Errno where
  | ESRCH
  | EPERM
  | other (strerror : String)
deriving DecidableEq

/-- A system call issued by the actuator: `setpriority(PRIO_PROCESS, pid, prio)`
or `kill(pid, sig)`. -/
inductive Call where
  | setpriority (pid : Int) (prio : Int)
  | kill (pid : Int) (sig : Signal)
deriving DecidableEq

/-- The operating system: from the calls issued so far and the next call to
`none` (return value 0) or `some errno` (return value -1). -/
abbrev OS := List Call → Call → Option Errno

/-! ## OS actuator (`src/scheduler/process_manager.cpp`) -/

/-- The function `ProcessManager::set_priority`: clamp, call `setpriority`, swallow `ESRCH`,
throw on every other failure. -/
def set_priority (os : OS) (pid : Int) (priority : Int) (h : List Call) :
    Except String Unit × List Call :=
  let priority := max (-20) (min 19 priority)
  let c := Call.setpriority pid priority
  match os h c with
  | none => (.ok (), [c])
  | some Errno.ESRCH => (.ok (), [c])
  | some Errno.EPERM =>
    (.error ("Permission denied to set priority for PID " ++ toString pid ++
      " (need root privileges)"), [c])
  | some (Errno.other msg) =>
    (.error ("Failed to set priority for PID " ++ toString pid ++ ": " ++ msg), [c])

/-- The shared body of `suspend_process`, `resume_process` and the signalling
part of `terminate_process`: `kill(pid, sig)` and one exception per `errno`;
`verb` is the word the message uses ("suspend", "resume", "terminate"). -/
def send_signal (os : OS) (sig : Signal) (verb : String) (pid : Int) (h : List Call) :
    Except String Unit × List Call :=
  let c := Call.kill pid sig
  match os h c with
  | none => (.ok (), [c])
  | some Errno.ESRCH => (.error ("Process " ++ toString pid ++ " not found"), [c])
  | some Errno.EPERM =>
    (.error ("Permission denied to " ++ verb ++ " PID " ++ toString pid ++
      " (need root privileges)"), [c])
  | some (Errno.other msg) =>
    (.error ("Failed to " ++ verb ++ " PID " ++ toString pid ++ ": " ++ msg), [c])

/-- The function `ProcessManager::suspend_process`. -/
def suspend_process (os : OS) (pid : Int) (h : List Call) : Except String Unit × List Call :=
  send_signal os Signal.SIGSTOP "suspend" pid h

/-- The function `ProcessManager::resume_process`. -/
def resume_process (os : OS) (pid : Int) (h : List Call) : Except String Unit × List Call :=
  send_signal os Signal.SIGCONT "resume" pid h

/-- The function `ProcessManager::terminate_process`: pid 1 is refused before any call. -/
def terminate_process (os : OS) (pid : Int) (h : List Call) : Except String Unit × List Call :=
  if pid = 1 then (.error "Cannot terminate init process (PID 1)", [])
  else send_signal os Signal.SIGTERM "terminate" pid h

/-! ## `std::sort` -/

/-- The precondition `std::sort` puts on its comparator: a strict weak
ordering, stated as: irreflexive, transitive, and "not less" transitive (so
that being unordered either way is an equivalence). -/
def StrictWeak (comp : ProcessInfo → ProcessInfo → Bool) : Prop :=
  (∀ a, comp a a = false) ∧
  (∀ a b c, comp a b = true → comp b c = true → comp a c = true) ∧
  (∀ a b c, comp a b = false → comp b c = false → comp a c = false)

/-- What the C++ standard promises of `std::sort`: the result is a permutation
of the input and, for a strict weak ordering, no later element compares less
than an earlier one.  The relative order of equivalent elements is not fixed. -/
structure StdSort where
  sort : (ProcessInfo → ProcessInfo → Bool) → List ProcessInfo → List ProcessInfo
  perm : ∀ comp l, List.Perm (sort comp l) l
  sorted : ∀ comp l, StrictWeak comp →
    List.Pairwise (fun a b => comp b a = false) (sort comp l)

/-- Insertion of one element in front of the first element that does not
compare less than it. -/
def ordered_insert (comp : ProcessInfo → ProcessInfo → Bool) (a : ProcessInfo) :
    List ProcessInfo → List ProcessInfo
  | [] => [a]
  | b :: l => if comp b a then b :: ordered_insert comp a l else a :: b :: l

/-- Insertion sort, the algorithm libstdc++ runs on short ranges; it keeps
equivalent elements in their input order. -/
def insertion_sort (comp : ProcessInfo → ProcessInfo → Bool) :
    List ProcessInfo → List ProcessInfo
  | [] => []
  | a :: l => ordered_insert comp a (insertion_sort comp l)

/-! ## Scheduling engine (`src/scheduler/scheduler.cpp`) -/

/-- The `switch (current_mode)` of `apply_mode_settings`: the new priority and
the `should_suspend` intent of one record. -/
def mode_target (mode : Mode) (mem_threshold_mb : ℚ) (proc : ProcessInfo) : Int × Bool :=
  let priority := proc.priority
  match mode with
  | Mode.GAMING =>
    if proc.is_foreground then (max (-15) (priority - 5), false)
    else if !proc.is_system then (min 15 (priority + 5), false)
    else (priority, false)
  | Mode.PRODUCTIVITY =>
    if proc.is_foreground then (max (-10) (priority - 3), false)
    else if !proc.is_system then (min 10 (priority + 2), false)
    else (priority, false)
  | Mode.POWER_SAVING =>
    if !proc.is_system then
      let priority := min 19 (priority + 5)
      if (proc.memory_usage : ℚ) > mem_threshold_mb * 1024 * 1024 && !proc.is_foreground then
        (priority, true)
      else (priority, false)
    else (priority, false)

/-- One iteration of the loop of `apply_mode_settings`: the updated record and
the calls issued.  An exception of any actuator call ends the iteration. -/
def apply_mode_proc (os : OS) (mode : Mode) (mem_threshold_mb : ℚ) (proc : ProcessInfo)
    (h : List Call) : ProcessInfo × List Call :=
  if proc.pid ≤ 0 then (proc, [])
  else
    let priority := (mode_target mode mem_threshold_mb proc).1
    let should_suspend := (mode_target mode mem_threshold_mb proc).2
    let proc := { proc with priority := priority }
    match set_priority os proc.pid priority h with
    | (.error _, c1) => (proc, c1)
    | (.ok _, c1) =>
      if should_suspend && !proc.is_suspended then
        match suspend_process os proc.pid (h ++ c1) with
        | (.error _, c2) => (proc, c1 ++ c2)
        | (.ok _, c2) => ({ proc with is_suspended := true }, c1 ++ c2)
      else if !should_suspend && proc.is_suspended && mode != Mode.POWER_SAVING then
        match resume_process os proc.pid (h ++ c1) with
        | (.error _, c2) => (proc, c1 ++ c2)
        | (.ok _, c2) => ({ proc with is_suspended := false }, c1 ++ c2)
      else (proc, c1)

/-- The function `Scheduler::apply_mode_settings` on the table `processes`. -/
def apply_mode_settings (os : OS) (mode : Mode) (mem_threshold_mb : ℚ) :
    List ProcessInfo → List Call → List ProcessInfo × List Call
  | [], _ => ([], [])
  | proc :: rest, h =>
    let r := apply_mode_proc os mode mem_threshold_mb proc h
    let rs := apply_mode_settings os mode mem_threshold_mb rest (h ++ r.2)
    (r.1 :: rs.1, r.2 ++ rs.2)

/-- The loop that `fcfs_schedule` and `sjf_schedule` both run after sorting:
`priority` starts at -20 and is raised, capped at 19, before each assignment
to a record that is neither suspended nor a system process. -/
def sequential_assign (os : OS) :
    List ProcessInfo → Int → List Call → List ProcessInfo × List Call
  | [], _, _ => ([], [])
  | proc :: rest, priority, h =>
    if !proc.is_suspended && !proc.is_system then
      let priority := min 19 (priority + 1)
      let proc := { proc with priority := priority }
      let c1 := (set_priority os proc.pid priority h).2
      let rs := sequential_assign os rest priority (h ++ c1)
      (proc :: rs.1, c1 ++ rs.2)
    else
      let rs := sequential_assign os rest priority h
      (proc :: rs.1, rs.2)

/-- The comparator of `fcfs_schedule`. -/
def by_pid (a b : ProcessInfo) : Bool := a.pid < b.pid

/-- The comparator of `sjf_schedule`. -/
def by_cpu_time (a b : ProcessInfo) : Bool := a.last_cpu_time < b.last_cpu_time

/-- The comparator of `priority_schedule`. -/
def by_priority (a b : ProcessInfo) : Bool := a.priority < b.priority

/-- The comparator of `optimize_memory`: highest memory first. -/
def by_memory_desc (a b : ProcessInfo) : Bool := a.memory_usage > b.memory_usage

/-- The function `Scheduler::fcfs_schedule`. -/
def fcfs_schedule (S : StdSort) (os : OS) (processes : List ProcessInfo) (h : List Call) :
    List ProcessInfo × List Call :=
  sequential_assign os (S.sort by_pid processes) (-20) h

/-- The function `Scheduler::sjf_schedule`. -/
def sjf_schedule (S : StdSort) (os : OS) (processes : List ProcessInfo) (h : List Call) :
    List ProcessInfo × List Call :=
  sequential_assign os (S.sort by_cpu_time processes) (-20) h

/-- The loop of `priority_schedule`: re-apply the priority of every record
that is not suspended. -/
def priority_loop (os : OS) : List ProcessInfo → List Call → List Call
  | [], _ => []
  | proc :: rest, h =>
    if !proc.is_suspended then
      let c1 := (set_priority os proc.pid proc.priority h).2
      c1 ++ priority_loop os rest (h ++ c1)
    else priority_loop os rest h

/-- The function `Scheduler::priority_schedule`. -/
def priority_schedule (S : StdSort) (os : OS) (processes : List ProcessInfo) (h : List Call) :
    List ProcessInfo × List Call :=
  let processes := S.sort by_priority processes
  (processes, priority_loop os processes h)

/-- The function `Scheduler::rr_schedule`. -/
def rr_schedule (os : OS) : List ProcessInfo → List Call → List ProcessInfo × List Call
  | [], _ => ([], [])
  | proc :: rest, h =>
    if !proc.is_suspended && !proc.is_system then
      let proc := { proc with priority := 0 }
      let c1 := (set_priority os proc.pid 0 h).2
      let rs := rr_schedule os rest (h ++ c1)
      (proc :: rs.1, c1 ++ rs.2)
    else
      let rs := rr_schedule os rest h
      (proc :: rs.1, rs.2)

/-- The four pointer vectors of `hybrid_schedule`, as lists of table indices. -/
structure Buckets where
  interactive : List Nat
  io_bound : List Nat
  cpu_bound : List Nat
  background : List Nat
deriving DecidableEq

/-- The classification loop of `hybrid_schedule`; `i` is the index of the
head of the remaining table. -/
def classify_loop : List ProcessInfo → Nat → Buckets → Buckets
  | [], _, bs => bs
  | proc :: rest, i, bs =>
    if proc.is_suspended || proc.is_system then classify_loop rest (i + 1) bs
    else if proc.is_foreground then
      classify_loop rest (i + 1) { bs with interactive := bs.interactive ++ [i] }
    else if proc.cpu_usage > 70 then
      classify_loop rest (i + 1) { bs with cpu_bound := bs.cpu_bound ++ [i] }
    else if proc.cpu_usage < 20 then
      classify_loop rest (i + 1) { bs with io_bound := bs.io_bound ++ [i] }
    else
      classify_loop rest (i + 1) { bs with background := bs.background ++ [i] }

/-- One of the four assignment loops of `hybrid_schedule`: every record of the
bucket receives the running `priority`, which is raised (capped at `ceiling`)
only when `set_priority` did not throw. -/
def bucket_loop (os : OS) (ceiling : Int) :
    List Nat → Int → List ProcessInfo → List Call → List ProcessInfo × List Call
  | [], _, processes, _ => (processes, [])
  | i :: rest, priority, processes, h =>
    match processes[i]? with
    | none => bucket_loop os ceiling rest priority processes h
    | some proc =>
      let processes := processes.set i { proc with priority := priority }
      match set_priority os proc.pid priority h with
      | (.error _, c1) =>
        let rs := bucket_loop os ceiling rest priority processes (h ++ c1)
        (rs.1, c1 ++ rs.2)
      | (.ok _, c1) =>
        let rs := bucket_loop os ceiling rest (min ceiling (priority + 1)) processes (h ++ c1)
        (rs.1, c1 ++ rs.2)

/-- The function `Scheduler::hybrid_schedule`. -/
def hybrid_schedule (os : OS) (processes : List ProcessInfo) (h : List Call) :
    List ProcessInfo × List Call :=
  if processes.isEmpty then (processes, [])
  else
    let bs := classify_loop processes 0 ⟨[], [], [], []⟩
    let r1 := bucket_loop os (-10) bs.interactive (-15) processes h
    let r2 := bucket_loop os 0 bs.io_bound (-5) r1.1 (h ++ r1.2)
    let r3 := bucket_loop os 10 bs.background 5 r2.1 (h ++ r1.2 ++ r2.2)
    let r4 := bucket_loop os 19 bs.cpu_bound 10 r3.1 (h ++ r1.2 ++ r2.2 ++ r3.2)
    (r4.1, r1.2 ++ r2.2 ++ r3.2 ++ r4.2)

/-- The function `Scheduler::perform_scheduling`. -/
def perform_scheduling (S : StdSort) (os : OS) (alg : SchedulingAlgorithm)
    (processes : List ProcessInfo) (h : List Call) : List ProcessInfo × List Call :=
  match alg with
  | SchedulingAlgorithm.FCFS => fcfs_schedule S os processes h
  | SchedulingAlgorithm.SJF => sjf_schedule S os processes h
  | SchedulingAlgorithm.PRIORITY => priority_schedule S os processes h
  | SchedulingAlgorithm.RR => rr_schedule os processes h
  | SchedulingAlgorithm.HYBRID => hybrid_schedule os processes h

/-! ## Memory optimizer (`src/memory/memory_manager.cpp`) -/

/-- The suspend loop of `optimize_memory`; `suspended_count` is the number of
successful suspensions so far, and the loop breaks when it reaches 3. -/
def suspend_loop (os : OS) (mem_threshold_mb : ℚ) :
    List ProcessInfo → Int → List Call → List ProcessInfo × List Call
  | [], _, _ => ([], [])
  | proc :: rest, suspended_count, h =>
    if proc.is_system || proc.is_suspended then
      let rs := suspend_loop os mem_threshold_mb rest suspended_count h
      (proc :: rs.1, rs.2)
    else if proc.is_foreground then
      let rs := suspend_loop os mem_threshold_mb rest suspended_count h
      (proc :: rs.1, rs.2)
    else if (proc.memory_usage : ℚ) > mem_threshold_mb * 1024 * 1024 then
      match suspend_process os proc.pid h with
      | (.ok _, c1) =>
        let proc := { proc with is_suspended := true }
        let suspended_count := suspended_count + 1
        if suspended_count ≥ 3 then (proc :: rest, c1)
        else
          let rs := suspend_loop os mem_threshold_mb rest suspended_count (h ++ c1)
          (proc :: rs.1, c1 ++ rs.2)
      | (.error _, c1) =>
        let rs := suspend_loop os mem_threshold_mb rest suspended_count (h ++ c1)
        (proc :: rs.1, c1 ++ rs.2)
    else
      let rs := suspend_loop os mem_threshold_mb rest suspended_count h
      (proc :: rs.1, rs.2)

/-- The resume loop of `optimize_memory`. -/
def resume_loop (os : OS) : List ProcessInfo → List Call → List ProcessInfo × List Call
  | [], _ => ([], [])
  | proc :: rest, h =>
    if proc.is_suspended && !proc.is_system then
      match resume_process os proc.pid h with
      | (.ok _, c1) =>
        let rs := resume_loop os rest (h ++ c1)
        ({ proc with is_suspended := false } :: rs.1, c1 ++ rs.2)
      | (.error _, c1) =>
        let rs := resume_loop os rest (h ++ c1)
        (proc :: rs.1, c1 ++ rs.2)
    else
      let rs := resume_loop os rest h
      (proc :: rs.1, rs.2)

/-- The function `MemoryManager::optimize_memory`; `mem_usage` and `swap_usage` are the
values `get_system_memory_usage()` and `get_swap_usage()` return at its start. -/
def optimize_memory (S : StdSort) (os : OS) (mem_usage swap_usage mem_threshold_mb : ℚ)
    (processes : List ProcessInfo) (h : List Call) : List ProcessInfo × List Call :=
  let r1 :=
    if mem_usage > 90 ∨ swap_usage > 70 then
      suspend_loop os mem_threshold_mb (S.sort by_memory_desc processes) 0 h
    else (processes, [])
  let r2 :=
    if mem_usage < 70 ∧ swap_usage < 50 then resume_loop os r1.1 (h ++ r1.2)
    else (r1.1, [])
  (r2.1, r1.2 ++ r2.2)

/-! ## Predicates used by the statements -/

/-- Every record of the table has its priority in the nice range [-20, 19]. -/
def PriorityInRange (processes : List ProcessInfo) : Prop :=
  ∀ p ∈ processes, -20 ≤ p.priority ∧ p.priority ≤ 19

/-- The record with its `is_suspended` flag cleared: two records agree on every
other field exactly when their images agree. -/
def clear_suspended (p : ProcessInfo) : ProcessInfo := { p with is_suspended := false }

/-- The records the suspend rule of the optimizer is allowed to stop: not a
system process, not already suspended, not foreground, and strictly more
memory than `mem_threshold_mb` MiB. -/
def suspend_eligible (mem_threshold_mb : ℚ) (p : ProcessInfo) : Bool :=
  !p.is_system && !p.is_suspended && !p.is_foreground &&
    decide ((p.memory_usage : ℚ) > mem_threshold_mb * 1024 * 1024)

/-- The records the resume rule of the optimizer continues. -/
def resume_eligible (p : ProcessInfo) : Bool := p.is_suspended && !p.is_system

/-- A pair (record before, record after) in which the record went from
`is_suspended = false` to `is_suspended = true`. -/
def newly_suspended (ab : ProcessInfo × ProcessInfo) : Bool :=
  !ab.1.is_suspended && ab.2.is_suspended

/-- The table the optimizer walks: sorted by memory under pressure, otherwise
the table as it is. -/
def optimizer_order (S : StdSort) (mem_usage swap_usage : ℚ) (processes : List ProcessInfo) :
    List ProcessInfo :=
  if mem_usage > 90 ∨ swap_usage > 70 then S.sort by_memory_desc processes else processes

/-! ## Concrete inputs -/

/-- Insertion sort meets the contract of `std::sort`. -/
def stable_sort : StdSort where
  sort := insertion_sort
  perm := by
    intro comp l
    have hins : ∀ (a : ProcessInfo) (l : List ProcessInfo),
        List.Perm (ordered_insert comp a l) (a :: l) := by
      intro a l
      induction l with
      | nil => exact List.Perm.refl _
      | cons b l ih =>
        unfold ordered_insert
        split
        · exact (List.Perm.cons b ih).trans (List.Perm.swap a b l)
        · exact List.Perm.refl _
    induction l with
    | nil => exact List.Perm.refl _
    | cons a l ih => exact (hins a _).trans (List.Perm.cons a ih)
  sorted := by
    intro comp l hsw
    obtain ⟨hirr, htr, hneg⟩ := hsw
    have hins : ∀ (a : ProcessInfo) (l : List ProcessInfo),
        List.Pairwise (fun x y => comp y x = false) l →
        List.Pairwise (fun x y => comp y x = false) (ordered_insert comp a l) ∧
        ∀ x ∈ ordered_insert comp a l, x = a ∨ x ∈ l := by
      intro a l
      induction l with
      | nil =>
        intro _
        refine ⟨by simp [ordered_insert], ?_⟩
        intro x hx
        simp [ordered_insert] at hx
        exact Or.inl hx
      | cons b l ih =>
        intro hp
        have hp2 := List.pairwise_cons.mp hp
        unfold ordered_insert
        split
        · rename_i hba
          obtain ⟨ih1, ih2⟩ := ih hp2.2
          refine ⟨List.pairwise_cons.mpr ⟨?_, ih1⟩, ?_⟩
          · intro x hx
            rcases ih2 x hx with hxa | hxl
            · subst hxa
              cases hxb : comp x b with
              | false => rfl
              | true =>
                have := htr _ _ _ hba hxb
                rw [hirr] at this
                exact absurd this (by simp)
            · exact hp2.1 x hxl
          · intro x hx
            rcases List.mem_cons.mp hx with hxb | hxr
            · exact Or.inr (hxb ▸ List.mem_cons_self _ _)
            · rcases ih2 x hxr with hxa | hxl
              · exact Or.inl hxa
              · exact Or.inr (List.mem_cons_of_mem _ hxl)
        · rename_i hba
          have hba2 : comp b a = false := by
            cases hc : comp b a with
            | false => rfl
            | true => exact absurd hc hba
          refine ⟨List.pairwise_cons.mpr ⟨?_, hp⟩, ?_⟩
          · intro x hx
            rcases List.mem_cons.mp hx with hxb | hxl
            · subst hxb
              exact hba2
            · exact hneg _ _ _ (hp2.1 x hxl) hba2
          · intro x hx
            rcases List.mem_cons.mp hx with hxa | hxr
            · exact Or.inl hxa
            · exact Or.inr hxr
    induction l with
    | nil => exact List.Pairwise.nil
    | cons a l ih => exact (hins a _ ih).1

/-- An operating system on which every call succeeds. -/
def os_ok : OS := fun _ _ => none

/-- An operating system that refuses every call for lack of privilege. -/
def os_eperm : OS := fun _ _ => some Errno.EPERM

/-- A record with the given pid, flags, priority and memory, and no CPU use. -/
def mk_proc (pid : Int) (sys fg susp : Bool) (priority memory : Int) : ProcessInfo :=
  ⟨pid, "p", sys, fg, susp, priority, memory, 0, 0⟩

/-- A table with two stopped records, one of them a system process. -/
def stopped_table : List ProcessInfo :=
  [mk_proc 2001 false false true 0 1000, mk_proc 12 true false true 0 1000,
   mk_proc 2002 false false false 0 1000]

/-- The table of scenario S1: one interactive record at priority -18. -/
def s1_table : List ProcessInfo := [mk_proc 2000 false true false (-18) 0]

/-- A table with one foreground user process at priority 0. -/
def fg_table : List ProcessInfo := [mk_proc 2000 false true false 0 0]

/-- The number of bytes in `n` MiB. -/
def MiB (n : Int) : Int := n * 1024 * 1024

/-- The table of scenario S3: P1 = 600 MiB, P2 = 400 MiB foreground,
P3 = 300 MiB, P4 = P5 = 250 MiB, pids 1001 to 1005. -/
def s3_table : List ProcessInfo :=
  [mk_proc 1001 false false false 0 (MiB 600), mk_proc 1002 false true false 0 (MiB 400),
   mk_proc 1003 false false false 0 (MiB 300), mk_proc 1004 false false false 0 (MiB 250),
   mk_proc 1005 false false false 0 (MiB 250)]

/-- The records the scheduling algorithms reassign: neither suspended nor a
system process. -/
def eligible (p : ProcessInfo) : Bool := !p.is_suspended && !p.is_system

/-- The table an algorithm walks: sorted by its own key for FCFS, SJF and
PRIORITY, the table as it is for RR and HYBRID. -/
def algorithm_order (S : StdSort) (alg : SchedulingAlgorithm) (processes : List ProcessInfo) :
    List ProcessInfo :=
  match alg with
  | SchedulingAlgorithm.FCFS => S.sort by_pid processes
  | SchedulingAlgorithm.SJF => S.sort by_cpu_time processes
  | SchedulingAlgorithm.PRIORITY => S.sort by_priority processes
  | SchedulingAlgorithm.RR => processes
  | SchedulingAlgorithm.HYBRID => processes

/-- The record with its `priority` set to 0: two records agree on every other
field exactly when their images agree. -/
def clear_priority (p : ProcessInfo) : ProcessInfo := { p with priority := 0 }

/-- How SJF must order two eligible records of its result when the first has
strictly less accumulated CPU time. -/
def sjf_favours (a b : ProcessInfo) : Prop :=
  a.priority ≤ b.priority ∧ (b.priority < 19 → a.priority < b.priority)

/-- The four classes of `hybrid_schedule`, in the order in which their
priority bands follow each other. -/
inductive Bucket where
  | interactive
  | io_bound
  | background
  | cpu_bound
deriving DecidableEq

/-- The class `hybrid_schedule` puts a record in, `none` for a record it
skips: interactive if foreground, else cpu-bound above 70 % CPU, else io-bound
below 20 %, else background. -/
def hybrid_bucket (p : ProcessInfo) : Option Bucket :=
  if p.is_suspended || p.is_system then none
  else if p.is_foreground then some Bucket.interactive
  else if p.cpu_usage > 70 then some Bucket.cpu_bound
  else if p.cpu_usage < 20 then some Bucket.io_bound
  else some Bucket.background

/-- The first priority handed out in a class. -/
def bucket_start : Bucket → Int
  | Bucket.interactive => -15
  | Bucket.io_bound => -5
  | Bucket.background => 5
  | Bucket.cpu_bound => 10

/-- The cap of the priorities handed out in a class. -/
def bucket_ceiling : Bucket → Int
  | Bucket.interactive => -10
  | Bucket.io_bound => 0
  | Bucket.background => 10
  | Bucket.cpu_bound => 19

/-- The position of a class in the order interactive, io-bound, background,
cpu-bound. -/
def bucket_rank : Bucket → Nat
  | Bucket.interactive => 0
  | Bucket.io_bound => 1
  | Bucket.background => 2
  | Bucket.cpu_bound => 3

/-- The indices of the records of class `b`, in table order; `i` is the index
of the head of the list. -/
def bucket_indices (b : Bucket) : List ProcessInfo → Nat → List Nat
  | [], _ => []
  | p :: rest, i =>
    if hybrid_bucket p = some b then i :: bucket_indices b rest (i + 1)
    else bucket_indices b rest (i + 1)

/-- The loop `bucket_loop` written as one walk over the table instead of a
walk over a vector of pointers: every record of class `b` receives the running
`priority`, which is raised (capped at `ceiling`) only when `set_priority` did
not throw.  `bucket_loop_eq_pass` shows the two agree. -/
def bucket_pass (os : OS) (ceiling : Int) (b : Bucket) :
    List ProcessInfo → Int → List Call → List ProcessInfo × List Call
  | [], _, _ => ([], [])
  | p :: rest, priority, h =>
    if hybrid_bucket p = some b then
      match set_priority os p.pid priority h with
      | (.error _, c1) =>
        let rs := bucket_pass os ceiling b rest priority (h ++ c1)
        ({ p with priority := priority } :: rs.1, c1 ++ rs.2)
      | (.ok _, c1) =>
        let rs := bucket_pass os ceiling b rest (min ceiling (priority + 1)) (h ++ c1)
        ({ p with priority := priority } :: rs.1, c1 ++ rs.2)
    else
      let rs := bucket_pass os ceiling b rest priority h
      (p :: rs.1, rs.2)

/-- The four assignment loops of `hybrid_schedule` as four walks over the
table; `hybrid_schedule_eq_walk` shows it is `hybrid_schedule`. -/
def hybrid_walk (os : OS) (processes : List ProcessInfo) (h : List Call) :
    List ProcessInfo × List Call :=
  let r1 := bucket_pass os (-10) Bucket.interactive processes (-15) h
  let r2 := bucket_pass os 0 Bucket.io_bound r1.1 (-5) (h ++ r1.2)
  let r3 := bucket_pass os 10 Bucket.background r2.1 5 (h ++ r1.2 ++ r2.2)
  let r4 := bucket_pass os 19 Bucket.cpu_bound r3.1 10 (h ++ r1.2 ++ r2.2 ++ r3.2)
  (r4.1, r1.2 ++ r2.2 ++ r3.2 ++ r4.2)

/-- Every call of `set_priority` returns normally on this operating system
(the call succeeds or fails with `ESRCH`, which `set_priority` swallows). -/
def SetPriorityNeverThrows (os : OS) : Prop :=
  ∀ (h : List Call) (pid priority : Int), (set_priority os pid priority h).1 = .ok ()

/-- The number of records of class `b` among the first `i` records. -/
def bucket_count (b : Bucket) (processes : List ProcessInfo) (i : Nat) : Nat :=
  (processes.take i).countP (fun x => decide (hybrid_bucket x = some b))

/-- The pointer vector of class `b` among the four of `hybrid_schedule`. -/
def bucket_vector (bs : Buckets) : Bucket → List Nat
  | Bucket.interactive => bs.interactive
  | Bucket.io_bound => bs.io_bound
  | Bucket.background => bs.background
  | Bucket.cpu_bound => bs.cpu_bound

/-- The table of scenario S2: A foreground at 5 % CPU, B at 85 %, C at 10 %,
D at 50 %, pids 2001 to 2004, none suspended, none a system process. -/
def s2_table : List ProcessInfo :=
  [⟨2001, "A", false, true, false, 0, 0, 5, 0⟩, ⟨2002, "B", false, false, false, 0, 0, 85, 0⟩,
   ⟨2003, "C", false, false, false, 0, 0, 10, 0⟩, ⟨2004, "D", false, false, false, 0, 0, 50, 0⟩]

/-- The number of eligible records of the walked table whose suspend call
succeeds, each call being asked of the operating system after the calls for
all eligible records before it (every eligible record the walk reaches gets
exactly one call, whether it succeeds or not). -/
def suspend_successes (os : OS) (mem_threshold_mb : ℚ) : List ProcessInfo → List Call → Nat
  | [], _ => 0
  | p :: rest, h =>
    if suspend_eligible mem_threshold_mb p then
      (if os h (Call.kill p.pid Signal.SIGSTOP) = none then 1 else 0) +
        suspend_successes os mem_threshold_mb rest (h ++ [Call.kill p.pid Signal.SIGSTOP])
    else suspend_successes os mem_threshold_mb rest h

/-- An operating system that fails the first call it receives with `ESRCH` and
lets every later call succeed. -/
def os_first_fails : OS := fun h _ =>
  match h with
  | [] => some Errno.ESRCH
  | _ :: _ => none

/-! ## Controller state (`include/scheduler.h`, `src/scheduler/scheduler.cpp`) -/

/-- The data members of `class Scheduler` (the thread, the lock and the
condition variable left out; `running` is the atomic flag). -/
structure Scheduler where
  current_mode : Mode
  current_algorithm : SchedulingAlgorithm
  processes : List ProcessInfo
  running : Bool
  time_slice_ms : Int
  mem_threshold_mb : ℚ

/-- The constructor `Scheduler::Scheduler()`. -/
def Scheduler.construct : Scheduler :=
  { current_mode := Mode.PRODUCTIVITY
    current_algorithm := SchedulingAlgorithm.HYBRID
    processes := []
    running := false
    time_slice_ms := 5
    mem_threshold_mb := 200 }

/-- The method `Scheduler::set_mode`: store the mode and run the mode pass at once. -/
def Scheduler.set_mode (s : Scheduler) (os : OS) (mode : Mode) (h : List Call) :
    Scheduler × List Call :=
  let r := apply_mode_settings os mode s.mem_threshold_mb s.processes h
  ({ s with current_mode := mode, processes := r.1 }, r.2)

/-- The method `Scheduler::set_algorithm`. -/
def Scheduler.set_algorithm (s : Scheduler) (alg : SchedulingAlgorithm) : Scheduler :=
  { s with current_algorithm := alg }

/-- The method `Scheduler::set_custom_params`. -/
def Scheduler.set_custom_params (s : Scheduler) (time_slice_ms : Int) (mem_threshold_mb : ℚ) :
    Scheduler :=
  { s with time_slice_ms := max 1 time_slice_ms, mem_threshold_mb := max 50 mem_threshold_mb }

/-- The method `Scheduler::start_monitoring`, as far as the state goes. -/
def Scheduler.start_monitoring (s : Scheduler) : Scheduler :=
  if !s.running then { s with running := true } else s

/-- The method `Scheduler::stop_monitoring`, as far as the state goes. -/
def Scheduler.stop_monitoring (s : Scheduler) : Scheduler :=
  if s.running then { s with running := false } else s

/-- The method `Scheduler::adjust_priorities`. -/
def Scheduler.adjust_priorities (s : Scheduler) (os : OS) (h : List Call) :
    Scheduler × List Call :=
  let r := apply_mode_settings os s.current_mode s.mem_threshold_mb s.processes h
  ({ s with processes := r.1 }, r.2)

/-- One round of `Scheduler::monitoring_loop` that runs to its end: `probe` is the
table `get_running_processes` returned, `mem_usage` and `swap_usage` are the
readings `optimize_memory` takes.  The logger does not touch the state. -/
def Scheduler.monitoring_round (s : Scheduler) (S : StdSort) (os : OS)
    (probe : List ProcessInfo) (mem_usage swap_usage : ℚ) (h : List Call) :
    Scheduler × List Call :=
  let r1 := perform_scheduling S os s.current_algorithm probe h
  let r2 := optimize_memory S os mem_usage swap_usage s.mem_threshold_mb r1.1 (h ++ r1.2)
  ({ s with processes := r2.1 }, r1.2 ++ r2.2)

/-- The states the controller can be in: the constructed one, and each state
a public method or a monitoring round leads to from such a state. -/
inductive Reachable : Scheduler → Prop where
  | construct : Reachable Scheduler.construct
  | set_mode (s : Scheduler) (os : OS) (mode : Mode) (h : List Call) :
      Reachable s → Reachable (s.set_mode os mode h).1
  | set_algorithm (s : Scheduler) (alg : SchedulingAlgorithm) :
      Reachable s → Reachable (s.set_algorithm alg)
  | set_custom_params (s : Scheduler) (time_slice_ms : Int) (mem_threshold_mb : ℚ) :
      Reachable s → Reachable (s.set_custom_params time_slice_ms mem_threshold_mb)
  | start_monitoring (s : Scheduler) : Reachable s → Reachable s.start_monitoring
  | stop_monitoring (s : Scheduler) : Reachable s → Reachable s.stop_monitoring
  | adjust_priorities (s : Scheduler) (os : OS) (h : List Call) :
      Reachable s → Reachable (s.adjust_priorities os h).1
  | monitoring_round (s : Scheduler) (S : StdSort) (os : OS) (probe : List ProcessInfo)
      (mem_usage swap_usage : ℚ) (h : List Call) :
      Reachable s → Reachable (s.monitoring_round S os probe mem_usage swap_usage h).1

/-! ## OS probe: system-wide readings (`src/memory/memory_manager.cpp`) -/

/-- The values `get_system_memory_usage` parses out of `/proc/meminfo`
(`MemTotal`, `MemFree`, `Buffers`, `Cached`, `Slab`; 0 for a missing line). -/
structure MemInfo where
  total : Int
  free : Int
  buffers : Int
  cached : Int
  slab : Int

/-- The function `MemoryManager::get_system_memory_usage`; `none` when `/proc/meminfo` cannot
be opened. -/
def get_system_memory_usage (meminfo : Option MemInfo) : ℚ :=
  match meminfo with
  | none => 0
  | some m =>
    if m.total = 0 then 0
    else
      let used := m.total - m.free - m.buffers - m.cached - m.slab
      let used := max 0 used
      ((used : ℚ) * 100) / (m.total : ℚ)

/-- The values `get_swap_usage` parses out of `/proc/meminfo` (`SwapTotal`,
`SwapFree`). -/
structure SwapInfo where
  total : Int
  free : Int

/-- The function `MemoryManager::get_swap_usage`. -/
def get_swap_usage (swapinfo : Option SwapInfo) : ℚ :=
  match swapinfo with
  | none => 0
  | some m =>
    if m.total = 0 then 0 else (((m.total - m.free : Int) : ℚ) * 100) / (m.total : ℚ)

/-- The eight counters `get_cpu_usage` scans from the first line of
`/proc/stat`. -/
structure CpuTicks where
  user : Int
  nice : Int
  system : Int
  idle : Int
  iowait : Int
  irq : Int
  softirq : Int
  steal : Int

/-- The function-local statics of `get_cpu_usage`. -/
structure CpuSampler where
  first_call : Bool
  prev_total : Int
  prev_idle : Int
  prev_time : ℚ

/-- The sum `user + nice + system + idle + iowait + irq + softirq + steal`. -/
def CpuTicks.total (t : CpuTicks) : Int :=
  t.user + t.nice + t.system + t.idle + t.iowait + t.irq + t.softirq + t.steal

/-- The function `MemoryManager::get_cpu_usage`: the value returned and the statics
afterwards; `stat` is `none` when `/proc/stat` cannot be opened, `now` is
the steady clock in seconds. -/
def get_cpu_usage (st : CpuSampler) (stat : Option CpuTicks) (now : ℚ) : ℚ × CpuSampler :=
  match stat with
  | none => (0, st)
  | some t =>
    let total := t.total
    let elapsed := now - st.prev_time
    if !st.first_call && decide (elapsed ≥ 1 / 10) then
      let delta_total := total - st.prev_total
      let delta_idle := t.idle - st.prev_idle
      let cpu_usage : ℚ :=
        if delta_total > 0 then
          max 0 (min 100 (100 * ((delta_total - delta_idle : Int) : ℚ) / (delta_total : ℚ)))
        else 0
      (cpu_usage, { st with prev_total := total, prev_idle := t.idle, prev_time := now })
    else if st.first_call then
      (0, { first_call := false, prev_total := total, prev_idle := t.idle, prev_time := now })
    else (0, st)

/-! ## Telemetry (`src/analytics/performance_analyzer.cpp`) -/

/-- The statement `m[key]++` on a `std::map<std::string, int>`, the map held as a
list of pairs sorted by key. -/
def map_incr : List (String × Int) → String → List (String × Int)
  | [], key => [(key, 1)]
  | (k, v) :: rest, key =>
    if key = k then (k, v + 1) :: rest
    else if key < k then (key, 1) :: (k, v) :: rest
    else (k, v) :: map_incr rest key

/-- The static members of `class PerformanceAnalyzer`. -/
structure PerformanceAnalyzer where
  cpu_samples : List ℚ
  memory_samples : List ℚ
  process_counts : List (String × Int)

/-- The counting loop of `collect_sample`. -/
def count_processes : List ProcessInfo → List (String × Int) → List (String × Int)
  | [], counts => counts
  | proc :: rest, counts =>
    let counts :=
      if proc.is_system then map_incr counts "system"
      else if proc.is_foreground then map_incr counts "foreground"
      else map_incr counts "background"
    let counts := if proc.is_suspended then map_incr counts "suspended" else counts
    count_processes rest counts

/-- The function `PerformanceAnalyzer::collect_sample`. -/
def PerformanceAnalyzer.collect_sample (a : PerformanceAnalyzer) (processes : List ProcessInfo)
    (system_memory system_cpu : ℚ) : PerformanceAnalyzer :=
  let cpu_samples := a.cpu_samples ++ [system_cpu]
  let memory_samples := a.memory_samples ++ [system_memory]
  let cpu_samples := if cpu_samples.length > 100 then cpu_samples.tail else cpu_samples
  let memory_samples :=
    if memory_samples.length > 100 then memory_samples.tail else memory_samples
  { cpu_samples := cpu_samples
    memory_samples := memory_samples
    process_counts := count_processes processes [] }

/-- The function `PerformanceAnalyzer::reset_stats`. -/
def PerformanceAnalyzer.reset_stats (_a : PerformanceAnalyzer) : PerformanceAnalyzer :=
  { cpu_samples := [], memory_samples := [], process_counts := [] }

/-- The function `PerformanceAnalyzer::get_process_distribution`. -/
def PerformanceAnalyzer.get_process_distribution (a : PerformanceAnalyzer) :
    List (String × Int) :=
  a.process_counts

/-- A sequence of `collect_sample` calls, one per (table, memory %, CPU %)
offered, oldest first. -/
def PerformanceAnalyzer.collect_samples (a : PerformanceAnalyzer)
    (offered : List (List ProcessInfo × ℚ × ℚ)) : PerformanceAnalyzer :=
  offered.foldl (fun st x => st.collect_sample x.1 x.2.1 x.2.2) a

/-- The last `min(n, 100)` elements of a list of length `n`. -/
def last_hundred (l : List ℚ) : List ℚ := l.drop (l.length - 100)

/-! ## OS probe: the process table (`src/scheduler/process_manager.cpp`) -/

/-- The call `std::string::find(c)`: the index of the first `c`, `none` for `npos`. -/
def find_char (c : Char) : List Char → Option Nat
  | [] => none
  | x :: xs => if x = c then some 0 else (find_char c xs).map (fun i => i + 1)

/-- The call `std::string::rfind(c)`: the index of the last `c`, `none` for `npos`. -/
def rfind_char (c : Char) : List Char → Option Nat
  | [] => none
  | x :: xs =>
    match rfind_char c xs with
    | some i => some (i + 1)
    | none => if x = c then some 0 else none

/-- The call `std::string::substr(pos, len)` for `pos` within the string. -/
def substr (line : List Char) (pos len : Nat) : List Char := (line.drop pos).take len

/-- Whether `text` begins with `pat`. -/
def starts_with : List Char → List Char → Bool
  | [], _ => true
  | _ :: _, [] => false
  | a :: pat, b :: text => a == b && starts_with pat text

/-- The test `text.find(pat) != std::string::npos`. -/
def has_substring (pat : List Char) : List Char → Bool
  | [] => starts_with pat []
  | x :: xs => starts_with pat (x :: xs) || has_substring pat xs

/-- The command-name part of the stat parser: with `start` the first '(' and
`close` the last ')', the name `line.substr(start + 1, close - start - 1)`
and `close`, when both exist and `close > start`. -/
def parse_comm (line : List Char) : Option (List Char × Nat) :=
  match find_char '(' line, rfind_char ')' line with
  | some start, some close =>
    if close > start then some (substr line (start + 1) (close - start - 1), close) else none
  | _, _ => none

/-- The fields of the stat line the probe keeps of the thirteen it extracts
after the command name. -/
structure StatFields where
  state : Char
  tty_nr : Int
  utime : Int
  stime : Int

/-- What the operating system hands the probe for one numeric entry of
`/proc`: the pid `std::stoi(d_name)`, the first line of `stat` (`none` when
the file cannot be opened), the value of the `VmRSS:` line of `status` when
one is parsed, the value `getpriority` returns and whether `errno` is `ESRCH`
after it. -/
structure ProcReading where
  pid : Int
  stat_line : Option String
  vm_rss_kb : Option Int
  priority : Int
  errno_esrch : Bool

/-- The two function-local static maps of `get_running_processes`. -/
structure ProbeMemory where
  prev_cpu_times : Int → Option Int
  prev_times : Int → Option ℚ

/-- The block "Calculate CPU usage" of `get_running_processes`: `prev_cpu_time`
and `prev_time` are the entries of the two maps for the pid, `clk_tck` is
`sysconf(_SC_CLK_TCK)`. -/
def cpu_usage_of (prev_cpu_time : Option Int) (prev_time : Option ℚ) (cpu_time : Int)
    (now : ℚ) (clk_tck : Int) : ℚ :=
  match prev_cpu_time, prev_time with
  | some prev_cpu, some prev =>
    let elapsed := now - prev
    if elapsed > 1 / 10 then
      let delta_cpu := cpu_time - prev_cpu
      min (((delta_cpu : ℚ) * 100) / ((clk_tck : ℚ) * elapsed)) 100
    else 0
  | _, _ => 0

/-- The body of the enumeration loop of `get_running_processes` for one entry:
the record pushed (`none` when the entry is skipped) and the maps afterwards,
or the `std::out_of_range` of `line.substr(close + 2)`.  `parse_fields` is the
stream extraction of the fields after the command name. -/
def probe_entry (parse_fields : String → StatFields) (clk_tck : Int) (now : ℚ)
    (mem : ProbeMemory) (r : ProcReading) : Except String (Option ProcessInfo × ProbeMemory) :=
  let parsed : Except String (String × StatFields) :=
    match r.stat_line with
    | none => .ok ("", ⟨'?', 0, 0, 0⟩)
    | some line =>
      match parse_comm line.data with
      | none => .ok ("", ⟨'?', 0, 0, 0⟩)
      | some (name, close) =>
        if close + 2 > line.data.length then .error "basic_string::substr"
        else .ok (String.mk name, parse_fields (String.mk (line.data.drop (close + 2))))
  match parsed with
  | .error e => .error e
  | .ok (name, fields) =>
    if name.data.isEmpty then .ok (none, mem)
    else
      let cpu_time := fields.utime + fields.stime
      let mem_bytes := match r.vm_rss_kb with
        | some value => value * 1024
        | none => 0
      let cpu_usage :=
        cpu_usage_of (mem.prev_cpu_times r.pid) (mem.prev_times r.pid) cpu_time now clk_tck
      let mem' : ProbeMemory :=
        { prev_cpu_times := fun p => if p = r.pid then some cpu_time else mem.prev_cpu_times p
          prev_times := fun p => if p = r.pid then some now else mem.prev_times p }
      let is_fg := decide (fields.tty_nr > 0)
      let is_system := decide (r.pid < 1000) ||
        (fields.state == 'S' && has_substring "kworker".data name.data) ||
        has_substring "systemd".data name.data || has_substring "kthreadd".data name.data
      if r.errno_esrch then .ok (none, mem')
      else
        .ok (some ⟨r.pid, name, is_system, is_fg, fields.state == 'T', r.priority, mem_bytes,
          cpu_usage, cpu_time⟩, mem')

/-- The enumeration loop of `get_running_processes`. -/
def probe_loop (parse_fields : String → StatFields) (clk_tck : Int) (now : ℚ) :
    List ProcReading → ProbeMemory → List ProcessInfo →
      Except String (List ProcessInfo) × ProbeMemory
  | [], mem, processes => (.ok processes, mem)
  | r :: rest, mem, processes =>
    match probe_entry parse_fields clk_tck now mem r with
    | .error e => (.error e, mem)
    | .ok (none, mem') => probe_loop parse_fields clk_tck now rest mem' processes
    | .ok (some proc, mem') =>
      probe_loop parse_fields clk_tck now rest mem' (processes ++ [proc])

/-- The function `ProcessManager::get_running_processes`: `dir` lists the numeric
entries of `/proc` (`none` when it cannot be opened); entries of the maps for
pids no longer listed are erased before the enumeration. -/
def get_running_processes (parse_fields : String → StatFields) (clk_tck : Int) (now : ℚ)
    (mem : ProbeMemory) (dir : Option (List ProcReading)) :
    Except String (List ProcessInfo) × ProbeMemory :=
  match dir with
  | none => (.ok [], mem)
  | some entries =>
    let present := fun p => decide (p ∈ entries.map (fun r => r.pid))
    let mem : ProbeMemory :=
      { prev_cpu_times := fun p =>
          if (mem.prev_cpu_times p).isSome && !present p then none else mem.prev_cpu_times p
        prev_times := fun p =>
          if (mem.prev_cpu_times p).isSome && !present p then none else mem.prev_times p }
    probe_loop parse_fields clk_tck now entries mem []

/-- A stream extraction that reads state `S`, no terminal, 60 user and 40
system ticks, whatever the text. -/
def fields_sleeping : String → StatFields := fun _ => ⟨'S', 0, 60, 40⟩

/-- Probe memory holding one earlier sample: pid 4000 had 500 ticks at time 0. -/
def memory_4000 : ProbeMemory :=
  { prev_cpu_times := fun p => if p = 4000 then some 500 else none
    prev_times := fun p => if p = 4000 then some 0 else none }

/-- A reading for pid 4000, now a process named `worker` with priority 0. -/
def reading_4000 : ProcReading :=
  { pid := 4000, stat_line := some "4000 (worker) S 1 4000 4000 0 -1", vm_rss_kb := some 2048,
    priority := 0, errno_esrch := false }

/-- The record reduced to the fields no operation may change (pid, name,
is_system, is_foreground, memory_usage, cpu_usage, last_cpu_time): `priority`
and `is_suspended` are set to fixed values. -/
def record_identity (p : ProcessInfo) : ProcessInfo :=
  { p with priority := 0, is_suspended := false }

/-- An operating system that refuses the first call it receives for lack of
privilege and lets every later call succeed. -/
def os_first_denied : OS := fun h _ =>
  match h with
  | [] => some Errno.EPERM
  | _ :: _ => none

/-- Two foreground user processes, pids 2001 and 2002, at priority 0. -/
def two_interactive : List ProcessInfo :=
  [mk_proc 2001 false true false 0 0, mk_proc 2002 false true false 0 0]

/-- Whether a system call is a resume, `kill(pid, SIGCONT)`. -/
def is_resume : Call → Bool
  | Call.kill _ Signal.SIGCONT => true
  | _ => false

/-- The process a system call addresses. -/
def Call.pid : Call → Int
  | Call.setpriority pid _ => pid
  | Call.kill pid _ => pid

/-- Consecutive passes of `apply_mode_settings` in one mode (consecutive calls
of `adjust_priorities`): each pass walks the table the previous pass left, and
the operating system has seen the calls of every earlier pass. -/
def mode_passes (os : OS) (mode : Mode) (mem_threshold_mb : ℚ) :
    Nat → List ProcessInfo → List Call → List ProcessInfo × List Call
  | 0, processes, _ => (processes, [])
  | n + 1, processes, h =>
    let r := apply_mode_settings os mode mem_threshold_mb processes h
    let rs := mode_passes os mode mem_threshold_mb n r.1 (h ++ r.2)
    (rs.1, r.2 ++ rs.2)

/-- Closed form of the priority of a record after `n` Gaming passes: `n` steps
of `max(-15, priority - 5)` for a foreground record, of `min(15, priority + 5)`
for a background user record, none for the others. -/
def gaming_after (n : Nat) (p : ProcessInfo) : Int :=
  if p.pid ≤ 0 then p.priority
  else if n = 0 then p.priority
  else if p.is_foreground then max (-15) (p.priority - 5 * (n : Int))
  else if !p.is_system then min 15 (p.priority + 5 * (n : Int))
  else p.priority

/-! ## Actuator lemmas -/

theorem set_priority_calls (os : OS) (pid p : Int) (h : List Call) :
    (set_priority os pid p h).2 = [Call.setpriority pid (max (-20) (min 19 p))] := by
  simp only [set_priority]
  split <;> rfl

theorem send_signal_calls (os : OS) (sig : Signal) (verb : String) (pid : Int) (h : List Call) :
    (send_signal os sig verb pid h).2 = [Call.kill pid sig] := by
  simp only [send_signal]
  split <;> rfl

theorem suspend_process_calls (os : OS) (pid : Int) (h : List Call) :
    (suspend_process os pid h).2 = [Call.kill pid Signal.SIGSTOP] :=
  send_signal_calls os _ _ pid h

theorem resume_process_calls (os : OS) (pid : Int) (h : List Call) :
    (resume_process os pid h).2 = [Call.kill pid Signal.SIGCONT] :=
  send_signal_calls os _ _ pid h

/-! ## Priorities written by the mode pass -/

theorem apply_mode_proc_priority (os : OS) (mode : Mode) (thr : ℚ) (proc : ProcessInfo)
    (h : List Call) :
    (apply_mode_proc os mode thr proc h).1.priority =
      if proc.pid ≤ 0 then proc.priority else (mode_target mode thr proc).1 := by
  unfold apply_mode_proc
  by_cases hp : proc.pid ≤ 0
  · simp [hp]
  · simp only [hp, if_false]
    split
    · rfl
    · split
      · split <;> rfl
      · split
        · split <;> rfl
        · rfl

theorem mode_target_range (mode : Mode) (thr : ℚ) (proc : ProcessInfo)
    (hr : -20 ≤ proc.priority ∧ proc.priority ≤ 19) :
    -20 ≤ (mode_target mode thr proc).1 ∧ (mode_target mode thr proc).1 ≤ 19 := by
  obtain ⟨h1, h2⟩ := hr
  unfold mode_target
  cases mode <;> simp only <;> split_ifs <;> simp only <;> omega

theorem apply_mode_settings_range (os : OS) (mode : Mode) (thr : ℚ) :
    ∀ (processes : List ProcessInfo) (h : List Call), PriorityInRange processes →
      PriorityInRange (apply_mode_settings os mode thr processes h).1 := by
  intro processes
  induction processes with
  | nil => intro h _ p hp; simp [apply_mode_settings] at hp
  | cons proc rest ih =>
    intro h hr p hp
    simp only [apply_mode_settings, List.mem_cons] at hp
    rcases hp with hp | hp
    · subst hp
      rw [apply_mode_proc_priority]
      have hproc := hr proc (List.mem_cons_self _ _)
      split_ifs
      · exact hproc
      · exact mode_target_range mode thr proc hproc
    · exact ih _ (fun q hq => hr q (List.mem_cons_of_mem _ hq)) p hp

/-! ## Priorities written by the algorithms -/

theorem sequential_assign_range (os : OS) :
    ∀ (processes : List ProcessInfo) (priority : Int) (h : List Call), -21 ≤ priority →
      PriorityInRange processes →
      PriorityInRange (sequential_assign os processes priority h).1 := by
  intro processes
  induction processes with
  | nil => intro _ _ _ _ p hp; simp [sequential_assign] at hp
  | cons proc rest ih =>
    intro priority h hlo hr p hp
    have hrest : PriorityInRange rest := fun q hq => hr q (List.mem_cons_of_mem _ hq)
    unfold sequential_assign at hp
    split_ifs at hp
    · simp only [List.mem_cons] at hp
      rcases hp with hp | hp
      · subst hp
        simp only
        omega
      · exact ih _ _ (by omega) hrest p hp
    · simp only [List.mem_cons] at hp
      rcases hp with hp | hp
      · subst hp
        exact hr _ (List.mem_cons_self _ _)
      · exact ih _ _ hlo hrest p hp

theorem rr_schedule_range (os : OS) :
    ∀ (processes : List ProcessInfo) (h : List Call), PriorityInRange processes →
      PriorityInRange (rr_schedule os processes h).1 := by
  intro processes
  induction processes with
  | nil => intro _ _ p hp; simp [rr_schedule] at hp
  | cons proc rest ih =>
    intro h hr p hp
    have hrest : PriorityInRange rest := fun q hq => hr q (List.mem_cons_of_mem _ hq)
    unfold rr_schedule at hp
    split_ifs at hp
    · simp only [List.mem_cons] at hp
      rcases hp with hp | hp
      · subst hp
        simp
      · exact ih _ hrest p hp
    · simp only [List.mem_cons] at hp
      rcases hp with hp | hp
      · subst hp
        exact hr _ (List.mem_cons_self _ _)
      · exact ih _ hrest p hp

theorem bucket_loop_range (os : OS) (ceiling : Int) (hc : -20 ≤ ceiling ∧ ceiling ≤ 19) :
    ∀ (idxs : List Nat) (priority : Int) (processes : List ProcessInfo) (h : List Call),
      -20 ≤ priority → priority ≤ 19 → PriorityInRange processes →
      PriorityInRange (bucket_loop os ceiling idxs priority processes h).1 := by
  intro idxs
  induction idxs with
  | nil => intro _ _ _ _ _ hr; simpa [bucket_loop] using hr
  | cons i rest ih =>
    intro priority processes h hlo hhi hr
    unfold bucket_loop
    split
    · exact ih _ _ _ hlo hhi hr
    · rename_i proc hproc
      have hset : PriorityInRange (processes.set i { proc with priority := priority }) := by
        intro q hq
        rcases List.mem_or_eq_of_mem_set hq with hq | hq
        · exact hr q hq
        · subst hq
          exact ⟨hlo, hhi⟩
      simp only
      split
      · exact ih _ _ _ hlo hhi hset
      · exact ih _ _ _ (by omega) (by omega) hset

theorem sort_range (S : StdSort) (comp : ProcessInfo → ProcessInfo → Bool)
    (processes : List ProcessInfo) (hr : PriorityInRange processes) :
    PriorityInRange (S.sort comp processes) :=
  fun p hp => hr p ((S.perm comp processes).mem_iff.mp hp)

theorem hybrid_schedule_range (os : OS) (processes : List ProcessInfo) (h : List Call)
    (hr : PriorityInRange processes) : PriorityInRange (hybrid_schedule os processes h).1 := by
  unfold hybrid_schedule
  split_ifs
  · exact hr
  · simp only
    apply bucket_loop_range os 19 (by omega) _ _ _ _ (by omega) (by omega)
    apply bucket_loop_range os 10 (by omega) _ _ _ _ (by omega) (by omega)
    apply bucket_loop_range os 0 (by omega) _ _ _ _ (by omega) (by omega)
    exact bucket_loop_range os (-10) (by omega) _ _ _ _ (by omega) (by omega) hr

theorem perform_scheduling_range (S : StdSort) (os : OS) (alg : SchedulingAlgorithm)
    (processes : List ProcessInfo) (h : List Call) (hr : PriorityInRange processes) :
    PriorityInRange (perform_scheduling S os alg processes h).1 := by
  cases alg <;> simp only [perform_scheduling]
  · exact sequential_assign_range os _ _ _ (by omega) (sort_range S _ _ hr)
  · exact sequential_assign_range os _ _ _ (by omega) (sort_range S _ _ hr)
  · exact sort_range S _ _ hr
  · exact rr_schedule_range os _ _ hr
  · exact hybrid_schedule_range os _ _ hr

/-! ## The optimizer changes nothing but `is_suspended` -/

theorem suspend_loop_frame (os : OS) (thr : ℚ) :
    ∀ (processes : List ProcessInfo) (cnt : Int) (h : List Call),
      (suspend_loop os thr processes cnt h).1.map clear_suspended =
        processes.map clear_suspended := by
  intro processes
  induction processes with
  | nil => intro _ _; simp [suspend_loop]
  | cons proc rest ih =>
    intro cnt h
    unfold suspend_loop
    split_ifs
    · simp [ih]
    · simp [ih]
    · split
      · simp only
        split_ifs
        · simp [clear_suspended]
        · simp [ih, clear_suspended]
      · simp [ih]
    · simp [ih]

theorem resume_loop_frame (os : OS) :
    ∀ (processes : List ProcessInfo) (h : List Call),
      (resume_loop os processes h).1.map clear_suspended = processes.map clear_suspended := by
  intro processes
  induction processes with
  | nil => intro _; simp [resume_loop]
  | cons proc rest ih =>
    intro h
    unfold resume_loop
    split_ifs
    · split
      · simp [ih, clear_suspended]
      · simp [ih]
    · simp [ih]

theorem range_of_frame (l1 l2 : List ProcessInfo)
    (hf : l1.map clear_suspended = l2.map clear_suspended) (hr : PriorityInRange l2) :
    PriorityInRange l1 := by
  intro p hp
  have hm : clear_suspended p ∈ l2.map clear_suspended := hf ▸ List.mem_map_of_mem _ hp
  obtain ⟨q, hq, hqp⟩ := List.mem_map.mp hm
  have : q.priority = p.priority := by
    show (clear_suspended q).priority = (clear_suspended p).priority
    rw [hqp]
  rw [← this]
  exact hr q hq

theorem optimize_memory_range (S : StdSort) (os : OS) (mem swap thr : ℚ)
    (processes : List ProcessInfo) (h : List Call) (hr : PriorityInRange processes) :
    PriorityInRange (optimize_memory S os mem swap thr processes h).1 := by
  have h1 : PriorityInRange
      (if mem > 90 ∨ swap > 70 then
        suspend_loop os thr (S.sort by_memory_desc processes) 0 h
      else (processes, [])).1 := by
    split_ifs
    · exact range_of_frame _ _ (suspend_loop_frame os thr _ _ _) (sort_range S _ _ hr)
    · exact hr
  have key : ∀ r1 : List ProcessInfo × List Call, PriorityInRange r1.1 →
      PriorityInRange
        (if mem < 70 ∧ swap < 50 then resume_loop os r1.1 (h ++ r1.2) else (r1.1, [])).1 := by
    intro r1 hr1
    split_ifs
    · exact range_of_frame _ _ (resume_loop_frame os _ _) hr1
    · exact hr1
  exact key _ h1

/-! ## C1, C2 -/

/-- C1. If every record of the table has its priority in [-20, 19], then so has
every record after `apply_mode_settings` (any mode), after `perform_scheduling`
(any algorithm) and after `optimize_memory` (any memory and swap reading),
for every `std::sort`, every operating system and every call history. -/
theorem priority_range_invariant (S : StdSort) (os : OS) (h : List Call)
    (processes : List ProcessInfo) (hr : PriorityInRange processes) :
    (∀ (mode : Mode) (thr : ℚ), PriorityInRange (apply_mode_settings os mode thr processes h).1) ∧
    (∀ alg : SchedulingAlgorithm, PriorityInRange (perform_scheduling S os alg processes h).1) ∧
    (∀ mem swap thr : ℚ, PriorityInRange (optimize_memory S os mem swap thr processes h).1) :=
  ⟨fun mode thr => apply_mode_settings_range os mode thr processes h hr,
   fun alg => perform_scheduling_range S os alg processes h hr,
   fun mem swap thr => optimize_memory_range S os mem swap thr processes h hr⟩

/-- Witness of C1 on the table of scenario S3 (all priorities 0) with an
operating system that refuses every call. -/
theorem priority_range_invariant_witness :
    PriorityInRange s3_table ∧
    ((∀ (mode : Mode) (thr : ℚ),
        PriorityInRange (apply_mode_settings os_eperm mode thr s3_table []).1) ∧
     (∀ alg : SchedulingAlgorithm,
        PriorityInRange (perform_scheduling stable_sort os_eperm alg s3_table []).1) ∧
     (∀ mem swap thr : ℚ,
        PriorityInRange (optimize_memory stable_sort os_eperm mem swap thr s3_table []).1)) :=
  ⟨by simp [PriorityInRange, s3_table, mk_proc],
   priority_range_invariant stable_sort os_eperm [] s3_table
     (by simp [PriorityInRange, s3_table, mk_proc])⟩

/-- C2. `set_priority` issues exactly one system call, `setpriority` with the
value max(-20, min(19, p)); that value lies in [-20, 19] and is `p` itself when
`p` is already in the range. -/
theorem set_priority_clamps (os : OS) (pid p : Int) (h : List Call) :
    (set_priority os pid p h).2 = [Call.setpriority pid (max (-20) (min 19 p))] ∧
    (-20 ≤ max (-20) (min 19 p) ∧ max (-20) (min 19 p) ≤ 19) ∧
    (-20 ≤ p ∧ p ≤ 19 → (set_priority os pid p h).2 = [Call.setpriority pid p]) := by
  refine ⟨set_priority_calls os pid p h, by omega, ?_⟩
  intro hp
  rw [set_priority_calls]
  have : max (-20) (min 19 p) = p := by omega
  rw [this]

/-- Witness of C2: priority 5 for pid 1234 is passed on unchanged. -/
theorem set_priority_clamps_witness :
    ((-20 : Int) ≤ 5 ∧ (5 : Int) ≤ 19) ∧
    (set_priority os_ok 1234 5 []).2 = [Call.setpriority 1234 5] :=
  ⟨by decide, (set_priority_clamps os_ok 1234 5 []).2.2 (by decide)⟩

/-! ## The two branches of the optimizer -/

theorem pressure_excludes_relief (mem swap : ℚ) (hp : mem > 90 ∨ swap > 70) :
    ¬ (mem < 70 ∧ swap < 50) := by
  rintro ⟨h1, h2⟩
  rcases hp with hp | hp
  · linarith
  · linarith

theorem optimize_memory_pressure (S : StdSort) (os : OS) (mem swap thr : ℚ)
    (processes : List ProcessInfo) (h : List Call) (hp : mem > 90 ∨ swap > 70) :
    optimize_memory S os mem swap thr processes h =
      suspend_loop os thr (S.sort by_memory_desc processes) 0 h := by
  unfold optimize_memory
  simp [hp, pressure_excludes_relief mem swap hp]

theorem optimize_memory_relief (S : StdSort) (os : OS) (mem swap thr : ℚ)
    (processes : List ProcessInfo) (h : List Call) (hm : mem < 70) (hs : swap < 50) :
    optimize_memory S os mem swap thr processes h = resume_loop os processes h := by
  have hnp : ¬ (mem > 90 ∨ swap > 70) := fun hp =>
    pressure_excludes_relief mem swap hp ⟨hm, hs⟩
  unfold optimize_memory
  simp [hnp, hm, hs]

theorem optimize_memory_idle (S : StdSort) (os : OS) (mem swap thr : ℚ)
    (processes : List ProcessInfo) (h : List Call) (hnp : ¬ (mem > 90 ∨ swap > 70))
    (hnr : ¬ (mem < 70 ∧ swap < 50)) :
    optimize_memory S os mem swap thr processes h = (processes, []) := by
  unfold optimize_memory
  simp [hnp, hnr]

theorem suspend_loop_calls_stop (os : OS) (thr : ℚ) :
    ∀ (processes : List ProcessInfo) (cnt : Int) (h : List Call),
      ∀ c ∈ (suspend_loop os thr processes cnt h).2, ∃ p ∈ processes,
        c = Call.kill p.pid Signal.SIGSTOP ∧ suspend_eligible thr p = true := by
  intro processes
  induction processes with
  | nil => intro _ _ c hc; simp [suspend_loop] at hc
  | cons proc rest ih =>
    intro cnt h c hc
    have lift : (∃ p ∈ rest, c = Call.kill p.pid Signal.SIGSTOP ∧ suspend_eligible thr p = true) →
        ∃ p ∈ proc :: rest, c = Call.kill p.pid Signal.SIGSTOP ∧
          suspend_eligible thr p = true := by
      rintro ⟨p, hp, hcp⟩
      exact ⟨p, List.mem_cons_of_mem _ hp, hcp⟩
    unfold suspend_loop at hc
    split_ifs at hc with h1 h2 h3
    · exact lift (ih _ _ c hc)
    · exact lift (ih _ _ c hc)
    · have helig : suspend_eligible thr proc = true := by
        simp only [Bool.or_eq_true, not_or, Bool.not_eq_true] at h1
        simp only [Bool.not_eq_true] at h2
        simp [suspend_eligible, h1.1, h1.2, h2, h3]
      have hhead : c ∈ (suspend_process os proc.pid h).2 →
          ∃ p ∈ proc :: rest, c = Call.kill p.pid Signal.SIGSTOP ∧
            suspend_eligible thr p = true := by
        intro hc1
        rw [suspend_process_calls] at hc1
        exact ⟨proc, List.mem_cons_self _ _, List.mem_singleton.mp hc1, helig⟩
      split at hc
      · rename_i u c1 heq
        have hc1 : c1 = (suspend_process os proc.pid h).2 := by rw [heq]
        simp only at hc
        split_ifs at hc
        · exact hhead (hc1 ▸ hc)
        · rcases List.mem_append.mp hc with hc | hc
          · exact hhead (hc1 ▸ hc)
          · exact lift (ih _ _ c hc)
      · rename_i e c1 heq
        have hc1 : c1 = (suspend_process os proc.pid h).2 := by rw [heq]
        rcases List.mem_append.mp hc with hc | hc
        · exact hhead (hc1 ▸ hc)
        · exact lift (ih _ _ c hc)
    · exact lift (ih _ _ c hc)

theorem resume_loop_calls_cont (os : OS) :
    ∀ (processes : List ProcessInfo) (h : List Call),
      ∀ c ∈ (resume_loop os processes h).2, ∃ p ∈ processes,
        c = Call.kill p.pid Signal.SIGCONT ∧ resume_eligible p = true := by
  intro processes
  induction processes with
  | nil => intro _ c hc; simp [resume_loop] at hc
  | cons proc rest ih =>
    intro h c hc
    have lift : (∃ p ∈ rest, c = Call.kill p.pid Signal.SIGCONT ∧ resume_eligible p = true) →
        ∃ p ∈ proc :: rest, c = Call.kill p.pid Signal.SIGCONT ∧ resume_eligible p = true := by
      rintro ⟨p, hp, hcp⟩
      exact ⟨p, List.mem_cons_of_mem _ hp, hcp⟩
    unfold resume_loop at hc
    split_ifs at hc with h1
    · have hhead : c ∈ (resume_process os proc.pid h).2 →
          ∃ p ∈ proc :: rest, c = Call.kill p.pid Signal.SIGCONT ∧
            resume_eligible p = true := by
        intro hc1
        rw [resume_process_calls] at hc1
        exact ⟨proc, List.mem_cons_self _ _, List.mem_singleton.mp hc1, h1⟩
      split at hc
      · rename_i u c1 heq
        have hc1 : c1 = (resume_process os proc.pid h).2 := by rw [heq]
        rcases List.mem_append.mp hc with hc | hc
        · exact hhead (hc1 ▸ hc)
        · exact lift (ih _ c hc)
      · rename_i e c1 heq
        have hc1 : c1 = (resume_process os proc.pid h).2 := by rw [heq]
        rcases List.mem_append.mp hc with hc | hc
        · exact hhead (hc1 ▸ hc)
        · exact lift (ih _ c hc)
    · exact lift (ih _ c hc)

theorem zip_self_pairs (l : List ProcessInfo) : ∀ ab ∈ List.zip l l, ab.2 = ab.1 := by
  induction l with
  | nil => intro ab hab; simp at hab
  | cons a l ih =>
    intro ab hab
    simp only [List.zip_cons_cons, List.mem_cons] at hab
    rcases hab with hab | hab
    · rw [hab]
    · exact ih ab hab

theorem suspend_loop_pairs (os : OS) (thr : ℚ) :
    ∀ (processes : List ProcessInfo) (cnt : Int) (h : List Call),
      ∀ ab ∈ List.zip processes (suspend_loop os thr processes cnt h).1,
        ab.2 = ab.1 ∨
        (suspend_eligible thr ab.1 = true ∧ ab.2 = { ab.1 with is_suspended := true }) := by
  intro processes
  induction processes with
  | nil => intro _ _ ab hab; simp [suspend_loop] at hab
  | cons proc rest ih =>
    intro cnt h ab hab
    unfold suspend_loop at hab
    split_ifs at hab with h1 h2 h3
    · simp only [List.zip_cons_cons, List.mem_cons] at hab
      rcases hab with hab | hab
      · exact Or.inl (by rw [hab])
      · exact ih _ _ ab hab
    · simp only [List.zip_cons_cons, List.mem_cons] at hab
      rcases hab with hab | hab
      · exact Or.inl (by rw [hab])
      · exact ih _ _ ab hab
    · have helig : suspend_eligible thr proc = true := by
        simp only [Bool.or_eq_true, not_or, Bool.not_eq_true] at h1
        simp only [Bool.not_eq_true] at h2
        simp [suspend_eligible, h1.1, h1.2, h2, h3]
      split at hab
      · simp only at hab
        split_ifs at hab
        · simp only [List.zip_cons_cons, List.mem_cons] at hab
          rcases hab with hab | hab
          · exact Or.inr (by rw [hab]; exact ⟨helig, rfl⟩)
          · exact Or.inl (zip_self_pairs rest ab hab)
        · simp only [List.zip_cons_cons, List.mem_cons] at hab
          rcases hab with hab | hab
          · exact Or.inr (by rw [hab]; exact ⟨helig, rfl⟩)
          · exact ih _ _ ab hab
      · simp only [List.zip_cons_cons, List.mem_cons] at hab
        rcases hab with hab | hab
        · exact Or.inl (by rw [hab])
        · exact ih _ _ ab hab
    · simp only [List.zip_cons_cons, List.mem_cons] at hab
      rcases hab with hab | hab
      · exact Or.inl (by rw [hab])
      · exact ih _ _ ab hab

theorem resume_loop_pairs (os : OS) :
    ∀ (processes : List ProcessInfo) (h : List Call),
      ∀ ab ∈ List.zip processes (resume_loop os processes h).1,
        ab.2 = ab.1 ∨ ab.2 = { ab.1 with is_suspended := false } := by
  intro processes
  induction processes with
  | nil => intro _ ab hab; simp [resume_loop] at hab
  | cons proc rest ih =>
    intro h ab hab
    unfold resume_loop at hab
    split_ifs at hab with h1
    · split at hab
      · simp only [List.zip_cons_cons, List.mem_cons] at hab
        rcases hab with hab | hab
        · exact Or.inr (by rw [hab])
        · exact ih _ ab hab
      · simp only [List.zip_cons_cons, List.mem_cons] at hab
        rcases hab with hab | hab
        · exact Or.inl (by rw [hab])
        · exact ih _ ab hab
    · simp only [List.zip_cons_cons, List.mem_cons] at hab
      rcases hab with hab | hab
      · exact Or.inl (by rw [hab])
      · exact ih _ ab hab

theorem countP_newly_zero (l r : List ProcessInfo)
    (hp : ∀ ab ∈ List.zip l r, ab.2 = ab.1 ∨ ab.2 = { ab.1 with is_suspended := false }) :
    (List.zip l r).countP newly_suspended = 0 := by
  rw [List.countP_eq_zero]
  intro ab hab
  rcases hp ab hab with h1 | h1
  · simp [newly_suspended, h1]
  · simp [newly_suspended, h1]

theorem suspend_loop_cap (os : OS) (thr : ℚ) :
    ∀ (processes : List ProcessInfo) (cnt : Int) (h : List Call), cnt ≤ 2 →
      (((List.zip processes (suspend_loop os thr processes cnt h).1).countP
        newly_suspended : Nat) : Int) ≤ 3 - cnt := by
  intro processes
  induction processes with
  | nil => intro cnt _ hc; simp [suspend_loop]; omega
  | cons proc rest ih =>
    intro cnt h hc
    have hsame : ∀ (r : List ProcessInfo),
        (List.zip (proc :: rest) (proc :: r)).countP newly_suspended =
          (List.zip rest r).countP newly_suspended := by
      intro r
      simp [List.zip_cons_cons, List.countP_cons, newly_suspended]
    unfold suspend_loop
    split_ifs with h1 h2 h3
    · simp only [hsame]
      exact ih _ _ hc
    · simp only [hsame]
      exact ih _ _ hc
    · split
      · simp only
        split_ifs with h4
        · have h0 : (List.zip rest rest).countP newly_suspended = 0 :=
            countP_newly_zero _ _ (fun ab hab => Or.inl (zip_self_pairs rest ab hab))
          simp only [List.zip_cons_cons, List.countP_cons, h0]
          split_ifs <;> omega
        · have := ih (cnt + 1) (h ++ (suspend_process os proc.pid h).2) (by omega)
          rename_i u c1 heq
          have hc1 : c1 = (suspend_process os proc.pid h).2 := by rw [heq]
          subst hc1
          simp only [List.zip_cons_cons, List.countP_cons]
          split_ifs <;> omega
      · simp only [hsame]
        exact ih _ _ hc
    · simp only [hsame]
      exact ih _ _ hc

/-! ## C4, C5, C6 -/

/-- C4. For every table, reading, threshold, `std::sort` and operating
system, the table `optimize_memory` returns is, record by record, the table
it walked (`optimizer_order`) up to the `is_suspended` flags, and at most 3
records went from `is_suspended = false` to `is_suspended = true`. -/
theorem optimize_memory_suspension_cap (S : StdSort) (os : OS) (mem swap thr : ℚ)
    (processes : List ProcessInfo) (h : List Call) :
    (optimize_memory S os mem swap thr processes h).1.map clear_suspended =
      (optimizer_order S mem swap processes).map clear_suspended ∧
    (List.zip (optimizer_order S mem swap processes)
      (optimize_memory S os mem swap thr processes h).1).countP newly_suspended ≤ 3 := by
  unfold optimizer_order
  by_cases hp : mem > 90 ∨ swap > 70
  · rw [optimize_memory_pressure S os mem swap thr processes h hp, if_pos hp]
    refine ⟨suspend_loop_frame os thr _ _ _, ?_⟩
    have := suspend_loop_cap os thr (S.sort by_memory_desc processes) 0 h (by omega)
    omega
  · rw [if_neg hp]
    by_cases hr : mem < 70 ∧ swap < 50
    · rw [optimize_memory_relief S os mem swap thr processes h hr.1 hr.2]
      refine ⟨resume_loop_frame os _ _, ?_⟩
      rw [countP_newly_zero _ _ (resume_loop_pairs os processes h)]
      omega
    · rw [optimize_memory_idle S os mem swap thr processes h hp hr]
      refine ⟨rfl, ?_⟩
      rw [countP_newly_zero _ _ (fun ab hab => Or.inl (zip_self_pairs processes ab hab))]
      omega

/-- C5. Every suspend `optimize_memory` issues is for the pid of a record of
the table that is not a system process, not foreground, not marked suspended
and strictly above the threshold; every record that ends newly marked
suspended is such a record; and a table in which no record is strictly above
the threshold (records exactly at it included) sees no suspend at all. -/
theorem optimize_memory_suspend_targets (S : StdSort) (os : OS) (mem swap thr : ℚ)
    (processes : List ProcessInfo) (h : List Call) :
    (∀ pid, Call.kill pid Signal.SIGSTOP ∈ (optimize_memory S os mem swap thr processes h).2 →
      ∃ p ∈ processes, p.pid = pid ∧ p.is_system = false ∧ p.is_foreground = false ∧
        p.is_suspended = false ∧ (p.memory_usage : ℚ) > thr * 1024 * 1024) ∧
    (∀ ab ∈ List.zip (optimizer_order S mem swap processes)
        (optimize_memory S os mem swap thr processes h).1,
      ab.1.is_suspended = false → ab.2.is_suspended = true →
        ab.1.is_system = false ∧ ab.1.is_foreground = false ∧
          (ab.1.memory_usage : ℚ) > thr * 1024 * 1024) ∧
    ((∀ p ∈ processes, (p.memory_usage : ℚ) ≤ thr * 1024 * 1024) →
      ∀ pid, Call.kill pid Signal.SIGSTOP ∉ (optimize_memory S os mem swap thr processes h).2) := by
  have helig : ∀ p : ProcessInfo, suspend_eligible thr p = true →
      p.is_system = false ∧ p.is_foreground = false ∧ p.is_suspended = false ∧
        (p.memory_usage : ℚ) > thr * 1024 * 1024 := by
    intro p hp
    simp only [suspend_eligible, Bool.and_eq_true, Bool.not_eq_true', decide_eq_true_eq] at hp
    exact ⟨hp.1.1.1, hp.1.2, hp.1.1.2, hp.2⟩
  have hcalls : ∀ pid,
      Call.kill pid Signal.SIGSTOP ∈ (optimize_memory S os mem swap thr processes h).2 →
      ∃ p ∈ processes, p.pid = pid ∧ p.is_system = false ∧ p.is_foreground = false ∧
        p.is_suspended = false ∧ (p.memory_usage : ℚ) > thr * 1024 * 1024 := by
    intro pid hc
    by_cases hp : mem > 90 ∨ swap > 70
    · rw [optimize_memory_pressure S os mem swap thr processes h hp] at hc
      obtain ⟨p, hmem, hcp, he⟩ := suspend_loop_calls_stop os thr _ _ _ _ hc
      have hpid : p.pid = pid := by
        injection hcp with h1 h2
        exact h1.symm
      exact ⟨p, (S.perm _ _).mem_iff.mp hmem, hpid, helig p he⟩
    · by_cases hr : mem < 70 ∧ swap < 50
      · rw [optimize_memory_relief S os mem swap thr processes h hr.1 hr.2] at hc
        obtain ⟨p, _, hcp, _⟩ := resume_loop_calls_cont os _ _ _ hc
        injection hcp with h1 h2
        exact absurd h2 (by decide)
      · rw [optimize_memory_idle S os mem swap thr processes h hp hr] at hc
        simp at hc
  refine ⟨hcalls, ?_, ?_⟩
  · intro ab hab hbefore hafter
    unfold optimizer_order at hab
    by_cases hp : mem > 90 ∨ swap > 70
    · rw [optimize_memory_pressure S os mem swap thr processes h hp, if_pos hp] at hab
      rcases suspend_loop_pairs os thr _ _ _ ab hab with h1 | ⟨h1, _⟩
      · rw [h1, hbefore] at hafter
        exact absurd hafter (by decide)
      · have := helig ab.1 h1
        exact ⟨this.1, this.2.1, this.2.2.2⟩
    · rw [if_neg hp] at hab
      have hpairs : ab.2 = ab.1 ∨ ab.2 = { ab.1 with is_suspended := false } := by
        by_cases hr : mem < 70 ∧ swap < 50
        · rw [optimize_memory_relief S os mem swap thr processes h hr.1 hr.2] at hab
          exact resume_loop_pairs os _ _ ab hab
        · rw [optimize_memory_idle S os mem swap thr processes h hp hr] at hab
          exact Or.inl (zip_self_pairs processes ab hab)
      rcases hpairs with h1 | h1
      · rw [h1, hbefore] at hafter
        exact absurd hafter (by decide)
      · rw [h1] at hafter
        simp at hafter
  · intro hall pid hc
    obtain ⟨p, hmem, _, _, _, _, hgt⟩ := hcalls pid hc
    exact absurd hgt (not_lt.mpr (hall p hmem))

/-- C6. In the dead zone, 70 ≤ mem ≤ 90 and 50 ≤ swap ≤ 70, `optimize_memory`
returns the table as it was and issues no call at all. -/
theorem optimize_memory_dead_zone (S : StdSort) (os : OS) (mem swap thr : ℚ)
    (processes : List ProcessInfo) (h : List Call)
    (hm1 : 70 ≤ mem) (hm2 : mem ≤ 90) (_hs1 : 50 ≤ swap) (hs2 : swap ≤ 70) :
    optimize_memory S os mem swap thr processes h = (processes, []) := by
  apply optimize_memory_idle
  · rintro (hp | hp)
    · exact absurd hp (not_lt.mpr hm2)
    · exact absurd hp (not_lt.mpr hs2)
  · rintro ⟨hr, _⟩
    exact absurd hr (not_lt.mpr hm1)

/-- Witness of C6: memory 80 %, swap 60 %, on the table of scenario S3. -/
theorem optimize_memory_dead_zone_witness :
    ((70 : ℚ) ≤ 80 ∧ (80 : ℚ) ≤ 90 ∧ (50 : ℚ) ≤ 60 ∧ (60 : ℚ) ≤ 70) ∧
    optimize_memory stable_sort os_ok 80 60 100 s3_table [] = (s3_table, []) :=
  ⟨by norm_num,
   optimize_memory_dead_zone stable_sort os_ok 80 60 100 s3_table []
     (by norm_num) (by norm_num) (by norm_num) (by norm_num)⟩

/-! ## C7 -/

theorem send_signal_ok (os : OS) (sig : Signal) (verb : String) (pid : Int) (h : List Call)
    (hok : os h (Call.kill pid sig) = none) :
    send_signal os sig verb pid h = (.ok (), [Call.kill pid sig]) := by
  simp only [send_signal, hok]

theorem resume_loop_all_ok (os : OS)
    (hok : ∀ (h : List Call) (pid : Int), os h (Call.kill pid Signal.SIGCONT) = none) :
    ∀ (processes : List ProcessInfo) (h : List Call),
      resume_loop os processes h =
        (processes.map (fun p =>
            if resume_eligible p then { p with is_suspended := false } else p),
         (processes.filter resume_eligible).map (fun p => Call.kill p.pid Signal.SIGCONT)) := by
  intro processes
  induction processes with
  | nil => intro _; simp [resume_loop]
  | cons proc rest ih =>
    intro h
    unfold resume_loop
    by_cases h1 : (proc.is_suspended && !proc.is_system) = true
    · have h2 : resume_eligible proc = true := h1
      rw [if_pos h1, resume_process, send_signal_ok os _ _ _ _ (hok h proc.pid)]
      simp only [ih, List.map_cons, List.filter_cons, h2, if_true, List.singleton_append]
    · have h2 : ¬ resume_eligible proc = true := h1
      rw [if_neg h1]
      simp only [ih, List.map_cons, List.filter_cons, h2, if_false]
      rfl

/-- C7. When mem < 70 and swap < 50 and every resume call succeeds,
`optimize_memory` issues, in table order, one resume for each record with
`is_suspended && !is_system` and nothing else (so no suspend), returns the
table in the same order with exactly those records marked not suspended, and
leaves every system record as it was.  Moreover no call of `optimize_memory`,
under any reading and any operating system, issues both a suspend and a
resume. -/
theorem optimize_memory_resume_rule (S : StdSort) (os : OS) (mem swap thr : ℚ)
    (processes : List ProcessInfo) (h : List Call) (hm : mem < 70) (hs : swap < 50)
    (hok : ∀ (h' : List Call) (pid : Int), os h' (Call.kill pid Signal.SIGCONT) = none) :
    (optimize_memory S os mem swap thr processes h).2 =
      (processes.filter (fun p => p.is_suspended && !p.is_system)).map
        (fun p => Call.kill p.pid Signal.SIGCONT) ∧
    (optimize_memory S os mem swap thr processes h).1 =
      processes.map (fun p =>
        if p.is_suspended && !p.is_system then { p with is_suspended := false } else p) ∧
    (∀ pid, Call.kill pid Signal.SIGSTOP ∉ (optimize_memory S os mem swap thr processes h).2) ∧
    (∀ ab ∈ List.zip processes (optimize_memory S os mem swap thr processes h).1,
      ab.1.is_system = true → ab.2 = ab.1) ∧
    (∀ (S' : StdSort) (os' : OS) (mem' swap' thr' : ℚ) (processes' : List ProcessInfo)
        (h' : List Call),
      ¬ ((∃ pid, Call.kill pid Signal.SIGSTOP ∈
            (optimize_memory S' os' mem' swap' thr' processes' h').2) ∧
         (∃ pid, Call.kill pid Signal.SIGCONT ∈
            (optimize_memory S' os' mem' swap' thr' processes' h').2))) := by
  have hrun := optimize_memory_relief S os mem swap thr processes h hm hs
  have hall := resume_loop_all_ok os hok processes h
  refine ⟨?_, ?_, ?_, ?_, ?_⟩
  · rw [hrun, hall]
    rfl
  · rw [hrun, hall]
    rfl
  · intro pid hc
    rw [hrun] at hc
    obtain ⟨p, _, hcp, _⟩ := resume_loop_calls_cont os _ _ _ hc
    injection hcp with h1 h2
    exact absurd h2 (by decide)
  · intro ab hab hsys
    rw [hrun] at hab
    rcases resume_loop_pairs os processes h ab hab with h1 | h1
    · exact h1
    · rw [hrun, hall] at *
      clear hrun hall
      simp only at hab
      rw [List.zip_map_right, List.mem_map] at hab
      obtain ⟨⟨x, y⟩, hxy, hmap⟩ := hab
      have hxy2 := zip_self_pairs processes _ hxy
      simp only at hxy2
      subst hxy2
      rw [← hmap] at hsys ⊢
      simp only [Prod.map_apply, id_eq] at hsys ⊢
      simp [resume_eligible, hsys]
  · intro S' os' mem' swap' thr' processes' h' hboth
    obtain ⟨⟨pid1, hstop⟩, ⟨pid2, hcont⟩⟩ := hboth
    by_cases hp : mem' > 90 ∨ swap' > 70
    · rw [optimize_memory_pressure S' os' mem' swap' thr' processes' h' hp] at hcont
      obtain ⟨p, _, hcp, _⟩ := suspend_loop_calls_stop os' thr' _ _ _ _ hcont
      injection hcp with h1 h2
      exact absurd h2 (by decide)
    · by_cases hr : mem' < 70 ∧ swap' < 50
      · rw [optimize_memory_relief S' os' mem' swap' thr' processes' h' hr.1 hr.2] at hstop
        obtain ⟨p, _, hcp, _⟩ := resume_loop_calls_cont os' _ _ _ hstop
        injection hcp with h1 h2
        exact absurd h2 (by decide)
      · rw [optimize_memory_idle S' os' mem' swap' thr' processes' h' hp hr] at hstop
        simp at hstop

/-- Witness of C7 (scenario S4): memory 55 %, swap 10 %, on a table with a
stopped user process and a stopped system process. -/
theorem optimize_memory_resume_rule_witness :
    (((55 : ℚ) < 70 ∧ (10 : ℚ) < 50) ∧
      ∀ (h' : List Call) (pid : Int), os_ok h' (Call.kill pid Signal.SIGCONT) = none) ∧
    (optimize_memory stable_sort os_ok 55 10 100 stopped_table []).2 =
      [Call.kill 2001 Signal.SIGCONT] ∧
    (optimize_memory stable_sort os_ok 55 10 100 stopped_table []).1.map
      (fun p => (p.pid, p.is_suspended)) = [(2001, false), (12, true), (2002, false)] := by
  have hw := optimize_memory_resume_rule stable_sort os_ok 55 10 100 stopped_table []
    (by norm_num) (by norm_num) (fun _ _ => rfl)
  refine ⟨⟨by norm_num, fun _ _ => rfl⟩, ?_, ?_⟩
  · rw [hw.1]
    decide
  · rw [hw.2.1]
    decide

/-! ## C3 -/

theorem suspend_eligible_iff (thr : ℚ) (p : ProcessInfo) :
    suspend_eligible thr p = true ↔
      ¬ ((p.is_system || p.is_suspended) = true) ∧ ¬ (p.is_foreground = true) ∧
        (p.memory_usage : ℚ) > thr * 1024 * 1024 := by
  simp only [suspend_eligible, Bool.and_eq_true, Bool.not_eq_true', decide_eq_true_eq,
    Bool.or_eq_true, not_or, Bool.not_eq_true]
  tauto

theorem suspend_loop_skip (os : OS) (thr : ℚ) (proc : ProcessInfo) (rest : List ProcessInfo)
    (cnt : Int) (h : List Call) (hne : ¬ suspend_eligible thr proc = true) :
    suspend_loop os thr (proc :: rest) cnt h =
      (proc :: (suspend_loop os thr rest cnt h).1, (suspend_loop os thr rest cnt h).2) := by
  rw [suspend_eligible_iff] at hne
  conv_lhs => unfold suspend_loop
  split_ifs with h1 h2 h3
  · rfl
  · rfl
  · exact absurd ⟨h1, h2, h3⟩ hne
  · rfl

theorem suspend_loop_hit (os : OS) (thr : ℚ) (proc : ProcessInfo) (rest : List ProcessInfo)
    (cnt : Int) (h : List Call) (he : suspend_eligible thr proc = true)
    (hok : os h (Call.kill proc.pid Signal.SIGSTOP) = none) :
    suspend_loop os thr (proc :: rest) cnt h =
      if cnt + 1 ≥ 3 then
        ({ proc with is_suspended := true } :: rest, [Call.kill proc.pid Signal.SIGSTOP])
      else
        ({ proc with is_suspended := true } ::
            (suspend_loop os thr rest (cnt + 1) (h ++ [Call.kill proc.pid Signal.SIGSTOP])).1,
          Call.kill proc.pid Signal.SIGSTOP ::
            (suspend_loop os thr rest (cnt + 1) (h ++ [Call.kill proc.pid Signal.SIGSTOP])).2) := by
  rw [suspend_eligible_iff] at he
  obtain ⟨h1, h2, h3⟩ := he
  conv_lhs => unfold suspend_loop
  rw [if_neg h1, if_neg h2, if_pos h3, suspend_process, send_signal_ok os _ _ _ _ hok]
  rfl

theorem suspend_loop_all_ok_calls (os : OS) (thr : ℚ)
    (hok : ∀ (h : List Call) (pid : Int), os h (Call.kill pid Signal.SIGSTOP) = none) :
    ∀ (processes : List ProcessInfo) (cnt : Int) (h : List Call), cnt ≤ 2 →
      (suspend_loop os thr processes cnt h).2 =
        ((processes.filter (suspend_eligible thr)).take (3 - cnt).toNat).map
          (fun p => Call.kill p.pid Signal.SIGSTOP) := by
  intro processes
  induction processes with
  | nil => intro _ _ _; simp [suspend_loop]
  | cons proc rest ih =>
    intro cnt h hc
    by_cases he : suspend_eligible thr proc = true
    · rw [suspend_loop_hit os thr proc rest cnt h he (hok _ _), List.filter_cons, if_pos he]
      obtain ⟨n, hn⟩ : ∃ n : Nat, (3 - cnt).toNat = n + 1 := ⟨(3 - cnt).toNat - 1, by omega⟩
      rw [hn, List.take_succ_cons, List.map_cons]
      split_ifs with h3
      · have : n = 0 := by omega
        subst this
        simp
      · have hn2 : (3 - (cnt + 1)).toNat = n := by omega
        simp only [ih (cnt + 1) _ (by omega), hn2]
    · rw [suspend_loop_skip os thr proc rest cnt h he, List.filter_cons, if_neg he]
      exact ih cnt h hc

theorem suspend_loop_all_ok_table (os : OS) (thr : ℚ)
    (hok : ∀ (h : List Call) (pid : Int), os h (Call.kill pid Signal.SIGSTOP) = none) :
    ∀ (processes : List ProcessInfo) (cnt : Int) (h : List Call) (i : Nat) (p : ProcessInfo),
      cnt ≤ 2 → processes[i]? = some p →
      (suspend_loop os thr processes cnt h).1[i]? =
        some (if suspend_eligible thr p = true ∧
                cnt + ((processes.take i).countP (suspend_eligible thr) : Nat) < 3
              then { p with is_suspended := true } else p) := by
  intro processes
  induction processes with
  | nil => intro _ _ i p _ hp; simp at hp
  | cons proc rest ih =>
    intro cnt h i p hc hp
    by_cases he : suspend_eligible thr proc = true
    · rw [suspend_loop_hit os thr proc rest cnt h he (hok _ _)]
      cases i with
      | zero =>
        simp only [List.getElem?_cons_zero, Option.some.injEq] at hp
        subst hp
        have hcond : suspend_eligible thr proc = true ∧
            cnt + ((List.countP (suspend_eligible thr) (List.take 0 (proc :: rest)) : Nat) : Int)
              < 3 := by
          refine ⟨he, ?_⟩
          simp only [List.take_zero, List.countP_nil]
          omega
        rw [if_pos hcond]
        split_ifs <;> simp
      | succ i =>
        simp only [List.getElem?_cons_succ] at hp
        have hcount : ((List.countP (suspend_eligible thr)
            (List.take (i + 1) (proc :: rest)) : Nat) : Int) =
            ((List.countP (suspend_eligible thr) (List.take i rest) : Nat) : Int) + 1 := by
          simp [List.take_succ_cons, List.countP_cons, he]
        rw [hcount]
        by_cases h3 : cnt + 1 ≥ 3
        · rw [if_pos h3]
          have hcond : ¬ (suspend_eligible thr p = true ∧
              cnt + (((List.countP (suspend_eligible thr) (List.take i rest) : Nat) : Int) + 1)
                < 3) := by
            rintro ⟨_, hlt⟩
            omega
          rw [if_neg hcond]
          simpa using hp
        · rw [if_neg h3]
          simp only [List.getElem?_cons_succ]
          rw [ih (cnt + 1) _ i p (by omega) hp]
          have hiff : (cnt + 1 +
              ((List.countP (suspend_eligible thr) (List.take i rest) : Nat) : Int) < 3) ↔
              (cnt + (((List.countP (suspend_eligible thr) (List.take i rest) : Nat) : Int) + 1)
                < 3) := by
            constructor <;> intro hx <;> omega
          simp only [hiff]
    · rw [suspend_loop_skip os thr proc rest cnt h he]
      cases i with
      | zero =>
        simp only [List.getElem?_cons_zero, Option.some.injEq] at hp
        subst hp
        simp [he]
      | succ i =>
        simp only [List.getElem?_cons_succ] at hp
        simp only [List.take_succ_cons, List.countP_cons, he, List.getElem?_cons_succ]
        rw [ih cnt h i p hc hp]
        simp

theorem suspend_loop_all_ok_eq (os os' : OS) (thr : ℚ)
    (hok : ∀ (h : List Call) (pid : Int), os h (Call.kill pid Signal.SIGSTOP) = none)
    (hok' : ∀ (h : List Call) (pid : Int), os' h (Call.kill pid Signal.SIGSTOP) = none) :
    ∀ (processes : List ProcessInfo) (cnt : Int) (h h' : List Call),
      suspend_loop os thr processes cnt h = suspend_loop os' thr processes cnt h' := by
  intro processes
  induction processes with
  | nil => intro _ _ _; simp [suspend_loop]
  | cons proc rest ih =>
    intro cnt h h'
    by_cases he : suspend_eligible thr proc = true
    · rw [suspend_loop_hit os thr proc rest cnt h he (hok _ _),
        suspend_loop_hit os' thr proc rest cnt h' he (hok' _ _),
        ih (cnt + 1) (h ++ [Call.kill proc.pid Signal.SIGSTOP])
          (h' ++ [Call.kill proc.pid Signal.SIGSTOP])]
    · rw [suspend_loop_skip os thr proc rest cnt h he,
        suspend_loop_skip os' thr proc rest cnt h' he, ih cnt h h']

theorem strict_weak_by_memory_desc : StrictWeak by_memory_desc := by
  refine ⟨?_, ?_, ?_⟩
  · intro a
    simp [by_memory_desc]
  · intro a b c h1 h2
    simp only [by_memory_desc, gt_iff_lt, decide_eq_true_eq] at *
    omega
  · intro a b c h1 h2
    simp only [by_memory_desc, gt_iff_lt, decide_eq_false_iff_not, not_lt] at *
    omega

theorem sort_by_memory_desc_sorted (S : StdSort) (processes : List ProcessInfo) :
    List.Pairwise (fun a b => b.memory_usage ≤ a.memory_usage)
      (S.sort by_memory_desc processes) := by
  refine (S.sorted by_memory_desc processes strict_weak_by_memory_desc).imp ?_
  intro a b hab
  simpa [by_memory_desc] using hab

/-- C3. Under pressure (mem > 90 or swap > 70) and with every suspend call
succeeding, `optimize_memory` walks the table sorted by `memory_usage`
descending and (calls) issues one suspend, in that order, for each of the
first min(3, n) eligible records, n the number of eligible records of the
table; (table) the record at each position of the sorted table is marked
`is_suspended = true` when it is eligible and fewer than 3 eligible records
precede it, and is returned unchanged otherwise.  Scenario S3: when the
sorted order is P1, ..., P5 as listed, P1, P3 and P4 are the records
suspended. -/
theorem optimize_memory_suspend_rule (S : StdSort) (os : OS) (mem swap thr : ℚ)
    (processes : List ProcessInfo) (h : List Call) (hp : mem > 90 ∨ swap > 70)
    (hok : ∀ (h' : List Call) (pid : Int), os h' (Call.kill pid Signal.SIGSTOP) = none) :
    List.Perm (S.sort by_memory_desc processes) processes ∧
    List.Pairwise (fun a b => b.memory_usage ≤ a.memory_usage)
      (S.sort by_memory_desc processes) ∧
    (optimize_memory S os mem swap thr processes h).2 =
      (((S.sort by_memory_desc processes).filter (suspend_eligible thr)).take 3).map
        (fun p => Call.kill p.pid Signal.SIGSTOP) ∧
    (((S.sort by_memory_desc processes).filter (suspend_eligible thr)).take 3).length =
      min 3 (processes.countP (suspend_eligible thr)) ∧
    (optimize_memory S os mem swap thr processes h).1.length = processes.length ∧
    (∀ (i : Nat) (p : ProcessInfo), (S.sort by_memory_desc processes)[i]? = some p →
      (optimize_memory S os mem swap thr processes h).1[i]? =
        some (if suspend_eligible thr p = true ∧
                ((S.sort by_memory_desc processes).take i).countP (suspend_eligible thr) < 3
              then { p with is_suspended := true } else p)) ∧
    (S.sort by_memory_desc s3_table = s3_table →
      (optimize_memory S os mem swap 100 s3_table h).1.map (fun p => (p.pid, p.is_suspended)) =
        [(1001, true), (1002, false), (1003, true), (1004, true), (1005, false)] ∧
      (optimize_memory S os mem swap 100 s3_table h).2 =
        [Call.kill 1001 Signal.SIGSTOP, Call.kill 1003 Signal.SIGSTOP,
         Call.kill 1004 Signal.SIGSTOP]) := by
  have hperm := S.perm by_memory_desc processes
  refine ⟨hperm, sort_by_memory_desc_sorted S processes, ?_, ?_, ?_, ?_, ?_⟩
  · rw [optimize_memory_pressure S os mem swap thr processes h hp,
      suspend_loop_all_ok_calls os thr hok _ 0 h (by omega)]
    rfl
  · rw [List.length_take, ← List.countP_eq_length_filter, hperm.countP_eq]
  · have hlen := congrArg List.length
      (suspend_loop_frame os thr (S.sort by_memory_desc processes) 0 h)
    simp only [List.length_map] at hlen
    rw [optimize_memory_pressure S os mem swap thr processes h hp, hlen, hperm.length_eq]
  · intro i p hi
    rw [optimize_memory_pressure S os mem swap thr processes h hp,
      suspend_loop_all_ok_table os thr hok _ 0 h i p (by omega) hi]
    have hiff : ((0 : Int) + ((List.countP (suspend_eligible thr)
        (List.take i (S.sort by_memory_desc processes)) : Nat) : Int) < 3) ↔
        (List.countP (suspend_eligible thr)
          (List.take i (S.sort by_memory_desc processes)) < 3) := by
      constructor <;> intro hx <;> omega
    simp only [hiff]
  · intro hsort
    rw [optimize_memory_pressure S os mem swap 100 s3_table h hp, hsort,
      suspend_loop_all_ok_eq os os_ok 100 hok (fun _ _ => rfl) s3_table 0 h []]
    exact ⟨by decide!, by decide!⟩

/-- Witness of C3, scenario S3: memory 92 %, swap 10 %, threshold 100 MiB,
every call succeeding; P1, P3 and P4 are suspended, P2 (foreground) and P5
(cap reached) are not. -/
theorem optimize_memory_suspend_rule_witness :
    (((92 : ℚ) > 90 ∨ (10 : ℚ) > 70) ∧
      ∀ (h' : List Call) (pid : Int), os_ok h' (Call.kill pid Signal.SIGSTOP) = none) ∧
    (optimize_memory stable_sort os_ok 92 10 100 s3_table []).1.map
        (fun p => (p.pid, p.is_suspended)) =
      [(1001, true), (1002, false), (1003, true), (1004, true), (1005, false)] ∧
    (optimize_memory stable_sort os_ok 92 10 100 s3_table []).2 =
      [Call.kill 1001 Signal.SIGSTOP, Call.kill 1003 Signal.SIGSTOP,
       Call.kill 1004 Signal.SIGSTOP] :=
  ⟨⟨Or.inl (by norm_num), fun _ _ => rfl⟩,
   (optimize_memory_suspend_rule stable_sort os_ok 92 10 100 s3_table []
      (Or.inl (by norm_num)) (fun _ _ => rfl)).2.2.2.2.2.2 (by decide!)⟩

/-! ## The mode pass, record by record -/

theorem mode_target_suspend (mode : Mode) (thr : ℚ) (proc : ProcessInfo)
    (hs : (mode_target mode thr proc).2 = true) :
    mode = Mode.POWER_SAVING ∧ proc.is_system = false ∧ proc.is_foreground = false ∧
      (proc.memory_usage : ℚ) > thr * 1024 * 1024 := by
  unfold mode_target at hs
  cases mode
  · simp only at hs
    split_ifs at hs
  · simp only at hs
    split_ifs at hs
  · simp only at hs
    split_ifs at hs with h1 h2
    simp only [Bool.and_eq_true, decide_eq_true_eq, Bool.not_eq_true'] at h2
    simp only [Bool.not_eq_true'] at h1
    exact ⟨rfl, h1, h2.2, h2.1⟩

/-- The possible outcomes of one iteration of the mode pass. -/
theorem apply_mode_proc_cases (os : OS) (mode : Mode) (thr : ℚ) (proc : ProcessInfo)
    (h : List Call) :
    (proc.pid ≤ 0 ∧ apply_mode_proc os mode thr proc h = (proc, [])) ∨
    (0 < proc.pid ∧
      ((apply_mode_proc os mode thr proc h =
          ({ proc with priority := (mode_target mode thr proc).1 },
            [Call.setpriority proc.pid (max (-20) (min 19 (mode_target mode thr proc).1))])) ∨
       ((mode_target mode thr proc).2 = true ∧ proc.is_suspended = false ∧
          (apply_mode_proc os mode thr proc h).2 =
            [Call.setpriority proc.pid (max (-20) (min 19 (mode_target mode thr proc).1)),
              Call.kill proc.pid Signal.SIGSTOP] ∧
          ((apply_mode_proc os mode thr proc h).1 =
              { proc with priority := (mode_target mode thr proc).1 } ∨
           (apply_mode_proc os mode thr proc h).1 =
              { proc with priority := (mode_target mode thr proc).1, is_suspended := true })) ∨
       ((mode_target mode thr proc).2 = false ∧ proc.is_suspended = true ∧
          mode ≠ Mode.POWER_SAVING ∧
          (apply_mode_proc os mode thr proc h).2 =
            [Call.setpriority proc.pid (max (-20) (min 19 (mode_target mode thr proc).1)),
              Call.kill proc.pid Signal.SIGCONT] ∧
          ((apply_mode_proc os mode thr proc h).1 =
              { proc with priority := (mode_target mode thr proc).1 } ∨
           (apply_mode_proc os mode thr proc h).1 =
              { proc with priority := (mode_target mode thr proc).1,
                          is_suspended := false })))) := by
  by_cases hpid : proc.pid ≤ 0
  · left
    exact ⟨hpid, by simp [apply_mode_proc, hpid]⟩
  · right
    refine ⟨by omega, ?_⟩
    unfold apply_mode_proc
    rw [if_neg hpid]
    simp only
    split
    · rename_i e c1 heq
      have hc1 : c1 = (set_priority os proc.pid (mode_target mode thr proc).1 h).2 := by rw [heq]
      rw [set_priority_calls] at hc1
      left
      rw [hc1]
    · rename_i u c1 heq
      have hc1 : c1 = (set_priority os proc.pid (mode_target mode thr proc).1 h).2 := by rw [heq]
      rw [set_priority_calls] at hc1
      subst hc1
      split_ifs with h1 h2
      · simp only [Bool.and_eq_true, Bool.not_eq_true'] at h1
        right; left
        refine ⟨h1.1, h1.2, ?_, ?_⟩
        · split
          · rename_i e c2 heq2
            have hc2 := congrArg Prod.snd heq2
            rw [suspend_process_calls] at hc2
            simp only at hc2
            rw [← hc2]; rfl
          · rename_i u2 c2 heq2
            have hc2 := congrArg Prod.snd heq2
            rw [suspend_process_calls] at hc2
            simp only at hc2
            rw [← hc2]; rfl
        · split
          · left; rfl
          · right; rfl
      · simp only [Bool.and_eq_true, Bool.not_eq_true', bne_iff_ne, ne_eq] at h2
        right; right
        refine ⟨h2.1.1, h2.1.2, h2.2, ?_, ?_⟩
        · split
          · rename_i e c2 heq2
            have hc2 := congrArg Prod.snd heq2
            rw [resume_process_calls] at hc2
            simp only at hc2
            rw [← hc2]; rfl
          · rename_i u2 c2 heq2
            have hc2 := congrArg Prod.snd heq2
            rw [resume_process_calls] at hc2
            simp only at hc2
            rw [← hc2]; rfl
        · split
          · left; rfl
          · right; rfl
      · left
        rfl

theorem apply_mode_settings_index (os : OS) (mode : Mode) (thr : ℚ) :
    ∀ (processes : List ProcessInfo) (h : List Call) (i : Nat) (p : ProcessInfo),
      processes[i]? = some p →
      ∃ h', (apply_mode_settings os mode thr processes h).1[i]? =
        some (apply_mode_proc os mode thr p h').1 := by
  intro processes
  induction processes with
  | nil => intro _ i p hp; simp at hp
  | cons proc rest ih =>
    intro h i p hp
    cases i with
    | zero =>
      simp only [List.getElem?_cons_zero, Option.some.injEq] at hp
      subst hp
      exact ⟨h, by simp [apply_mode_settings]⟩
    | succ i =>
      simp only [List.getElem?_cons_succ] at hp
      obtain ⟨h', hh'⟩ := ih (h ++ (apply_mode_proc os mode thr proc h).2) i p hp
      exact ⟨h', by simpa [apply_mode_settings] using hh'⟩

theorem apply_mode_settings_priority (os : OS) (mode : Mode) (thr : ℚ)
    (processes : List ProcessInfo) (h : List Call) (i : Nat) (p : ProcessInfo)
    (hi : processes[i]? = some p) :
    ((apply_mode_settings os mode thr processes h).1[i]?).map ProcessInfo.priority =
      some (if p.pid ≤ 0 then p.priority else (mode_target mode thr p).1) := by
  obtain ⟨h', hh'⟩ := apply_mode_settings_index os mode thr processes h i p hi
  rw [hh', Option.map_some', apply_mode_proc_priority]

theorem apply_mode_settings_calls_mem (os : OS) (mode : Mode) (thr : ℚ) :
    ∀ (processes : List ProcessInfo) (h : List Call),
      ∀ c ∈ (apply_mode_settings os mode thr processes h).2,
        ∃ p ∈ processes, ∃ h', c ∈ (apply_mode_proc os mode thr p h').2 := by
  intro processes
  induction processes with
  | nil => intro _ c hc; simp [apply_mode_settings] at hc
  | cons proc rest ih =>
    intro h c hc
    simp only [apply_mode_settings] at hc
    rcases List.mem_append.mp hc with hc | hc
    · exact ⟨proc, List.mem_cons_self _ _, h, hc⟩
    · obtain ⟨p, hp, h', hc'⟩ := ih _ c hc
      exact ⟨p, List.mem_cons_of_mem _ hp, h', hc'⟩

theorem apply_mode_settings_pairs (os : OS) (mode : Mode) (thr : ℚ) :
    ∀ (processes : List ProcessInfo) (h : List Call),
      ∀ ab ∈ List.zip processes (apply_mode_settings os mode thr processes h).1,
        ∃ h', ab.2 = (apply_mode_proc os mode thr ab.1 h').1 := by
  intro processes
  induction processes with
  | nil => intro _ ab hab; simp [apply_mode_settings] at hab
  | cons proc rest ih =>
    intro h ab hab
    simp only [apply_mode_settings, List.zip_cons_cons, List.mem_cons] at hab
    rcases hab with hab | hab
    · exact ⟨h, by rw [hab]⟩
    · exact ih _ ab hab

theorem apply_mode_proc_stop (os : OS) (mode : Mode) (thr : ℚ) (proc : ProcessInfo)
    (h : List Call) (pid : Int)
    (hc : Call.kill pid Signal.SIGSTOP ∈ (apply_mode_proc os mode thr proc h).2) :
    proc.pid = pid ∧ (mode_target mode thr proc).2 = true ∧ proc.is_suspended = false := by
  rcases apply_mode_proc_cases os mode thr proc h with ⟨_, h0⟩ | ⟨_, h1 | h2 | h3⟩
  · rw [h0] at hc
    simp at hc
  · rw [h1] at hc
    simp at hc
  · obtain ⟨ht, hs, hcalls, _⟩ := h2
    rw [hcalls] at hc
    simp only [List.mem_cons, List.mem_singleton, Call.kill.injEq, and_true,
      List.not_mem_nil, or_false] at hc
    rcases hc with hc | hc
    · exact absurd hc (by simp)
    · exact ⟨hc.symm, ht, hs⟩
  · obtain ⟨_, _, _, hcalls, _⟩ := h3
    rw [hcalls] at hc
    simp at hc

theorem apply_mode_proc_marked (os : OS) (mode : Mode) (thr : ℚ) (proc : ProcessInfo)
    (h : List Call) (hb : proc.is_suspended = false)
    (ha : (apply_mode_proc os mode thr proc h).1.is_suspended = true) :
    (mode_target mode thr proc).2 = true := by
  rcases apply_mode_proc_cases os mode thr proc h with ⟨_, h0⟩ | ⟨_, h1 | h2 | h3⟩
  · rw [h0] at ha
    simp [hb] at ha
  · rw [h1] at ha
    simp [hb] at ha
  · exact h2.1
  · obtain ⟨_, hs, _⟩ := h3
    rw [hb] at hs
    exact absurd hs (by decide)

/-! ## C8, C9, C10 -/

/-- C8. For every record with pid > 0 and priority p, the record at the same
position after `apply_mode_settings` has priority max(-15, p - 5) if
foreground, else min(15, p + 5) if not a system process, else p, in Gaming
mode; and max(-10, p - 3), min(10, p + 2), p in Productivity mode; whatever the
operating system answers. -/
theorem mode_priority_gaming_productivity (os : OS) (thr : ℚ) (processes : List ProcessInfo)
    (h : List Call) (i : Nat) (p : ProcessInfo) (hi : processes[i]? = some p)
    (hpid : 0 < p.pid) :
    ((apply_mode_settings os Mode.GAMING thr processes h).1[i]?).map ProcessInfo.priority =
      some (if p.is_foreground then max (-15) (p.priority - 5)
            else if !p.is_system then min 15 (p.priority + 5) else p.priority) ∧
    ((apply_mode_settings os Mode.PRODUCTIVITY thr processes h).1[i]?).map ProcessInfo.priority =
      some (if p.is_foreground then max (-10) (p.priority - 3)
            else if !p.is_system then min 10 (p.priority + 2) else p.priority) := by
  have hn : ¬ p.pid ≤ 0 := by omega
  constructor
  · rw [apply_mode_settings_priority os _ thr processes h i p hi, if_neg hn]
    simp only [mode_target]
    split_ifs <;> rfl
  · rw [apply_mode_settings_priority os _ thr processes h i p hi, if_neg hn]
    simp only [mode_target]
    split_ifs <;> rfl

/-- Witness of C8, scenario S1: Gaming, an interactive record at priority -18
ends at -15 (and at -10 in Productivity). -/
theorem mode_priority_gaming_productivity_witness :
    (s1_table[0]? = some (mk_proc 2000 false true false (-18) 0) ∧
      (0 : Int) < (mk_proc 2000 false true false (-18) 0).pid) ∧
    ((apply_mode_settings os_ok Mode.GAMING 200 s1_table []).1[0]?).map ProcessInfo.priority =
      some (-15) ∧
    ((apply_mode_settings os_ok Mode.PRODUCTIVITY 200 s1_table []).1[0]?).map
      ProcessInfo.priority = some (-10) :=
  ⟨⟨rfl, by decide⟩,
   mode_priority_gaming_productivity os_ok 200 s1_table [] 0
     (mk_proc 2000 false true false (-18) 0) rfl (by decide)⟩

/-- C9, counterexample to the claim as stated: in Power-Saving mode a
foreground user process at priority 0 does not keep its priority; it is
moved to 5. -/
theorem power_saving_foreground_counterexample :
    fg_table.map (fun p => (p.pid, p.is_system, p.is_foreground, p.priority)) =
      [(2000, false, true, 0)] ∧
    (apply_mode_settings os_ok Mode.POWER_SAVING 200 fg_table []).1.map ProcessInfo.priority =
      [5] ∧
    ¬ ((apply_mode_settings os_ok Mode.POWER_SAVING 200 fg_table []).1.map ProcessInfo.priority =
      fg_table.map ProcessInfo.priority) := by
  refine ⟨by decide, by decide!, by decide!⟩

/-- C9, amended. For every record with pid > 0 and priority p, the record at
the same position after `apply_mode_settings` in Power-Saving mode has priority
min(19, p + 5) if it is not a system process, foreground or not, and p if it
is a system process. -/
theorem mode_priority_power_saving (os : OS) (thr : ℚ) (processes : List ProcessInfo)
    (h : List Call) (i : Nat) (p : ProcessInfo) (hi : processes[i]? = some p)
    (hpid : 0 < p.pid) :
    ((apply_mode_settings os Mode.POWER_SAVING thr processes h).1[i]?).map
        ProcessInfo.priority =
      some (if !p.is_system then min 19 (p.priority + 5) else p.priority) := by
  have hn : ¬ p.pid ≤ 0 := by omega
  rw [apply_mode_settings_priority os _ thr processes h i p hi, if_neg hn]
  simp only [mode_target]
  split_ifs <;> rfl

/-- Witness of amended C9: the foreground user process at priority 0 ends at 5. -/
theorem mode_priority_power_saving_witness :
    (fg_table[0]? = some (mk_proc 2000 false true false 0 0) ∧
      (0 : Int) < (mk_proc 2000 false true false 0 0).pid) ∧
    ((apply_mode_settings os_ok Mode.POWER_SAVING 200 fg_table []).1[0]?).map
      ProcessInfo.priority = some 5 :=
  ⟨⟨rfl, by decide⟩,
   mode_priority_power_saving os_ok 200 fg_table [] 0
     (mk_proc 2000 false true false 0 0) rfl (by decide)⟩

/-- C10. Every suspend `apply_mode_settings` issues is issued in Power-Saving
mode for the pid of a record of the table that is not a system process, not
foreground, strictly above the threshold and not marked suspended; every
record that ends newly marked suspended is such a record; and the Gaming and
Productivity passes issue no suspend at all. -/
theorem apply_mode_suspend_targets (os : OS) (mode : Mode) (thr : ℚ)
    (processes : List ProcessInfo) (h : List Call) :
    (∀ pid, Call.kill pid Signal.SIGSTOP ∈ (apply_mode_settings os mode thr processes h).2 →
      mode = Mode.POWER_SAVING ∧
      ∃ p ∈ processes, p.pid = pid ∧ p.is_system = false ∧ p.is_foreground = false ∧
        (p.memory_usage : ℚ) > thr * 1024 * 1024 ∧ p.is_suspended = false) ∧
    (∀ ab ∈ List.zip processes (apply_mode_settings os mode thr processes h).1,
      ab.1.is_suspended = false → ab.2.is_suspended = true →
        mode = Mode.POWER_SAVING ∧ ab.1.is_system = false ∧ ab.1.is_foreground = false ∧
          (ab.1.memory_usage : ℚ) > thr * 1024 * 1024) ∧
    (∀ pid, Call.kill pid Signal.SIGSTOP ∉
      (apply_mode_settings os Mode.GAMING thr processes h).2) ∧
    (∀ pid, Call.kill pid Signal.SIGSTOP ∉
      (apply_mode_settings os Mode.PRODUCTIVITY thr processes h).2) := by
  have hcalls : ∀ (m : Mode) (pid : Int),
      Call.kill pid Signal.SIGSTOP ∈ (apply_mode_settings os m thr processes h).2 →
      m = Mode.POWER_SAVING ∧
      ∃ p ∈ processes, p.pid = pid ∧ p.is_system = false ∧ p.is_foreground = false ∧
        (p.memory_usage : ℚ) > thr * 1024 * 1024 ∧ p.is_suspended = false := by
    intro m pid hc
    obtain ⟨p, hp, h', hc'⟩ := apply_mode_settings_calls_mem os m thr processes h _ hc
    obtain ⟨hpid, ht, hs⟩ := apply_mode_proc_stop os m thr p h' pid hc'
    obtain ⟨hm, h1, h2, h3⟩ := mode_target_suspend m thr p ht
    exact ⟨hm, p, hp, hpid, h1, h2, h3, hs⟩
  refine ⟨hcalls mode, ?_, ?_, ?_⟩
  · intro ab hab hb ha
    obtain ⟨h', hh'⟩ := apply_mode_settings_pairs os mode thr processes h ab hab
    rw [hh'] at ha
    exact mode_target_suspend mode thr ab.1 (apply_mode_proc_marked os mode thr ab.1 h' hb ha)
  · intro pid hc
    exact absurd (hcalls _ pid hc).1 (by decide)
  · intro pid hc
    exact absurd (hcalls _ pid hc).1 (by decide)

/-! ## C18, C19: the actuator's outcomes -/

theorem failed_ne_denied (a b c d m : String) :
    "Failed to " ++ a ++ b ++ c ++ ": " ++ m ≠ "Permission denied to " ++ a ++ b ++ c ++ d := by
  intro heq
  have h1 := congrArg String.data heq
  simp [String.data_append] at h1

theorem not_found_ne_denied (a b c d : String) :
    "Process " ++ a ++ " not found" ≠ "Permission denied to " ++ b ++ c ++ a ++ d := by
  intro heq
  have h1 := congrArg String.data heq
  simp [String.data_append] at h1

theorem failed_priority_ne_denied (a b m : String) :
    "Failed to set priority for PID " ++ a ++ ": " ++ m ≠
      "Permission denied to set priority for PID " ++ a ++ b := by
  intro heq
  have h1 := congrArg String.data heq
  simp [String.data_append] at h1

theorem send_signal_failed_iff (os : OS) (sig : Signal) (verb : String) (pid : Int)
    (h : List Call) :
    (∃ msg, (send_signal os sig verb pid h).1 = .error msg) ↔ os h (Call.kill pid sig) ≠ none := by
  simp only [send_signal]
  rcases hos : os h (Call.kill pid sig) with _ | e
  · simp
  · cases e <;> simp

theorem send_signal_denied_iff (os : OS) (sig : Signal) (verb : String) (pid : Int)
    (h : List Call) :
    (send_signal os sig verb pid h).1 =
        .error ("Permission denied to " ++ verb ++ " PID " ++ toString pid ++
          " (need root privileges)") ↔
      os h (Call.kill pid sig) = some Errno.EPERM := by
  simp only [send_signal]
  rcases hos : os h (Call.kill pid sig) with _ | e
  · simp
  · cases e with
    | ESRCH =>
      simp only [Except.error.injEq, Option.some.injEq]
      constructor
      · intro hx
        exact absurd hx (not_found_ne_denied _ _ _ _)
      · intro hx
        exact absurd hx (by decide)
    | EPERM => simp
    | other m =>
      simp only [Except.error.injEq, Option.some.injEq]
      constructor
      · intro hx
        exact absurd hx (failed_ne_denied _ _ _ _ _)
      · intro hx
        exact absurd hx (by simp)

/-- C18. `terminate_process(1)` always returns the failure "Cannot terminate
init process (PID 1)" and issues no call, whatever the operating system would
answer; for a pid other than 1 exactly one call, `kill(pid, SIGTERM)`, is
issued, and the function fails exactly when that call fails. -/
theorem terminate_process_outcomes (os : OS) (pid : Int) (h : List Call) (hpid : pid ≠ 1) :
    terminate_process os 1 h = (.error "Cannot terminate init process (PID 1)", []) ∧
    (terminate_process os pid h).2 = [Call.kill pid Signal.SIGTERM] ∧
    ((∃ msg, (terminate_process os pid h).1 = .error msg) ↔
      os h (Call.kill pid Signal.SIGTERM) ≠ none) := by
  refine ⟨by simp [terminate_process], ?_, ?_⟩
  · rw [terminate_process, if_neg hpid, send_signal_calls]
  · rw [terminate_process, if_neg hpid]
    exact send_signal_failed_iff os _ _ pid h

/-- Witness of C18: pid 4242 on an operating system where every call succeeds. -/
theorem terminate_process_outcomes_witness :
    (4242 : Int) ≠ 1 ∧
    terminate_process os_ok 1 [] = (.error "Cannot terminate init process (PID 1)", []) ∧
    (terminate_process os_ok 4242 []).2 = [Call.kill 4242 Signal.SIGTERM] ∧
    ((∃ msg, (terminate_process os_ok 4242 []).1 = .error msg) ↔
      os_ok [] (Call.kill 4242 Signal.SIGTERM) ≠ none) :=
  ⟨by decide, terminate_process_outcomes os_ok 4242 [] (by decide)⟩

/-- C19. `set_priority` fails exactly when `setpriority` fails with an errno
other than `ESRCH`; `suspend_process` and `resume_process` fail exactly when
`kill` fails, `ESRCH` included; and each of the three returns its
"Permission denied ... PID <pid> (need root privileges)" failure exactly when
the errno is `EPERM`. -/
theorem actuator_outcome_taxonomy (os : OS) (pid p : Int) (h : List Call) :
    ((∃ msg, (set_priority os pid p h).1 = .error msg) ↔
      ∃ e, os h (Call.setpriority pid (max (-20) (min 19 p))) = some e ∧ e ≠ Errno.ESRCH) ∧
    ((∃ msg, (suspend_process os pid h).1 = .error msg) ↔
      os h (Call.kill pid Signal.SIGSTOP) ≠ none) ∧
    ((∃ msg, (resume_process os pid h).1 = .error msg) ↔
      os h (Call.kill pid Signal.SIGCONT) ≠ none) ∧
    ((set_priority os pid p h).1 =
        .error ("Permission denied to set priority for PID " ++ toString pid ++
          " (need root privileges)") ↔
      os h (Call.setpriority pid (max (-20) (min 19 p))) = some Errno.EPERM) ∧
    ((suspend_process os pid h).1 =
        .error ("Permission denied to suspend PID " ++ toString pid ++
          " (need root privileges)") ↔
      os h (Call.kill pid Signal.SIGSTOP) = some Errno.EPERM) ∧
    ((resume_process os pid h).1 =
        .error ("Permission denied to resume PID " ++ toString pid ++
          " (need root privileges)") ↔
      os h (Call.kill pid Signal.SIGCONT) = some Errno.EPERM) := by
  refine ⟨?_, send_signal_failed_iff os _ _ pid h, send_signal_failed_iff os _ _ pid h, ?_,
    send_signal_denied_iff os _ "suspend" pid h, send_signal_denied_iff os _ "resume" pid h⟩
  · simp only [set_priority]
    rcases hos : os h (Call.setpriority pid (max (-20) (min 19 p))) with _ | e
    · simp
    · cases e <;> simp
  · simp only [set_priority]
    rcases hos : os h (Call.setpriority pid (max (-20) (min 19 p))) with _ | e
    · simp
    · cases e with
      | ESRCH => simp
      | EPERM => simp
      | other m =>
        simp only [Except.error.injEq, Option.some.injEq]
        constructor
        · intro hx
          exact absurd hx (failed_priority_ne_denied _ _ _)
        · intro hx
          exact absurd hx (by simp)

/-! ## C15, C16: PRIORITY and Round-Robin -/

theorem strict_weak_by_pid : StrictWeak by_pid := by
  refine ⟨?_, ?_, ?_⟩
  · intro a
    simp [by_pid]
  · intro a b c h1 h2
    simp only [by_pid, decide_eq_true_eq] at *
    omega
  · intro a b c h1 h2
    simp only [by_pid, decide_eq_false_iff_not, not_lt] at *
    omega

theorem strict_weak_by_cpu_time : StrictWeak by_cpu_time := by
  refine ⟨?_, ?_, ?_⟩
  · intro a
    simp [by_cpu_time]
  · intro a b c h1 h2
    simp only [by_cpu_time, decide_eq_true_eq] at *
    omega
  · intro a b c h1 h2
    simp only [by_cpu_time, decide_eq_false_iff_not, not_lt] at *
    omega

theorem strict_weak_by_priority : StrictWeak by_priority := by
  refine ⟨?_, ?_, ?_⟩
  · intro a
    simp [by_priority]
  · intro a b c h1 h2
    simp only [by_priority, decide_eq_true_eq] at *
    omega
  · intro a b c h1 h2
    simp only [by_priority, decide_eq_false_iff_not, not_lt] at *
    omega

theorem sort_by_pid_sorted (S : StdSort) (processes : List ProcessInfo) :
    List.Pairwise (fun a b => a.pid ≤ b.pid) (S.sort by_pid processes) := by
  refine (S.sorted by_pid processes strict_weak_by_pid).imp ?_
  intro a b hab
  simpa [by_pid] using hab

theorem sort_by_cpu_time_sorted (S : StdSort) (processes : List ProcessInfo) :
    List.Pairwise (fun a b => a.last_cpu_time ≤ b.last_cpu_time)
      (S.sort by_cpu_time processes) := by
  refine (S.sorted by_cpu_time processes strict_weak_by_cpu_time).imp ?_
  intro a b hab
  simpa [by_cpu_time] using hab

theorem sort_by_priority_sorted (S : StdSort) (processes : List ProcessInfo) :
    List.Pairwise (fun a b => a.priority ≤ b.priority) (S.sort by_priority processes) := by
  refine (S.sorted by_priority processes strict_weak_by_priority).imp ?_
  intro a b hab
  simpa [by_priority] using hab

theorem priority_loop_calls (os : OS) :
    ∀ (processes : List ProcessInfo) (h : List Call),
      priority_loop os processes h =
        (processes.filter (fun p => !p.is_suspended)).map
          (fun p => Call.setpriority p.pid (max (-20) (min 19 p.priority))) := by
  intro processes
  induction processes with
  | nil => intro _; simp [priority_loop]
  | cons proc rest ih =>
    intro h
    unfold priority_loop
    by_cases hs : (!proc.is_suspended) = true
    · rw [if_pos hs]
      simp only [set_priority_calls, ih, List.filter_cons, hs, if_true, List.map_cons,
        List.singleton_append]
    · rw [if_neg hs]
      simp only [ih, List.filter_cons, hs]
      rfl

theorem rr_schedule_eq (os : OS) :
    ∀ (processes : List ProcessInfo) (h : List Call),
      rr_schedule os processes h =
        (processes.map (fun p => if eligible p then { p with priority := 0 } else p),
         (processes.filter eligible).map (fun p => Call.setpriority p.pid 0)) := by
  intro processes
  induction processes with
  | nil => intro _; simp [rr_schedule]
  | cons proc rest ih =>
    intro h
    unfold rr_schedule
    by_cases he : (!proc.is_suspended && !proc.is_system) = true
    · have he2 : eligible proc = true := he
      rw [if_pos he]
      simp only [set_priority_calls, ih, List.map_cons, List.filter_cons, he2, if_true,
        List.singleton_append]
      rfl
    · have he2 : ¬ eligible proc = true := he
      rw [if_neg he]
      simp only [ih, List.map_cons, List.filter_cons, he2, if_false]
      rfl

/-- C15. `priority_schedule` returns the table sorted ascending by priority, a
permutation of the input with every record as it was, and issues, in that
order, one `setpriority(pid, clamp(priority))` for each record that is not
suspended, system records included (the priority itself when it lies in
[-20, 19]).  A second run right after returns a permutation of the same
records and issues a permutation of the same calls. -/
theorem priority_schedule_confirms (S : StdSort) (os : OS) (processes : List ProcessInfo)
    (h : List Call) :
    (priority_schedule S os processes h).1 = S.sort by_priority processes ∧
    List.Perm (priority_schedule S os processes h).1 processes ∧
    List.Pairwise (fun a b => a.priority ≤ b.priority) (priority_schedule S os processes h).1 ∧
    (priority_schedule S os processes h).2 =
      ((S.sort by_priority processes).filter (fun p => !p.is_suspended)).map
        (fun p => Call.setpriority p.pid (max (-20) (min 19 p.priority))) ∧
    (PriorityInRange processes →
      (priority_schedule S os processes h).2 =
        ((S.sort by_priority processes).filter (fun p => !p.is_suspended)).map
          (fun p => Call.setpriority p.pid p.priority)) ∧
    List.Perm
      (priority_schedule S os (priority_schedule S os processes h).1
        (h ++ (priority_schedule S os processes h).2)).1 processes ∧
    List.Perm
      (priority_schedule S os (priority_schedule S os processes h).1
        (h ++ (priority_schedule S os processes h).2)).2
      (priority_schedule S os processes h).2 := by
  have hperm := S.perm by_priority processes
  have hcalls : ∀ (t : List ProcessInfo) (h' : List Call),
      (priority_schedule S os t h').2 =
        ((S.sort by_priority t).filter (fun p => !p.is_suspended)).map
          (fun p => Call.setpriority p.pid (max (-20) (min 19 p.priority))) := by
    intro t h'
    simp only [priority_schedule, priority_loop_calls]
  refine ⟨rfl, hperm, sort_by_priority_sorted S processes, hcalls processes h, ?_, ?_, ?_⟩
  · intro hr
    rw [hcalls]
    apply List.map_congr_left
    intro p hp
    have hp2 := hr p (hperm.mem_iff.mp (List.mem_of_mem_filter hp))
    have : max (-20) (min 19 p.priority) = p.priority := by omega
    rw [this]
  · exact (S.perm by_priority _).trans hperm
  · rw [hcalls, hcalls]
    exact ((S.perm by_priority (S.sort by_priority processes)).filter _).map _

/-- C16. `rr_schedule` returns the table in the same order with priority 0 in
every record that is neither suspended nor a system process and every other
record as it was, and issues `setpriority(pid, 0)` for exactly the former. -/
theorem rr_schedule_assigns_zero (S : StdSort) (os : OS) (processes : List ProcessInfo)
    (h : List Call) :
    perform_scheduling S os SchedulingAlgorithm.RR processes h = rr_schedule os processes h ∧
    (rr_schedule os processes h).1 =
      processes.map (fun p => if !p.is_suspended && !p.is_system
        then { p with priority := 0 } else p) ∧
    (rr_schedule os processes h).2 =
      (processes.filter (fun p => !p.is_suspended && !p.is_system)).map
        (fun p => Call.setpriority p.pid 0) ∧
    (∀ ab ∈ List.zip processes (rr_schedule os processes h).1,
      ab.2.pid = ab.1.pid ∧
      ((ab.1.is_suspended = false ∧ ab.1.is_system = false) → ab.2.priority = 0) ∧
      ((ab.1.is_suspended = true ∨ ab.1.is_system = true) → ab.2 = ab.1)) := by
  have heq := rr_schedule_eq os processes h
  refine ⟨rfl, ?_, ?_, ?_⟩
  · rw [heq]
    rfl
  · rw [heq]
    rfl
  · intro ab hab
    rw [heq] at hab
    simp only at hab
    rw [List.zip_map_right, List.mem_map] at hab
    obtain ⟨⟨x, y⟩, hxy, hmap⟩ := hab
    have hxy2 := zip_self_pairs processes _ hxy
    simp only at hxy2
    subst hxy2
    rw [← hmap]
    simp only [Prod.map_apply, id_eq]
    refine ⟨?_, ?_, ?_⟩
    · split_ifs <;> rfl
    · rintro ⟨h1, h2⟩
      simp [eligible, h1, h2]
    · intro h1
      have : ¬ eligible y = true := by
        rcases h1 with h1 | h1 <;> simp [eligible, h1]
      rw [if_neg this]

/-! ## FCFS and SJF: the sequential assignment -/

theorem sequential_assign_index (os : OS) :
    ∀ (processes : List ProcessInfo) (priority : Int) (h : List Call) (i : Nat)
      (p : ProcessInfo), processes[i]? = some p →
      (sequential_assign os processes priority h).1[i]? =
        some (if eligible p = true then
          { p with priority := min 19 (priority + 1 + ((processes.take i).countP eligible : Nat)) }
          else p) := by
  intro processes
  induction processes with
  | nil => intro _ _ i p hp; simp at hp
  | cons proc rest ih =>
    intro priority h i p hp
    unfold sequential_assign
    by_cases he : (!proc.is_suspended && !proc.is_system) = true
    · have he2 : eligible proc = true := he
      rw [if_pos he]
      cases i with
      | zero =>
        simp only [List.getElem?_cons_zero, Option.some.injEq] at hp
        subst hp
        simp [he2]
      | succ i =>
        simp only [List.getElem?_cons_succ] at hp
        simp only [List.getElem?_cons_succ]
        rw [ih _ _ i p hp]
        have hcount : ((List.countP eligible (List.take (i + 1) (proc :: rest)) : Nat) : Int) =
            ((List.countP eligible (List.take i rest) : Nat) : Int) + 1 := by
          simp [List.take_succ_cons, List.countP_cons, he2]
        rw [hcount]
        have harith : min 19 (min 19 (priority + 1) + 1 +
            ((List.countP eligible (List.take i rest) : Nat) : Int)) =
            min 19 (priority + 1 +
              (((List.countP eligible (List.take i rest) : Nat) : Int) + 1)) := by
          omega
        rw [harith]
    · have he2 : ¬ eligible proc = true := he
      rw [if_neg he]
      cases i with
      | zero =>
        simp only [List.getElem?_cons_zero, Option.some.injEq] at hp
        subst hp
        simp [he2]
      | succ i =>
        simp only [List.getElem?_cons_succ] at hp
        simp only [List.getElem?_cons_succ]
        rw [ih _ _ i p hp]
        simp [List.take_succ_cons, List.countP_cons, he2]

theorem sequential_assign_pairs (os : OS) :
    ∀ (processes : List ProcessInfo) (priority : Int) (h : List Call),
      ∀ ab ∈ List.zip processes (sequential_assign os processes priority h).1,
        (eligible ab.1 = false ∧ ab.2 = ab.1) ∨
        (eligible ab.1 = true ∧ ∃ q : Int, ab.2 = { ab.1 with priority := q }) := by
  intro processes
  induction processes with
  | nil => intro _ _ ab hab; simp [sequential_assign] at hab
  | cons proc rest ih =>
    intro priority h ab hab
    unfold sequential_assign at hab
    by_cases he : (!proc.is_suspended && !proc.is_system) = true
    · have he2 : eligible proc = true := he
      rw [if_pos he] at hab
      simp only [List.zip_cons_cons, List.mem_cons] at hab
      rcases hab with hab | hab
      · right
        rw [hab]
        exact ⟨he2, _, rfl⟩
      · exact ih _ _ ab hab
    · have he2 : eligible proc = false := by
        simpa [eligible] using he
      rw [if_neg he] at hab
      simp only [List.zip_cons_cons, List.mem_cons] at hab
      rcases hab with hab | hab
      · left
        rw [hab]
        exact ⟨he2, rfl⟩
      · exact ih _ _ ab hab

theorem sequential_assign_length (os : OS) :
    ∀ (processes : List ProcessInfo) (priority : Int) (h : List Call),
      (sequential_assign os processes priority h).1.length = processes.length := by
  intro processes
  induction processes with
  | nil => intro _ _; simp [sequential_assign]
  | cons proc rest ih =>
    intro priority h
    unfold sequential_assign
    split_ifs <;> simp [ih]

theorem sequential_assign_frame (os : OS) :
    ∀ (processes : List ProcessInfo) (priority : Int) (h : List Call),
      (sequential_assign os processes priority h).1.map clear_priority =
        processes.map clear_priority := by
  intro processes
  induction processes with
  | nil => intro _ _; simp [sequential_assign]
  | cons proc rest ih =>
    intro priority h
    unfold sequential_assign
    split_ifs
    · simp [ih, clear_priority]
    · simp [ih]

theorem sequential_assign_lower (os : OS) :
    ∀ (processes : List ProcessInfo) (priority : Int) (h : List Call),
      ∀ b ∈ (sequential_assign os processes priority h).1, eligible b = true →
        min 19 (priority + 1) ≤ b.priority := by
  intro processes
  induction processes with
  | nil => intro _ _ b hb; simp [sequential_assign] at hb
  | cons proc rest ih =>
    intro priority h b hb he
    unfold sequential_assign at hb
    by_cases hproc : (!proc.is_suspended && !proc.is_system) = true
    · rw [if_pos hproc] at hb
      simp only [List.mem_cons] at hb
      rcases hb with hb | hb
      · rw [hb]
      · have := ih _ _ b hb he
        omega
    · rw [if_neg hproc] at hb
      simp only [List.mem_cons] at hb
      rcases hb with hb | hb
      · rw [hb] at he
        exact absurd he hproc
      · exact ih _ _ b hb he

theorem sequential_assign_ordered (os : OS) :
    ∀ (processes : List ProcessInfo) (priority : Int) (h : List Call),
      List.Pairwise (fun a b => eligible a = true → eligible b = true → sjf_favours a b)
        (sequential_assign os processes priority h).1 := by
  intro processes
  induction processes with
  | nil => intro _ _; simp [sequential_assign]
  | cons proc rest ih =>
    intro priority h
    unfold sequential_assign
    by_cases hproc : (!proc.is_suspended && !proc.is_system) = true
    · rw [if_pos hproc]
      refine List.pairwise_cons.mpr ⟨?_, ih _ _⟩
      intro b hb _ he
      have := sequential_assign_lower os rest _ _ b hb he
      simp only [sjf_favours]
      constructor
      · omega
      · intro hlt
        omega
    · rw [if_neg hproc]
      refine List.pairwise_cons.mpr ⟨?_, ih _ _⟩
      intro b _ ha
      exact absurd ha hproc

theorem sorted_of_frame (l1 l2 : List ProcessInfo) (key : ProcessInfo → Int)
    (hkey : ∀ p, key (clear_priority p) = key p)
    (hf : l1.map clear_priority = l2.map clear_priority)
    (hs : List.Pairwise (fun a b => key a ≤ key b) l2) :
    List.Pairwise (fun a b => key a ≤ key b) l1 := by
  have h2 : List.Pairwise (fun a b => key a ≤ key b) (l2.map clear_priority) := by
    rw [List.pairwise_map]
    exact hs.imp (fun {a b} hab => by rw [hkey a, hkey b]; exact hab)
  rw [← hf, List.pairwise_map] at h2
  exact h2.imp (fun {a b} hab => by rw [hkey a, hkey b] at hab; exact hab)

theorem fcfs_schedule_index (S : StdSort) (os : OS) (processes : List ProcessInfo)
    (h : List Call) (i : Nat) (p : ProcessInfo) (hi : (S.sort by_pid processes)[i]? = some p) :
    (fcfs_schedule S os processes h).1[i]? =
      some (if eligible p = true then
        { p with priority := min 19 (-19 + (((S.sort by_pid processes).take i).countP eligible : Nat)) }
        else p) := by
  rw [fcfs_schedule, sequential_assign_index os _ _ _ i p hi]
  rfl

/-! ## C13, C14 -/

/-- C13, the code at the failing input: on a table holding one eligible
record, `fcfs_schedule` gives that record priority -19, not -20, for every
`std::sort` and every operating system. -/
theorem fcfs_first_eligible_priority (S : StdSort) (os : OS) (h : List Call) :
    (fcfs_schedule S os [mk_proc 2000 false false false 0 0] h).1.map
        (fun p => (p.pid, p.priority)) = [(2000, -19)] ∧
    (fcfs_schedule S os [mk_proc 2000 false false false 0 0] h).1.map
        (fun p => (p.pid, p.priority)) ≠ [(2000, -20)] := by
  have hs : S.sort by_pid [mk_proc 2000 false false false 0 0] =
      [mk_proc 2000 false false false 0 0] := List.perm_singleton.mp (S.perm _ _)
  have heq : (fcfs_schedule S os [mk_proc 2000 false false false 0 0] h).1.map
      (fun p => (p.pid, p.priority)) = [(2000, -19)] := by
    rw [fcfs_schedule, hs]
    simp [sequential_assign, mk_proc]
  refine ⟨heq, ?_⟩
  rw [heq]
  decide

/-- C14. After `sjf_schedule` the table is sorted ascending by accumulated CPU
time, and of two records of the result that are neither suspended nor system
processes, the one with strictly less accumulated CPU time has a priority no
greater than the other, and strictly smaller unless the other is below 19. -/
theorem sjf_schedule_order (S : StdSort) (os : OS) (processes : List ProcessInfo)
    (h : List Call) :
    List.Pairwise (fun a b => a.last_cpu_time ≤ b.last_cpu_time)
      (sjf_schedule S os processes h).1 ∧
    (∀ a ∈ (sjf_schedule S os processes h).1, ∀ b ∈ (sjf_schedule S os processes h).1,
      a.is_suspended = false → a.is_system = false →
      b.is_suspended = false → b.is_system = false →
      a.last_cpu_time < b.last_cpu_time →
        a.priority ≤ b.priority ∧ (b.priority < 19 → a.priority < b.priority)) := by
  have hsorted : List.Pairwise (fun a b => a.last_cpu_time ≤ b.last_cpu_time)
      (sjf_schedule S os processes h).1 :=
    sorted_of_frame _ _ ProcessInfo.last_cpu_time (fun _ => rfl)
      (sequential_assign_frame os _ _ _) (sort_by_cpu_time_sorted S processes)
  refine ⟨hsorted, ?_⟩
  have hboth := hsorted.and (sequential_assign_ordered os (S.sort by_cpu_time processes) (-20) h)
  have hsym : List.Pairwise
      (fun a b =>
        (a.last_cpu_time < b.last_cpu_time → eligible a = true → eligible b = true →
          sjf_favours a b) ∧
        (b.last_cpu_time < a.last_cpu_time → eligible b = true → eligible a = true →
          sjf_favours b a))
      (sjf_schedule S os processes h).1 := by
    refine hboth.imp ?_
    intro a b hab
    refine ⟨fun _ ha hb => hab.2 ha hb, fun hlt _ _ => ?_⟩
    have := hab.1
    omega
  intro a ha b hb ha1 ha2 hb1 hb2 hlt
  have hall := List.Pairwise.forall_of_forall
    (R := fun a b =>
        (a.last_cpu_time < b.last_cpu_time → eligible a = true → eligible b = true →
          sjf_favours a b) ∧
        (b.last_cpu_time < a.last_cpu_time → eligible b = true → eligible a = true →
          sjf_favours b a))
    (fun x y hxy => ⟨hxy.2, hxy.1⟩)
    (fun x _ => ⟨fun hx => absurd hx (lt_irrefl _), fun hx => absurd hx (lt_irrefl _)⟩)
    hsym ha hb
  exact hall.1 hlt (by simp [eligible, ha1, ha2]) (by simp [eligible, hb1, hb2])

/-! ## Hybrid: the pointer vectors and the table walk agree -/

theorem classify_loop_eq :
    ∀ (processes : List ProcessInfo) (i : Nat) (bs : Buckets),
      classify_loop processes i bs =
        ⟨bs.interactive ++ bucket_indices Bucket.interactive processes i,
         bs.io_bound ++ bucket_indices Bucket.io_bound processes i,
         bs.cpu_bound ++ bucket_indices Bucket.cpu_bound processes i,
         bs.background ++ bucket_indices Bucket.background processes i⟩ := by
  intro processes
  induction processes with
  | nil => intro i bs; simp [classify_loop, bucket_indices]
  | cons proc rest ih =>
    intro i bs
    unfold classify_loop
    simp only [bucket_indices, hybrid_bucket]
    split_ifs <;> simp_all [ih]

theorem hybrid_bucket_priority (p : ProcessInfo) (q : Int) :
    hybrid_bucket { p with priority := q } = hybrid_bucket p := rfl

theorem hybrid_bucket_clear (p : ProcessInfo) :
    hybrid_bucket (clear_priority p) = hybrid_bucket p := rfl

theorem bucket_indices_congr (b : Bucket) :
    ∀ (l1 l2 : List ProcessInfo) (i : Nat), l1.map hybrid_bucket = l2.map hybrid_bucket →
      bucket_indices b l1 i = bucket_indices b l2 i := by
  intro l1
  induction l1 with
  | nil =>
    intro l2 i hm
    cases l2 with
    | nil => rfl
    | cons _ _ => simp at hm
  | cons p rest ih =>
    intro l2 i hm
    cases l2 with
    | nil => simp at hm
    | cons p2 rest2 =>
      simp only [List.map_cons, List.cons.injEq] at hm
      simp only [bucket_indices, hm.1, ih rest2 (i + 1) hm.2]

theorem bucket_pass_frame (os : OS) (ceiling : Int) (b : Bucket) :
    ∀ (processes : List ProcessInfo) (priority : Int) (h : List Call),
      (bucket_pass os ceiling b processes priority h).1.map clear_priority =
        processes.map clear_priority := by
  intro processes
  induction processes with
  | nil => intro _ _; simp [bucket_pass]
  | cons p rest ih =>
    intro priority h
    unfold bucket_pass
    split_ifs
    · split <;> simp [ih, clear_priority]
    · simp [ih]

theorem bucket_pass_buckets (os : OS) (ceiling : Int) (b : Bucket)
    (processes : List ProcessInfo) (priority : Int) (h : List Call) :
    (bucket_pass os ceiling b processes priority h).1.map hybrid_bucket =
      processes.map hybrid_bucket := by
  have hf := congrArg (List.map hybrid_bucket) (bucket_pass_frame os ceiling b processes priority h)
  simpa [List.map_map, Function.comp_def, hybrid_bucket_clear] using hf

theorem bucket_loop_eq_pass (os : OS) (ceiling : Int) (b : Bucket) :
    ∀ (suf pre : List ProcessInfo) (priority : Int) (h : List Call),
      bucket_loop os ceiling (bucket_indices b suf pre.length) priority (pre ++ suf) h =
        (pre ++ (bucket_pass os ceiling b suf priority h).1,
         (bucket_pass os ceiling b suf priority h).2) := by
  intro suf
  induction suf with
  | nil => intro pre priority h; simp [bucket_indices, bucket_loop, bucket_pass]
  | cons p rest ih =>
    intro pre priority h
    by_cases hb : hybrid_bucket p = some b
    · have hidx : bucket_indices b (p :: rest) pre.length =
          pre.length :: bucket_indices b rest (pre.length + 1) := by
        simp [bucket_indices, hb]
      have hget : (pre ++ p :: rest)[pre.length]? = some p := by
        rw [List.getElem?_append_right (le_refl _)]
        simp
      have hset : (pre ++ p :: rest).set pre.length { p with priority := priority } =
          (pre ++ [{ p with priority := priority }]) ++ rest := by
        simp
      have hlen : (pre ++ [{ p with priority := priority }]).length = pre.length + 1 := by simp
      rw [hidx]
      unfold bucket_loop
      rw [hget]
      simp only [hset]
      conv_rhs => unfold bucket_pass
      rw [if_pos hb]
      rcases hsp : set_priority os p.pid priority h with ⟨res, c1⟩
      cases res with
      | error e =>
        simp only
        have := ih (pre ++ [{ p with priority := priority }]) priority (h ++ c1)
        rw [hlen] at this
        rw [this]
        simp
      | ok u =>
        simp only
        have := ih (pre ++ [{ p with priority := priority }]) (min ceiling (priority + 1))
          (h ++ c1)
        rw [hlen] at this
        rw [this]
        simp
    · have hidx : bucket_indices b (p :: rest) pre.length =
          bucket_indices b rest (pre.length + 1) := by
        simp [bucket_indices, hb]
      rw [hidx]
      conv_rhs => unfold bucket_pass
      rw [if_neg hb]
      have := ih (pre ++ [p]) priority h
      rw [List.length_append, List.length_singleton] at this
      have happ : pre ++ p :: rest = (pre ++ [p]) ++ rest := by simp
      rw [happ, this]
      simp

theorem bucket_loop_walk (os : OS) (ceiling : Int) (b : Bucket) (orig cur : List ProcessInfo)
    (priority : Int) (h : List Call)
    (hm : cur.map hybrid_bucket = orig.map hybrid_bucket) :
    bucket_loop os ceiling (bucket_indices b orig 0) priority cur h =
      bucket_pass os ceiling b cur priority h := by
  have h1 := bucket_loop_eq_pass os ceiling b cur [] priority h
  simp only [List.length_nil, List.nil_append] at h1
  rw [bucket_indices_congr b orig cur 0 hm.symm, h1]

theorem hybrid_schedule_eq_walk (os : OS) (processes : List ProcessInfo) (h : List Call) :
    hybrid_schedule os processes h = hybrid_walk os processes h := by
  unfold hybrid_schedule hybrid_walk
  by_cases hemp : processes.isEmpty = true
  · rw [if_pos hemp]
    have : processes = [] := List.isEmpty_iff.mp hemp
    subst this
    simp [bucket_pass]
  · rw [if_neg hemp, classify_loop_eq]
    simp only [List.nil_append]
    rw [bucket_loop_walk os (-10) Bucket.interactive processes processes _ _ rfl]
    rw [bucket_loop_walk os 0 Bucket.io_bound processes _ _ _
      (bucket_pass_buckets os _ _ _ _ _)]
    rw [bucket_loop_walk os 10 Bucket.background processes _ _ _
      ((bucket_pass_buckets os _ _ _ _ _).trans (bucket_pass_buckets os _ _ _ _ _))]
    rw [bucket_loop_walk os 19 Bucket.cpu_bound processes _ _ _
      (((bucket_pass_buckets os _ _ _ _ _).trans (bucket_pass_buckets os _ _ _ _ _)).trans
        (bucket_pass_buckets os _ _ _ _ _))]

/-! ## Hybrid: what one walk writes -/

theorem bucket_count_cons (b : Bucket) (p : ProcessInfo) (rest : List ProcessInfo) (i : Nat) :
    bucket_count b (p :: rest) (i + 1) =
      bucket_count b rest i + (if hybrid_bucket p = some b then 1 else 0) := by
  simp [bucket_count, List.take_succ_cons, List.countP_cons]

theorem bucket_count_congr (b : Bucket) (l1 l2 : List ProcessInfo) (i : Nat)
    (hm : l1.map hybrid_bucket = l2.map hybrid_bucket) :
    bucket_count b l1 i = bucket_count b l2 i := by
  have h1 : ∀ l : List ProcessInfo, bucket_count b l i =
      ((l.map hybrid_bucket).take i).countP (fun x => decide (x = some b)) := by
    intro l
    simp only [bucket_count, ← List.map_take, List.countP_map]
    rfl
  rw [h1, h1, hm]

theorem bucket_pass_index (os : OS) (ceiling : Int) (b : Bucket) :
    ∀ (processes : List ProcessInfo) (priority : Int) (h : List Call) (i : Nat)
      (p : ProcessInfo), priority ≤ ceiling → processes[i]? = some p →
      ∃ q : Int,
        (bucket_pass os ceiling b processes priority h).1[i]? =
          some (if hybrid_bucket p = some b then { p with priority := q } else p) ∧
        priority ≤ q ∧ q ≤ ceiling ∧
        (SetPriorityNeverThrows os → q = min ceiling (priority + bucket_count b processes i)) := by
  intro processes
  induction processes with
  | nil => intro _ _ i p _ hp; simp at hp
  | cons p0 rest ih =>
    intro priority h i p hle hp
    cases i with
    | zero =>
      simp only [List.getElem?_cons_zero, Option.some.injEq] at hp
      subst hp
      refine ⟨priority, ?_, le_refl _, hle, ?_⟩
      · unfold bucket_pass
        split_ifs
        · split <;> simp
        · simp
      · intro _
        simp only [bucket_count, List.take_zero, List.countP_nil]
        omega
    | succ i =>
      simp only [List.getElem?_cons_succ] at hp
      by_cases hb : hybrid_bucket p0 = some b
      · rcases hsp : set_priority os p0.pid priority h with ⟨res, c1⟩
        cases res with
        | error e =>
          obtain ⟨q, hq1, hq2, hq3, _⟩ := ih priority (h ++ c1) i p hle hp
          refine ⟨q, ?_, hq2, hq3, ?_⟩
          · unfold bucket_pass
            rw [if_pos hb, hsp]
            simpa using hq1
          · intro hall
            have := hall h p0.pid priority
            rw [hsp] at this
            exact absurd this (by simp)
        | ok u =>
          obtain ⟨q, hq1, hq2, hq3, hq4⟩ :=
            ih (min ceiling (priority + 1)) (h ++ c1) i p (by omega) hp
          refine ⟨q, ?_, by omega, hq3, ?_⟩
          · unfold bucket_pass
            rw [if_pos hb, hsp]
            simpa using hq1
          · intro hall
            rw [hq4 hall, bucket_count_cons, if_pos hb]
            push_cast
            omega
      · obtain ⟨q, hq1, hq2, hq3, hq4⟩ := ih priority h i p hle hp
        refine ⟨q, ?_, hq2, hq3, ?_⟩
        · unfold bucket_pass
          rw [if_neg hb]
          simpa using hq1
        · intro hall
          rw [hq4 hall, bucket_count_cons, if_neg hb]
          simp

theorem hybrid_walk_index (os : OS) (processes : List ProcessInfo) (h : List Call) (i : Nat)
    (p : ProcessInfo) (hi : processes[i]? = some p) :
    ∃ q : Int,
      (hybrid_walk os processes h).1[i]? =
        some (if hybrid_bucket p = none then p else { p with priority := q }) ∧
      ∀ b, hybrid_bucket p = some b →
        bucket_start b ≤ q ∧ q ≤ bucket_ceiling b ∧
        (SetPriorityNeverThrows os →
          q = min (bucket_ceiling b) (bucket_start b + bucket_count b processes i)) := by
  unfold hybrid_walk
  simp only
  have hm1 := bucket_pass_buckets os (-10) Bucket.interactive processes (-15) h
  obtain ⟨q1, e1, lo1, hi1, ok1⟩ :=
    bucket_pass_index os (-10) Bucket.interactive processes (-15) h i p (by omega) hi
  generalize bucket_pass os (-10) Bucket.interactive processes (-15) h = r1 at *
  have hm2 := (bucket_pass_buckets os 0 Bucket.io_bound r1.1 (-5) (h ++ r1.2)).trans hm1
  obtain ⟨q2, e2, lo2, hi2, ok2⟩ :=
    bucket_pass_index os 0 Bucket.io_bound r1.1 (-5) (h ++ r1.2) i _ (by omega) e1
  rw [bucket_count_congr _ _ _ i hm1] at ok2
  generalize bucket_pass os 0 Bucket.io_bound r1.1 (-5) (h ++ r1.2) = r2 at *
  have hm3 := (bucket_pass_buckets os 10 Bucket.background r2.1 5 (h ++ r1.2 ++ r2.2)).trans hm2
  obtain ⟨q3, e3, lo3, hi3, ok3⟩ :=
    bucket_pass_index os 10 Bucket.background r2.1 5 (h ++ r1.2 ++ r2.2) i _ (by omega) e2
  rw [bucket_count_congr _ _ _ i hm2] at ok3
  generalize bucket_pass os 10 Bucket.background r2.1 5 (h ++ r1.2 ++ r2.2) = r3 at *
  obtain ⟨q4, e4, lo4, hi4, ok4⟩ :=
    bucket_pass_index os 19 Bucket.cpu_bound r3.1 10 (h ++ r1.2 ++ r2.2 ++ r3.2) i _
      (by omega) e3
  rw [bucket_count_congr _ _ _ i hm3] at ok4
  generalize bucket_pass os 19 Bucket.cpu_bound r3.1 10 (h ++ r1.2 ++ r2.2 ++ r3.2) = r4 at *
  rcases hb : hybrid_bucket p with _ | b
  · refine ⟨0, ?_, fun b hb' => absurd hb' (by simp)⟩
    rw [e4]
    simp [hb, hybrid_bucket_priority]
  · cases b with
    | interactive =>
      refine ⟨q1, ?_, ?_⟩
      · rw [e4]
        simp [hb, hybrid_bucket_priority]
      · intro b hb'
        cases Option.some.inj hb'
        exact ⟨lo1, hi1, ok1⟩
    | io_bound =>
      refine ⟨q2, ?_, ?_⟩
      · rw [e4]
        simp [hb, hybrid_bucket_priority]
      · intro b hb'
        cases Option.some.inj hb'
        exact ⟨lo2, hi2, ok2⟩
    | background =>
      refine ⟨q3, ?_, ?_⟩
      · rw [e4]
        simp [hb, hybrid_bucket_priority]
      · intro b hb'
        cases Option.some.inj hb'
        exact ⟨lo3, hi3, ok3⟩
    | cpu_bound =>
      refine ⟨q4, ?_, ?_⟩
      · rw [e4]
        simp [hb, hybrid_bucket_priority]
      · intro b hb'
        cases Option.some.inj hb'
        exact ⟨lo4, hi4, ok4⟩

theorem bucket_indices_mem (b : Bucket) :
    ∀ (processes : List ProcessInfo) (off j : Nat),
      j ∈ bucket_indices b processes off ↔
        ∃ k p, j = off + k ∧ processes[k]? = some p ∧ hybrid_bucket p = some b := by
  intro processes
  induction processes with
  | nil => intro off j; simp [bucket_indices]
  | cons p0 rest ih =>
    intro off j
    have hstep : (∃ k p, j = off + 1 + k ∧ rest[k]? = some p ∧ hybrid_bucket p = some b) →
        ∃ k p, j = off + k ∧ (p0 :: rest)[k]? = some p ∧ hybrid_bucket p = some b := by
      rintro ⟨k, p, hj, hk, hp⟩
      exact ⟨k + 1, p, by omega, by simpa using hk, hp⟩
    have hback : ∀ k p, j = off + k → (p0 :: rest)[k]? = some p → hybrid_bucket p = some b →
        (k = 0 ∧ p = p0) ∨
          ∃ k' p', j = off + 1 + k' ∧ rest[k']? = some p' ∧ hybrid_bucket p' = some b := by
      intro k p hj hk hp
      cases k with
      | zero =>
        simp only [List.getElem?_cons_zero, Option.some.injEq] at hk
        exact Or.inl ⟨rfl, hk.symm⟩
      | succ k =>
        simp only [List.getElem?_cons_succ] at hk
        exact Or.inr ⟨k, p, by omega, hk, hp⟩
    by_cases hb : hybrid_bucket p0 = some b
    · simp only [bucket_indices, hb, if_true, List.mem_cons, ih]
      constructor
      · rintro (hj | hex)
        · exact ⟨0, p0, by omega, by simp, hb⟩
        · exact hstep hex
      · rintro ⟨k, p, hj, hk, hp⟩
        rcases hback k p hj hk hp with ⟨hk0, _⟩ | hex
        · left
          omega
        · exact Or.inr hex
    · simp only [bucket_indices, hb, if_false, ih]
      constructor
      · exact hstep
      · rintro ⟨k, p, hj, hk, hp⟩
        rcases hback k p hj hk hp with ⟨_, hp0⟩ | hex
        · rw [hp0] at hp
          exact absurd hp hb
        · exact hex

theorem bucket_vector_classify (processes : List ProcessInfo) (b : Bucket) :
    bucket_vector (classify_loop processes 0 ⟨[], [], [], []⟩) b =
      bucket_indices b processes 0 := by
  rw [classify_loop_eq]
  cases b <;> simp [bucket_vector]

theorem bucket_pass_never_throws_eq (os os' : OS) (ceiling : Int) (b : Bucket)
    (hok : SetPriorityNeverThrows os) (hok' : SetPriorityNeverThrows os') :
    ∀ (processes : List ProcessInfo) (priority : Int) (h h' : List Call),
      bucket_pass os ceiling b processes priority h =
        bucket_pass os' ceiling b processes priority h' := by
  intro processes
  induction processes with
  | nil => intro _ _ _; simp [bucket_pass]
  | cons p rest ih =>
    intro priority h h'
    have e1 : set_priority os p.pid priority h =
        (.ok (), [Call.setpriority p.pid (max (-20) (min 19 priority))]) :=
      Prod.ext (hok h p.pid priority) (set_priority_calls os p.pid priority h)
    have e2 : set_priority os' p.pid priority h' =
        (.ok (), [Call.setpriority p.pid (max (-20) (min 19 priority))]) :=
      Prod.ext (hok' h' p.pid priority) (set_priority_calls os' p.pid priority h')
    unfold bucket_pass
    split_ifs
    · rw [e1, e2]
      simp only
      rw [ih _ (h ++ [Call.setpriority p.pid (max (-20) (min 19 priority))])
        (h' ++ [Call.setpriority p.pid (max (-20) (min 19 priority))])]
    · rw [ih _ h h']

theorem hybrid_walk_never_throws_eq (os os' : OS) (hok : SetPriorityNeverThrows os)
    (hok' : SetPriorityNeverThrows os') (processes : List ProcessInfo) (h h' : List Call) :
    hybrid_walk os processes h = hybrid_walk os' processes h' := by
  unfold hybrid_walk
  simp only
  rw [bucket_pass_never_throws_eq os os' _ _ hok hok' processes _ h h']
  rw [bucket_pass_never_throws_eq os os' 0 _ hok hok' _ _ _
    (h' ++ (bucket_pass os' (-10) Bucket.interactive processes (-15) h').2)]
  rw [bucket_pass_never_throws_eq os os' 10 _ hok hok' _ _ _
    (h' ++ (bucket_pass os' (-10) Bucket.interactive processes (-15) h').2 ++
      (bucket_pass os' 0 Bucket.io_bound
        (bucket_pass os' (-10) Bucket.interactive processes (-15) h').1 (-5)
        (h' ++ (bucket_pass os' (-10) Bucket.interactive processes (-15) h').2)).2)]
  rw [bucket_pass_never_throws_eq os os' 19 _ hok hok' _ _ _
    (h' ++ (bucket_pass os' (-10) Bucket.interactive processes (-15) h').2 ++
      (bucket_pass os' 0 Bucket.io_bound
        (bucket_pass os' (-10) Bucket.interactive processes (-15) h').1 (-5)
        (h' ++ (bucket_pass os' (-10) Bucket.interactive processes (-15) h').2)).2 ++
      (bucket_pass os' 10 Bucket.background
        (bucket_pass os' 0 Bucket.io_bound
          (bucket_pass os' (-10) Bucket.interactive processes (-15) h').1 (-5)
          (h' ++ (bucket_pass os' (-10) Bucket.interactive processes (-15) h').2)).1 5
        (h' ++ (bucket_pass os' (-10) Bucket.interactive processes (-15) h').2 ++
          (bucket_pass os' 0 Bucket.io_bound
            (bucket_pass os' (-10) Bucket.interactive processes (-15) h').1 (-5)
            (h' ++ (bucket_pass os' (-10) Bucket.interactive processes (-15) h').2)).2)).2)]

theorem os_ok_never_throws : SetPriorityNeverThrows os_ok := by
  intro h pid priority
  simp [set_priority, os_ok]

theorem hybrid_walk_frame (os : OS) (processes : List ProcessInfo) (h : List Call) :
    (hybrid_walk os processes h).1.map clear_priority = processes.map clear_priority := by
  unfold hybrid_walk
  simp only
  rw [bucket_pass_frame, bucket_pass_frame, bucket_pass_frame, bucket_pass_frame]

theorem hybrid_walk_length (os : OS) (processes : List ProcessInfo) (h : List Call) :
    (hybrid_walk os processes h).1.length = processes.length := by
  have := congrArg List.length (hybrid_walk_frame os processes h)
  simpa using this

/-! ## C11, C12 -/

/-- C11. When no `set_priority` call throws, `hybrid_schedule` puts the record
at position `i` in the pointer vector of exactly its class (none if suspended or
system; interactive if foreground; else cpu-bound above 70 % CPU; else
io-bound below 20 %; else background, so exactly 20 % and exactly 70 % are
background), leaves a record of no class as it was, and gives a record of
class `b` the priority min(ceiling b, start b + k), `k` the number of records
of class `b` before it in the table, with (start, ceiling) = (-15, -10),
(-5, 0), (5, 10), (10, 19) for interactive, io-bound, background, cpu-bound.
Scenario S2 gives A = -15, B = 10, C = -5, D = 5. -/
theorem hybrid_schedule_assignment (os : OS) (processes : List ProcessInfo) (h : List Call)
    (i : Nat) (p : ProcessInfo) (hok : SetPriorityNeverThrows os)
    (hi : processes[i]? = some p) :
    (∀ b, i ∈ bucket_vector (classify_loop processes 0 ⟨[], [], [], []⟩) b ↔
      hybrid_bucket p = some b) ∧
    (hybrid_bucket p =
      if p.is_suspended || p.is_system then none
      else if p.is_foreground then some Bucket.interactive
      else if p.cpu_usage > 70 then some Bucket.cpu_bound
      else if p.cpu_usage < 20 then some Bucket.io_bound
      else some Bucket.background) ∧
    (p.is_suspended = false ∧ p.is_system = false ∧ p.is_foreground = false ∧
        (p.cpu_usage = 20 ∨ p.cpu_usage = 70) → hybrid_bucket p = some Bucket.background) ∧
    (hybrid_bucket p = none → (hybrid_schedule os processes h).1[i]? = some p) ∧
    (∀ b, hybrid_bucket p = some b →
      (hybrid_schedule os processes h).1[i]? =
        some { p with
          priority := min (bucket_ceiling b) (bucket_start b + bucket_count b processes i) }) ∧
    ([Bucket.interactive, Bucket.io_bound, Bucket.background, Bucket.cpu_bound].map
        (fun b => (bucket_start b, bucket_ceiling b)) = [(-15, -10), (-5, 0), (5, 10), (10, 19)]) ∧
    ((hybrid_schedule os s2_table h).1.map (fun x => (x.pid, x.priority)) =
      [(2001, -15), (2002, 10), (2003, -5), (2004, 5)]) := by
  obtain ⟨q, hq, hband⟩ := hybrid_walk_index os processes h i p hi
  refine ⟨?_, rfl, ?_, ?_, ?_, by decide, ?_⟩
  · intro b
    rw [bucket_vector_classify, bucket_indices_mem]
    constructor
    · rintro ⟨k, p', hk, hp', hb⟩
      have hki : k = i := by omega
      subst hki
      rw [hi] at hp'
      cases Option.some.inj hp'
      exact hb
    · intro hb
      exact ⟨i, p, by omega, hi, hb⟩
  · rintro ⟨h1, h2, h3, h4⟩
    rcases h4 with h4 | h4 <;> simp [hybrid_bucket, h1, h2, h3, h4] <;> norm_num
  · intro hb
    rw [hybrid_schedule_eq_walk, hq, if_pos hb]
  · intro b hb
    have hne : ¬ hybrid_bucket p = none := by simp [hb]
    rw [hybrid_schedule_eq_walk, hq, if_neg hne, (hband b hb).2.2 hok]
  · rw [hybrid_schedule_eq_walk,
      hybrid_walk_never_throws_eq os os_ok hok os_ok_never_throws s2_table h []]
    decide!

/-- Witness of C11, scenario S2 on an operating system where every call
succeeds: D is the first background record and receives 5. -/
theorem hybrid_schedule_assignment_witness :
    (SetPriorityNeverThrows os_ok ∧
      s2_table[3]? = some ⟨2004, "D", false, false, false, 0, 0, 50, 0⟩) ∧
    ((hybrid_schedule os_ok s2_table []).1[3]?).map ProcessInfo.priority = some 5 ∧
    (hybrid_schedule os_ok s2_table []).1.map (fun x => (x.pid, x.priority)) =
      [(2001, -15), (2002, 10), (2003, -5), (2004, 5)] := by
  have hw := hybrid_schedule_assignment os_ok s2_table [] 3
    ⟨2004, "D", false, false, false, 0, 0, 50, 0⟩ os_ok_never_throws rfl
  refine ⟨⟨os_ok_never_throws, rfl⟩, ?_, hw.2.2.2.2.2.2⟩
  rw [hw.2.2.2.2.1 Bucket.background (by decide!)]
  decide!

/-- C12. After `hybrid_schedule`, whatever the operating system answers,
every record of class interactive has its priority in [-15, -10], io-bound in
[-5, 0], background in [5, 10] and cpu-bound in [10, 19]; hence of two records
whose classes differ, the one whose class comes first in the order
interactive, io-bound, background, cpu-bound has the smaller or equal
priority. -/
theorem hybrid_band_ordering (os : OS) (processes : List ProcessInfo) (h : List Call) :
    (∀ x ∈ (hybrid_schedule os processes h).1, ∀ b, hybrid_bucket x = some b →
      bucket_start b ≤ x.priority ∧ x.priority ≤ bucket_ceiling b) ∧
    (∀ x ∈ (hybrid_schedule os processes h).1, ∀ y ∈ (hybrid_schedule os processes h).1,
      ∀ bx bY, hybrid_bucket x = some bx → hybrid_bucket y = some bY →
        bucket_rank bx < bucket_rank bY → x.priority ≤ y.priority) ∧
    ([Bucket.interactive, Bucket.io_bound, Bucket.background, Bucket.cpu_bound].map
        (fun b => (bucket_start b, bucket_ceiling b)) =
      [(-15, -10), (-5, 0), (5, 10), (10, 19)]) := by
  have hband : ∀ x ∈ (hybrid_schedule os processes h).1, ∀ b, hybrid_bucket x = some b →
      bucket_start b ≤ x.priority ∧ x.priority ≤ bucket_ceiling b := by
    intro x hx b hb
    rw [hybrid_schedule_eq_walk] at hx
    obtain ⟨i, hlt, hget⟩ := List.mem_iff_getElem.mp hx
    rw [hybrid_walk_length] at hlt
    have hp : processes[i]? = some processes[i] := List.getElem?_eq_getElem hlt
    obtain ⟨q, hq, hq2⟩ := hybrid_walk_index os processes h i _ hp
    have hx2 : (hybrid_walk os processes h).1[i]? = some x := by
      rw [← hget]
      exact List.getElem?_eq_getElem _
    rw [hq] at hx2
    have hx3 := Option.some.inj hx2
    by_cases hn : hybrid_bucket processes[i] = none
    · rw [if_pos hn] at hx3
      rw [← hx3, hn] at hb
      exact absurd hb (by simp)
    · rw [if_neg hn] at hx3
      have hb2 : hybrid_bucket processes[i] = some b := by
        rw [← hx3] at hb
        exact hb
      have := hq2 b hb2
      rw [← hx3]
      exact ⟨this.1, this.2.1⟩
  refine ⟨hband, ?_, by decide⟩
  intro x hx y hy bx bY hbx hbY hlt
  have h1 := hband x hx bx hbx
  have h2 := hband y hy bY hbY
  cases bx <;> cases bY <;> simp only [bucket_rank, bucket_start, bucket_ceiling] at * <;> omega

/-! ## C17 -/

theorem zip_map_pairs (f : ProcessInfo → ProcessInfo) (l : List ProcessInfo) :
    ∀ ab ∈ List.zip l (l.map f), ab.2 = f ab.1 := by
  induction l with
  | nil => intro ab hab; simp at hab
  | cons a l ih =>
    intro ab hab
    simp only [List.map_cons, List.zip_cons_cons, List.mem_cons] at hab
    rcases hab with hab | hab
    · rw [hab]
    · exact ih ab hab

theorem mem_zip_index :
    ∀ (l r : List ProcessInfo) (ab : ProcessInfo × ProcessInfo), ab ∈ List.zip l r →
      ∃ i : Nat, l[i]? = some ab.1 ∧ r[i]? = some ab.2 := by
  intro l
  induction l with
  | nil => intro r ab hab; simp at hab
  | cons a l ih =>
    intro r ab hab
    cases r with
    | nil => simp at hab
    | cons b r =>
      simp only [List.zip_cons_cons, List.mem_cons] at hab
      rcases hab with hab | hab
      · exact ⟨0, by simp [hab], by simp [hab]⟩
      · obtain ⟨i, h1, h2⟩ := ih r ab hab
        exact ⟨i + 1, by simpa using h1, by simpa using h2⟩

theorem hybrid_bucket_none_iff (p : ProcessInfo) :
    hybrid_bucket p = none ↔ (p.is_suspended = true ∨ p.is_system = true) := by
  unfold hybrid_bucket
  split_ifs with h1 <;> simp_all

theorem hybrid_schedule_pairs (os : OS) (processes : List ProcessInfo) (h : List Call) :
    ∀ ab ∈ List.zip processes (hybrid_schedule os processes h).1,
      (ab.1.is_suspended = true ∨ ab.1.is_system = true) → ab.2 = ab.1 := by
  intro ab hab hin
  obtain ⟨i, h1, h2⟩ := mem_zip_index _ _ ab hab
  obtain ⟨q, hq, _⟩ := hybrid_walk_index os processes h i ab.1 h1
  rw [hybrid_schedule_eq_walk, hq, if_pos ((hybrid_bucket_none_iff ab.1).mpr hin)] at h2
  exact (Option.some.inj h2).symm

/-- C17. For each of the five algorithms, `perform_scheduling` walks a
permutation of the table (the table sorted by the algorithm's key, or the table
itself), returns a table of the same length, and returns every record of the
walked table that is suspended or a system process exactly as it was, priority
included, whatever the operating system answers. -/
theorem algorithms_keep_ineligible (S : StdSort) (os : OS) (alg : SchedulingAlgorithm)
    (processes : List ProcessInfo) (h : List Call) :
    List.Perm (algorithm_order S alg processes) processes ∧
    (perform_scheduling S os alg processes h).1.length = processes.length ∧
    (∀ ab ∈ List.zip (algorithm_order S alg processes)
        (perform_scheduling S os alg processes h).1,
      (ab.1.is_suspended = true ∨ ab.1.is_system = true) →
        ab.2 = ab.1 ∧ ab.2.priority = ab.1.priority) := by
  have hseq : ∀ (l : List ProcessInfo) (q : Int),
      ∀ ab ∈ List.zip l (sequential_assign os l q h).1,
        (ab.1.is_suspended = true ∨ ab.1.is_system = true) → ab.2 = ab.1 := by
    intro l q ab hab hin
    rcases sequential_assign_pairs os l q h ab hab with ⟨_, h2⟩ | ⟨h1, _⟩
    · exact h2
    · rcases hin with hin | hin <;> simp [eligible, hin] at h1
  have key : List.Perm (algorithm_order S alg processes) processes ∧
      (perform_scheduling S os alg processes h).1.length = processes.length ∧
      (∀ ab ∈ List.zip (algorithm_order S alg processes)
          (perform_scheduling S os alg processes h).1,
        (ab.1.is_suspended = true ∨ ab.1.is_system = true) → ab.2 = ab.1) := by
    cases alg
    · refine ⟨S.perm _ _, ?_, hseq _ _⟩
      simp only [perform_scheduling, fcfs_schedule, sequential_assign_length]
      exact (S.perm _ _).length_eq
    · refine ⟨S.perm _ _, ?_, hseq _ _⟩
      simp only [perform_scheduling, sjf_schedule, sequential_assign_length]
      exact (S.perm _ _).length_eq
    · refine ⟨S.perm _ _, (S.perm _ _).length_eq, ?_⟩
      intro ab hab _
      exact zip_self_pairs _ ab hab
    · refine ⟨List.Perm.refl _, ?_, ?_⟩
      · simp only [perform_scheduling, rr_schedule_eq, List.length_map]
      · intro ab hab hin
        simp only [perform_scheduling, algorithm_order, rr_schedule_eq] at hab
        rw [zip_map_pairs _ _ ab hab]
        have : ¬ eligible ab.1 = true := by
          rcases hin with hin | hin <;> simp [eligible, hin]
        rw [if_neg this]
    · refine ⟨List.Perm.refl _, ?_, hybrid_schedule_pairs os processes h⟩
      simp only [perform_scheduling, hybrid_schedule_eq_walk, hybrid_walk_length]
  refine ⟨key.1, key.2.1, ?_⟩
  intro ab hab hin
  have := key.2.2 ab hab hin
  exact ⟨this, by rw [this]⟩

/-! ## C20 -/

theorem send_signal_err (os : OS) (sig : Signal) (verb : String) (pid : Int) (h : List Call)
    (hne : os h (Call.kill pid sig) ≠ none) :
    ∃ msg, send_signal os sig verb pid h = (.error msg, [Call.kill pid sig]) := by
  simp only [send_signal]
  rcases hos : os h (Call.kill pid sig) with _ | e
  · exact absurd hos hne
  · cases e <;> exact ⟨_, rfl⟩

theorem suspend_loop_miss (os : OS) (thr : ℚ) (proc : ProcessInfo) (rest : List ProcessInfo)
    (cnt : Int) (h : List Call) (he : suspend_eligible thr proc = true)
    (hne : os h (Call.kill proc.pid Signal.SIGSTOP) ≠ none) :
    suspend_loop os thr (proc :: rest) cnt h =
      (proc :: (suspend_loop os thr rest cnt (h ++ [Call.kill proc.pid Signal.SIGSTOP])).1,
       Call.kill proc.pid Signal.SIGSTOP ::
         (suspend_loop os thr rest cnt (h ++ [Call.kill proc.pid Signal.SIGSTOP])).2) := by
  rw [suspend_eligible_iff] at he
  obtain ⟨h1, h2, h3⟩ := he
  obtain ⟨msg, hmsg⟩ := send_signal_err os Signal.SIGSTOP "suspend" proc.pid h hne
  conv_lhs => unfold suspend_loop
  rw [if_neg h1, if_neg h2, if_pos h3, suspend_process, hmsg]
  rfl

theorem suspend_loop_count (os : OS) (thr : ℚ) :
    ∀ (processes : List ProcessInfo) (cnt : Int) (h : List Call), cnt ≤ 2 →
      (((List.zip processes (suspend_loop os thr processes cnt h).1).countP
        newly_suspended : Nat) : Int) =
        min (3 - cnt) (suspend_successes os thr processes h : Nat) := by
  intro processes
  induction processes with
  | nil =>
    intro cnt h hc
    simp only [suspend_loop, List.zip_nil_left, List.countP_nil, suspend_successes]
    omega
  | cons proc rest ih =>
    intro cnt h hc
    by_cases he : suspend_eligible thr proc = true
    · have hsusp : proc.is_suspended = false := by
        simp only [suspend_eligible, Bool.and_eq_true, Bool.not_eq_true'] at he
        exact he.1.1.2
      by_cases hos : os h (Call.kill proc.pid Signal.SIGSTOP) = none
      · rw [suspend_loop_hit os thr proc rest cnt h he hos]
        simp only [suspend_successes, he, hos, if_true]
        split_ifs with h3
        · have h0 : (List.zip rest rest).countP newly_suspended = 0 :=
            countP_newly_zero _ _ (fun ab hab => Or.inl (zip_self_pairs rest ab hab))
          simp only [List.zip_cons_cons, List.countP_cons, h0, newly_suspended, hsusp]
          simp
          omega
        · have := ih (cnt + 1) (h ++ [Call.kill proc.pid Signal.SIGSTOP]) (by omega)
          simp only [List.zip_cons_cons, List.countP_cons, newly_suspended, hsusp]
          simp only [newly_suspended] at this
          simp
          omega
      · rw [suspend_loop_miss os thr proc rest cnt h he hos]
        have := ih cnt (h ++ [Call.kill proc.pid Signal.SIGSTOP]) hc
        simp only [suspend_successes, he, hos, if_true, if_false]
        simp only [List.zip_cons_cons, List.countP_cons, newly_suspended, hsusp]
        simp only [newly_suspended] at this
        simp
        omega
    · rw [suspend_loop_skip os thr proc rest cnt h he]
      have := ih cnt h hc
      simp only [suspend_successes, he]
      simp only [List.zip_cons_cons, List.countP_cons, newly_suspended]
      simp only [newly_suspended] at this
      simp
      omega

theorem suspend_successes_assignment (os : OS) (thr : ℚ) (a : Int → Bool)
    (ha : ∀ (h : List Call) (pid : Int),
      os h (Call.kill pid Signal.SIGSTOP) = none ↔ a pid = true) :
    ∀ (processes : List ProcessInfo) (h : List Call),
      suspend_successes os thr processes h =
        processes.countP (fun p => suspend_eligible thr p && a p.pid) := by
  intro processes
  induction processes with
  | nil => intro _; simp [suspend_successes]
  | cons proc rest ih =>
    intro h
    unfold suspend_successes
    by_cases he : suspend_eligible thr proc = true
    · by_cases hos : os h (Call.kill proc.pid Signal.SIGSTOP) = none
      · have hap := (ha h proc.pid).mp hos
        simp only [he, hos, if_true, ih, List.countP_cons, hap, Bool.and_self]
        omega
      · have hap : a proc.pid = false := by
          cases hx : a proc.pid with
          | false => rfl
          | true => exact absurd ((ha h proc.pid).mpr hx) hos
        simp only [he, hos, if_true, if_false, ih, List.countP_cons, hap, Bool.and_false]
        simp
    · simp only [he, ih, List.countP_cons]
      simp

/-- C20. Under pressure, for every operating system: the number of records
newly marked suspended is min(3, s), `s` the number of eligible records of the
sorted table whose suspend call succeeds (`suspend_successes`); when the
outcome of a suspend depends on the pid alone, `s` is the number of eligible
records of the table with a succeeding pid; an eligible record whose suspend
fails is returned unchanged and the walk goes on with the next record and the
same count; and a record whose suspend can only fail is returned as it was. -/
theorem optimize_memory_failures_skipped (S : StdSort) (os : OS) (mem swap thr : ℚ)
    (processes : List ProcessInfo) (h : List Call) (hp : mem > 90 ∨ swap > 70) :
    ((List.zip (S.sort by_memory_desc processes)
        (optimize_memory S os mem swap thr processes h).1).countP newly_suspended =
      min 3 (suspend_successes os thr (S.sort by_memory_desc processes) h)) ∧
    (∀ a : Int → Bool,
      (∀ (h' : List Call) (pid : Int),
        os h' (Call.kill pid Signal.SIGSTOP) = none ↔ a pid = true) →
      (List.zip (S.sort by_memory_desc processes)
          (optimize_memory S os mem swap thr processes h).1).countP newly_suspended =
        min 3 (processes.countP (fun p => suspend_eligible thr p && a p.pid))) ∧
    (∀ (proc : ProcessInfo) (rest : List ProcessInfo) (cnt : Int) (h' : List Call),
      suspend_eligible thr proc = true →
      os h' (Call.kill proc.pid Signal.SIGSTOP) ≠ none →
      suspend_loop os thr (proc :: rest) cnt h' =
        (proc :: (suspend_loop os thr rest cnt (h' ++ [Call.kill proc.pid Signal.SIGSTOP])).1,
         Call.kill proc.pid Signal.SIGSTOP ::
           (suspend_loop os thr rest cnt (h' ++ [Call.kill proc.pid Signal.SIGSTOP])).2)) ∧
    (∀ ab ∈ List.zip (S.sort by_memory_desc processes)
        (optimize_memory S os mem swap thr processes h).1,
      (∀ h' : List Call, os h' (Call.kill ab.1.pid Signal.SIGSTOP) ≠ none) → ab.2 = ab.1) := by
  have hrun := optimize_memory_pressure S os mem swap thr processes h hp
  have hcount : (List.zip (S.sort by_memory_desc processes)
        (optimize_memory S os mem swap thr processes h).1).countP newly_suspended =
      min 3 (suspend_successes os thr (S.sort by_memory_desc processes) h) := by
    have := suspend_loop_count os thr (S.sort by_memory_desc processes) 0 h (by omega)
    rw [hrun]
    omega
  refine ⟨hcount, ?_, ?_, ?_⟩
  · intro a ha
    rw [hcount, suspend_successes_assignment os thr a ha,
      (S.perm by_memory_desc processes).countP_eq]
  · intro proc rest cnt h' he hne
    exact suspend_loop_miss os thr proc rest cnt h' he hne
  · intro ab hab hfail
    rw [hrun] at hab
    have hgen : ∀ (l : List ProcessInfo) (cnt : Int) (h' : List Call),
        ∀ ab ∈ List.zip l (suspend_loop os thr l cnt h').1,
          (∀ h'' : List Call, os h'' (Call.kill ab.1.pid Signal.SIGSTOP) ≠ none) →
            ab.2 = ab.1 := by
      intro l
      induction l with
      | nil => intro _ _ ab hab; simp [suspend_loop] at hab
      | cons proc rest ih =>
        intro cnt h' ab hab hf
        by_cases he : suspend_eligible thr proc = true
        · by_cases hos : os h' (Call.kill proc.pid Signal.SIGSTOP) = none
          · rw [suspend_loop_hit os thr proc rest cnt h' he hos] at hab
            split_ifs at hab
            · simp only [List.zip_cons_cons, List.mem_cons] at hab
              rcases hab with hab | hab
              · rw [hab] at hf
                exact absurd hos (hf h')
              · exact zip_self_pairs rest ab hab
            · simp only [List.zip_cons_cons, List.mem_cons] at hab
              rcases hab with hab | hab
              · rw [hab] at hf
                exact absurd hos (hf h')
              · exact ih _ _ ab hab hf
          · rw [suspend_loop_miss os thr proc rest cnt h' he hos] at hab
            simp only [List.zip_cons_cons, List.mem_cons] at hab
            rcases hab with hab | hab
            · rw [hab]
            · exact ih _ _ ab hab hf
        · rw [suspend_loop_skip os thr proc rest cnt h' he] at hab
          simp only [List.zip_cons_cons, List.mem_cons] at hab
          rcases hab with hab | hab
          · rw [hab]
          · exact ih _ _ ab hab hf
    exact hgen _ _ _ ab hab hfail

/-- Witness of C20 on the table of scenario S3 when the first suspend call
fails: P1 stays running, P3, P4 and P5 are suspended. -/
theorem optimize_memory_failures_skipped_witness :
    ((92 : ℚ) > 90 ∨ (10 : ℚ) > 70) ∧
    (List.zip (stable_sort.sort by_memory_desc s3_table)
        (optimize_memory stable_sort os_first_fails 92 10 100 s3_table []).1).countP
      newly_suspended = 3 ∧
    (optimize_memory stable_sort os_first_fails 92 10 100 s3_table []).1.map
        (fun p => (p.pid, p.is_suspended)) =
      [(1001, false), (1002, false), (1003, true), (1004, true), (1005, true)] := by
  have hw := optimize_memory_failures_skipped stable_sort os_first_fails 92 10 100 s3_table []
    (Or.inl (by norm_num))
  refine ⟨Or.inl (by norm_num), ?_, by decide!⟩
  rw [hw.1]
  decide!

/-! ## C21: configuration clamping -/

/-- C21. `set_custom_params(slice, threshold)` stores max(1, slice) and
max(50, threshold) and leaves the mode, the algorithm, the table and the
running flag alone; `set_custom_params(0, 0)` stores (1, 50); the constructor
stores (5, 200); and in every state reachable from the constructor
`time_slice_ms >= 1` and `mem_threshold_mb >= 50`. -/
theorem set_custom_params_clamps (s : Scheduler) (slice : Int) (threshold : ℚ)
    (hs : Reachable s) :
    (s.set_custom_params slice threshold).time_slice_ms = max 1 slice ∧
    (s.set_custom_params slice threshold).mem_threshold_mb = max 50 threshold ∧
    (s.set_custom_params slice threshold).current_mode = s.current_mode ∧
    (s.set_custom_params slice threshold).current_algorithm = s.current_algorithm ∧
    (s.set_custom_params slice threshold).processes = s.processes ∧
    (s.set_custom_params slice threshold).running = s.running ∧
    ((s.set_custom_params 0 0).time_slice_ms = 1 ∧
      (s.set_custom_params 0 0).mem_threshold_mb = 50) ∧
    (Scheduler.construct.time_slice_ms = 5 ∧ Scheduler.construct.mem_threshold_mb = 200) ∧
    (1 ≤ s.time_slice_ms ∧ 50 ≤ s.mem_threshold_mb) := by
  refine ⟨rfl, rfl, rfl, rfl, rfl, rfl, ⟨?_, ?_⟩, ⟨rfl, rfl⟩, ?_⟩
  · simp [Scheduler.set_custom_params]
  · simp [Scheduler.set_custom_params]
  · induction hs with
    | construct => exact ⟨by decide, by norm_num [Scheduler.construct]⟩
    | set_mode s os mode h _ ih => exact ih
    | set_algorithm s alg _ ih => exact ih
    | set_custom_params s a b _ _ =>
      exact ⟨le_max_left _ _, le_max_left _ _⟩
    | start_monitoring s _ ih =>
      unfold Scheduler.start_monitoring
      split_ifs <;> exact ih
    | stop_monitoring s _ ih =>
      unfold Scheduler.stop_monitoring
      split_ifs <;> exact ih
    | adjust_priorities s os h _ ih => exact ih
    | monitoring_round s S os probe m sw h _ ih => exact ih

/-- Witness of C21: the state after `set_custom_params(0, 0)` on a freshly
constructed scheduler is reachable and holds (1, 50). -/
theorem set_custom_params_clamps_witness :
    Reachable (Scheduler.construct.set_custom_params 0 0) ∧
    (1 ≤ (Scheduler.construct.set_custom_params 0 0).time_slice_ms ∧
      50 ≤ (Scheduler.construct.set_custom_params 0 0).mem_threshold_mb) ∧
    ((Scheduler.construct.set_custom_params 0 0).time_slice_ms = 1 ∧
      (Scheduler.construct.set_custom_params 0 0).mem_threshold_mb = 50) :=
  ⟨Reachable.set_custom_params _ 0 0 Reachable.construct,
   (set_custom_params_clamps (Scheduler.construct.set_custom_params 0 0) 0 0
      (Reachable.set_custom_params _ 0 0 Reachable.construct)).2.2.2.2.2.2.2.2,
   (set_custom_params_clamps Scheduler.construct 0 0 Reachable.construct).2.2.2.2.2.2.1⟩

/-! ## C23, C24: system-wide readings -/

/-- C23. `get_cpu_usage` as a state machine over its statics: the first call
returns 0 and records the sample as baseline; a later call less than 0.1 s
after the baseline returns 0 and leaves the statics alone; any other call
returns 100 * (delta_total - delta_idle) / delta_total clamped to [0, 100]
(0 when delta_total <= 0) and moves the baseline to the current sample; total
is the sum of the eight counters; the value returned is always in [0, 100]. -/
theorem get_cpu_usage_state_machine (st : CpuSampler) (t : CpuTicks) (now : ℚ) :
    (st.first_call = true →
      get_cpu_usage st (some t) now =
        (0, { first_call := false, prev_total := t.total, prev_idle := t.idle,
              prev_time := now })) ∧
    (st.first_call = false → now - st.prev_time < 1 / 10 →
      get_cpu_usage st (some t) now = (0, st)) ∧
    (st.first_call = false → now - st.prev_time ≥ 1 / 10 →
      get_cpu_usage st (some t) now =
        (if t.total - st.prev_total > 0 then
            max 0 (min 100
              (100 * (((t.total - st.prev_total) - (t.idle - st.prev_idle) : Int) : ℚ) /
                ((t.total - st.prev_total : Int) : ℚ)))
          else 0,
         { first_call := false, prev_total := t.total, prev_idle := t.idle,
           prev_time := now })) ∧
    (0 ≤ (get_cpu_usage st (some t) now).1 ∧ (get_cpu_usage st (some t) now).1 ≤ 100) ∧
    t.total = t.user + t.nice + t.system + t.idle + t.iowait + t.irq + t.softirq + t.steal := by
  refine ⟨?_, ?_, ?_, ?_, rfl⟩
  · intro hf
    simp [get_cpu_usage, hf]
  · intro hf hlt
    have hd : decide (now - st.prev_time ≥ 1 / 10) = false :=
      decide_eq_false (not_le.mpr hlt)
    simp only [get_cpu_usage, hf, hd, Bool.and_false, Bool.false_eq_true, if_false]
  · intro hf hge
    have hge' : 1 / 10 ≤ now - st.prev_time := hge
    cases st with
    | mk fc pt pi ptime =>
      simp only at hf hge'
      subst hf
      simp only [get_cpu_usage, Bool.not_false, Bool.true_and, ge_iff_le, hge', decide_True,
        if_true]
  · simp only [get_cpu_usage]
    split_ifs
    · simp only
      exact ⟨le_max_left _ _, max_le (by norm_num) (min_le_left _ _)⟩
    · simp
    · simp
    · simp

/-- C24. `get_system_memory_usage` returns 0 when `MemTotal` is 0 (and when the
file cannot be opened), otherwise 100 * max(0, total - free - buffers - cached
- slab) / total; for total > 0 and non-negative free, buffers, cached and slab
the result lies in [0, 100]. -/
theorem get_system_memory_usage_value (m : MemInfo) (ht : 0 < m.total) (hf : 0 ≤ m.free)
    (hb : 0 ≤ m.buffers) (hc : 0 ≤ m.cached) (hs : 0 ≤ m.slab) :
    (∀ m' : MemInfo, m'.total = 0 → get_system_memory_usage (some m') = 0) ∧
    get_system_memory_usage none = 0 ∧
    (∀ m' : MemInfo, m'.total ≠ 0 →
      get_system_memory_usage (some m') =
        100 * ((max 0 (m'.total - m'.free - m'.buffers - m'.cached - m'.slab) : Int) : ℚ) /
          (m'.total : ℚ)) ∧
    (0 ≤ get_system_memory_usage (some m) ∧ get_system_memory_usage (some m) ≤ 100) := by
  refine ⟨?_, rfl, ?_, ?_⟩
  · intro m' h0
    simp [get_system_memory_usage, h0]
  · intro m' hne
    simp only [get_system_memory_usage, hne, if_false]
    rw [mul_comm]
  · have hne : m.total ≠ 0 := by omega
    have hpos : (0 : ℚ) < (m.total : ℚ) := by exact_mod_cast ht
    have hused0 : (0 : ℚ) ≤ ((max 0 (m.total - m.free - m.buffers - m.cached - m.slab) : Int) : ℚ) := by
      exact_mod_cast le_max_left _ _
    have husedle : ((max 0 (m.total - m.free - m.buffers - m.cached - m.slab) : Int) : ℚ) ≤
        (m.total : ℚ) := by
      have : max 0 (m.total - m.free - m.buffers - m.cached - m.slab) ≤ m.total := by omega
      exact_mod_cast this
    simp only [get_system_memory_usage, hne, if_false]
    constructor
    · apply div_nonneg _ hpos.le
      exact mul_nonneg hused0 (by norm_num)
    · rw [div_le_iff₀ hpos]
      nlinarith

/-- Witness of C24: 16 GiB total, 4 GiB free, 1 GiB of buffers, cache and slab
each give 56.25 %. -/
theorem get_system_memory_usage_value_witness :
    ((0 : Int) < 16000000 ∧ (0 : Int) ≤ 4000000 ∧ (0 : Int) ≤ 1000000) ∧
    (0 ≤ get_system_memory_usage (some ⟨16000000, 4000000, 1000000, 1000000, 1000000⟩) ∧
      get_system_memory_usage (some ⟨16000000, 4000000, 1000000, 1000000, 1000000⟩) ≤ 100) ∧
    get_system_memory_usage (some ⟨16000000, 4000000, 1000000, 1000000, 1000000⟩) = 225 / 4 := by
  refine ⟨by decide, (get_system_memory_usage_value ⟨16000000, 4000000, 1000000, 1000000, 1000000⟩
    (by decide) (by decide) (by decide) (by decide) (by decide)).2.2.2, ?_⟩
  norm_num [get_system_memory_usage]

/-! ## C25: the telemetry window -/

theorem last_hundred_push (l : List ℚ) (x : ℚ) :
    (if (last_hundred l ++ [x]).length > 100 then (last_hundred l ++ [x]).tail
      else last_hundred l ++ [x]) = last_hundred (l ++ [x]) := by
  unfold last_hundred
  by_cases hl : l.length < 100
  · have h0 : l.length - 100 = 0 := by omega
    have h1 : (l ++ [x]).length - 100 = 0 := by simp; omega
    rw [h0, h1]
    simp only [List.drop_zero]
    have : ¬ (l ++ [x]).length > 100 := by simp; omega
    rw [if_neg this]
  · have hlen : (List.drop (l.length - 100) l ++ [x]).length > 100 := by
      simp [List.length_drop]
      omega
    rw [if_pos hlen]
    have h1 : (l ++ [x]).length - 100 = (l.length - 100) + 1 := by simp; omega
    rw [h1, ← List.drop_drop, List.drop_append_of_le_length (by omega)]
    simp [List.drop_one]

theorem collect_samples_snoc (a : PerformanceAnalyzer)
    (xs : List (List ProcessInfo × ℚ × ℚ)) (x : List ProcessInfo × ℚ × ℚ) :
    a.collect_samples (xs ++ [x]) = (a.collect_samples xs).collect_sample x.1 x.2.1 x.2.2 := by
  simp [PerformanceAnalyzer.collect_samples, List.foldl_append]

theorem collect_sample_cpu (a : PerformanceAnalyzer) (processes : List ProcessInfo)
    (m c : ℚ) :
    (a.collect_sample processes m c).cpu_samples =
      if (a.cpu_samples ++ [c]).length > 100 then (a.cpu_samples ++ [c]).tail
      else a.cpu_samples ++ [c] := rfl

theorem collect_sample_memory (a : PerformanceAnalyzer) (processes : List ProcessInfo)
    (m c : ℚ) :
    (a.collect_sample processes m c).memory_samples =
      if (a.memory_samples ++ [m]).length > 100 then (a.memory_samples ++ [m]).tail
      else a.memory_samples ++ [m] := rfl

theorem collect_samples_windows (a : PerformanceAnalyzer)
    (offered : List (List ProcessInfo × ℚ × ℚ)) :
    (a.reset_stats.collect_samples offered).cpu_samples =
        last_hundred (offered.map (fun x => x.2.2)) ∧
      (a.reset_stats.collect_samples offered).memory_samples =
        last_hundred (offered.map (fun x => x.2.1)) := by
  induction offered using List.reverseRecOn with
  | nil => exact ⟨rfl, rfl⟩
  | append_singleton xs x ih =>
    obtain ⟨ih1, ih2⟩ := ih
    rw [collect_samples_snoc, collect_sample_cpu, collect_sample_memory, ih1, ih2,
      List.map_append, List.map_append]
    exact ⟨last_hundred_push _ _, last_hundred_push _ _⟩

theorem last_hundred_length (l : List ℚ) : (last_hundred l).length = min l.length 100 := by
  unfold last_hundred
  rw [List.length_drop]
  omega

/-- C25. Starting from `reset_stats`, after any sequence of `collect_sample`
calls the CPU window holds the last min(n, 100) CPU values offered, in the
order offered, and the memory window the last min(n, 100) memory values; each
window has length min(n, 100), so at most 100. -/
theorem telemetry_window (a : PerformanceAnalyzer)
    (offered : List (List ProcessInfo × ℚ × ℚ)) :
    (a.reset_stats.collect_samples offered).cpu_samples =
      (offered.map (fun x => x.2.2)).drop (offered.length - 100) ∧
    (a.reset_stats.collect_samples offered).memory_samples =
      (offered.map (fun x => x.2.1)).drop (offered.length - 100) ∧
    (a.reset_stats.collect_samples offered).cpu_samples.length = min offered.length 100 ∧
    (a.reset_stats.collect_samples offered).memory_samples.length = min offered.length 100 ∧
    (a.reset_stats.collect_samples offered).cpu_samples.length ≤ 100 ∧
    (a.reset_stats.collect_samples offered).memory_samples.length ≤ 100 := by
  obtain ⟨h1, h2⟩ := collect_samples_windows a offered
  have l1 := last_hundred_length (offered.map (fun x => x.2.2))
  have l2 := last_hundred_length (offered.map (fun x => x.2.1))
  rw [List.length_map] at l1 l2
  refine ⟨?_, ?_, ?_, ?_, ?_, ?_⟩
  · rw [h1, last_hundred, List.length_map]
  · rw [h2, last_hundred, List.length_map]
  · rw [h1, l1]
  · rw [h2, l2]
  · rw [h1, l1]
    omega
  · rw [h2, l2]
    omega

/-! ## C22: per-process CPU percent -/

theorem cpu_usage_of_le (prev_cpu_time : Option Int) (prev_time : Option ℚ) (cpu_time : Int)
    (now : ℚ) (clk_tck : Int) :
    cpu_usage_of prev_cpu_time prev_time cpu_time now clk_tck ≤ 100 := by
  unfold cpu_usage_of
  split
  · simp only
    split_ifs
    · exact min_le_right _ _
    · norm_num
  · norm_num

theorem cpu_usage_of_first (prev_time : Option ℚ) (prev_cpu_time : Option Int) (cpu_time : Int)
    (now : ℚ) (clk_tck : Int) :
    cpu_usage_of none prev_time cpu_time now clk_tck = 0 ∧
    cpu_usage_of prev_cpu_time none cpu_time now clk_tck = 0 := by
  constructor
  · simp [cpu_usage_of]
  · cases prev_cpu_time <;> simp [cpu_usage_of]

theorem cpu_usage_of_nonneg (prev_cpu_time : Option Int) (prev_time : Option ℚ)
    (cpu_time : Int) (now : ℚ) (clk_tck : Int) (hclk : 0 < clk_tck)
    (hmono : ∀ pc, prev_cpu_time = some pc → pc ≤ cpu_time) :
    0 ≤ cpu_usage_of prev_cpu_time prev_time cpu_time now clk_tck := by
  unfold cpu_usage_of
  split
  · rename_i pc pt
    simp only
    split_ifs with hel
    · have h1 : (0 : ℚ) ≤ ((cpu_time - pc : Int) : ℚ) := by
        have := hmono pc rfl
        exact_mod_cast (by omega : (0 : Int) ≤ cpu_time - pc)
      have h2 : (0 : ℚ) < (clk_tck : ℚ) := by exact_mod_cast hclk
      have h3 : (0 : ℚ) < now - pt := lt_trans (by norm_num) hel
      exact le_min (div_nonneg (mul_nonneg h1 (by norm_num)) (mul_pos h2 h3).le) (by norm_num)
    · exact le_refl _
  · exact le_refl _

/-- C22, the code at the failing input: with 500 ticks stored for pid 4000 at
time 0 and a process read under the same pid with 100 ticks at time 1 (100
ticks per second), the CPU percent is -400, and `probe_entry` pushes a record
carrying it; the value is capped at 100 but has no floor. -/
theorem per_process_cpu_negative :
    cpu_usage_of (some 500) (some 0) 100 1 100 = -400 ∧
    ¬ (0 ≤ cpu_usage_of (some 500) (some 0) 100 1 100) ∧
    (match probe_entry fields_sleeping 100 1 memory_4000 reading_4000 with
      | .ok (some proc, _) => (proc.pid, proc.last_cpu_time, proc.cpu_usage)
      | _ => (0, 0, 0)) = (4000, 100, -400) := by
  have h1 : cpu_usage_of (some 500) (some 0) 100 1 100 = -400 := by
    norm_num [cpu_usage_of]
  refine ⟨h1, ?_, ?_⟩
  · rw [h1]
    norm_num
  · decide!

/-! ## C26: the command name -/

theorem find_char_append (c : Char) :
    ∀ (pre t : List Char), c ∉ pre → find_char c (pre ++ c :: t) = some pre.length := by
  intro pre
  induction pre with
  | nil => intro t _; simp [find_char]
  | cons x xs ih =>
    intro t hx
    have hne : ¬ x = c := fun h => hx (h ▸ List.mem_cons_self _ _)
    have hxs : c ∉ xs := fun h => hx (List.mem_cons_of_mem _ h)
    simp [find_char, hne, ih t hxs]

theorem rfind_char_none (c : Char) : ∀ l : List Char, c ∉ l → rfind_char c l = none := by
  intro l
  induction l with
  | nil => intro _; rfl
  | cons x xs ih =>
    intro hx
    have hne : ¬ x = c := fun h => hx (h ▸ List.mem_cons_self _ _)
    have hxs : c ∉ xs := fun h => hx (List.mem_cons_of_mem _ h)
    simp [rfind_char, ih hxs, hne]

theorem rfind_char_append (c : Char) :
    ∀ (a rest : List Char), c ∉ rest → rfind_char c (a ++ c :: rest) = some a.length := by
  intro a
  induction a with
  | nil =>
    intro rest hr
    simp [rfind_char, rfind_char_none c rest hr]
  | cons x xs ih =>
    intro rest hr
    simp [rfind_char, ih rest hr]

theorem parse_comm_line (pre name rest : List Char) (hpre : '(' ∉ pre) (hrest : ')' ∉ rest) :
    parse_comm (pre ++ ('(' :: name) ++ (')' :: ' ' :: rest)) =
      some (name, pre.length + 1 + name.length) := by
  have hfind : find_char '(' (pre ++ ('(' :: name) ++ (')' :: ' ' :: rest)) =
      some pre.length := by
    have := find_char_append '(' pre (name ++ (')' :: ' ' :: rest)) hpre
    simpa using this
  have hr : ')' ∉ ' ' :: rest := by
    intro h
    rcases List.mem_cons.mp h with h | h
    · exact absurd h (by decide)
    · exact hrest h
  have hrfind : rfind_char ')' (pre ++ ('(' :: name) ++ (')' :: ' ' :: rest)) =
      some (pre.length + 1 + name.length) := by
    have := rfind_char_append ')' (pre ++ ('(' :: name)) (' ' :: rest) hr
    have hl : (pre ++ ('(' :: name)).length = pre.length + 1 + name.length := by
      simp
      omega
    rw [hl] at this
    simpa using this
  unfold parse_comm
  rw [hfind, hrfind]
  simp only
  have hgt : pre.length + 1 + name.length > pre.length := by omega
  rw [if_pos hgt]
  have hlen : pre.length + 1 + name.length - pre.length - 1 = name.length := by omega
  have hdrop : List.drop (pre.length + 1) (pre ++ ('(' :: name) ++ (')' :: ' ' :: rest)) =
      name ++ (')' :: ' ' :: rest) := by
    have h1 : pre ++ ('(' :: name) ++ (')' :: ' ' :: rest) =
        (pre ++ ['(']) ++ (name ++ (')' :: ' ' :: rest)) := by simp
    rw [h1, List.drop_append_of_le_length (by simp)]
    simp
  rw [hlen, substr, hdrop, List.take_left']
  rfl

theorem probe_entry_skips_empty (parse_fields : String → StatFields) (clk_tck : Int) (now : ℚ)
    (mem : ProbeMemory) (r : ProcReading) (line : String) (close : Nat)
    (hline : r.stat_line = some line) (hcomm : parse_comm line.data = some ([], close))
    (hlen : ¬ close + 2 > line.data.length) :
    probe_entry parse_fields clk_tck now mem r = .ok (none, mem) := by
  unfold probe_entry
  simp only [hline, hcomm, hlen, if_false]
  rfl

theorem probe_entry_keeps_name (parse_fields : String → StatFields) (clk_tck : Int) (now : ℚ)
    (mem : ProbeMemory) (r : ProcReading) (line : String) (name : List Char) (close : Nat)
    (hline : r.stat_line = some line) (hcomm : parse_comm line.data = some (name, close))
    (hlen : ¬ close + 2 > line.data.length) (hname : name ≠ []) (herr : r.errno_esrch = false) :
    ∃ proc mem', probe_entry parse_fields clk_tck now mem r = .ok (some proc, mem') ∧
      proc.name = String.mk name ∧ proc.pid = r.pid := by
  have hne : (String.mk name).data.isEmpty = false := by
    cases name with
    | nil => exact absurd rfl hname
    | cons _ _ => rfl
  unfold probe_entry
  simp only [hline, hcomm, hlen, if_false, hne, herr, Bool.false_eq_true]
  exact ⟨_, _, rfl, rfl, rfl⟩

/-- C26. For a stat line `pre ++ "(" ++ name ++ ") " ++ rest` with no '(' in
`pre` and no ')' in `rest`, the parser extracts exactly `name`, parentheses
inside it included (with the last ')' as closing bracket); an entry whose
extracted name is empty is skipped and leaves the probe memory alone, and any
other entry that `getpriority` still finds is pushed under that name. -/
theorem comm_between_outermost_brackets (pre name rest : List Char) (hpre : '(' ∉ pre)
    (hrest : ')' ∉ rest) :
    parse_comm (pre ++ ('(' :: name) ++ (')' :: ' ' :: rest)) =
      some (name, pre.length + 1 + name.length) ∧
    (∀ (parse_fields : String → StatFields) (clk_tck : Int) (now : ℚ) (mem : ProbeMemory)
        (r : ProcReading),
      r.stat_line = some (String.mk (pre ++ ('(' :: name) ++ (')' :: ' ' :: rest))) →
      (name = [] → probe_entry parse_fields clk_tck now mem r = .ok (none, mem)) ∧
      (name ≠ [] → r.errno_esrch = false →
        ∃ proc mem', probe_entry parse_fields clk_tck now mem r = .ok (some proc, mem') ∧
          proc.name = String.mk name ∧ proc.pid = r.pid)) := by
  have hcomm := parse_comm_line pre name rest hpre hrest
  refine ⟨hcomm, ?_⟩
  intro parse_fields clk_tck now mem r hline
  have hlen : ¬ pre.length + 1 + name.length + 2 >
      (String.mk (pre ++ ('(' :: name) ++ (')' :: ' ' :: rest))).data.length := by
    simp
    omega
  constructor
  · intro hn
    subst hn
    exact probe_entry_skips_empty parse_fields clk_tck now mem r _ _ hline hcomm hlen
  · intro hn herr
    exact probe_entry_keeps_name parse_fields clk_tck now mem r _ name _ hline hcomm hlen hn herr

/-- Witness of C26: the line `77 (a(b)c) S 1` yields the name `a(b)c`. -/
theorem comm_between_outermost_brackets_witness :
    ('(' ∉ ['7', '7', ' '] ∧ ')' ∉ ['S', ' ', '1']) ∧
    parse_comm "77 (a(b)c) S 1".data = some ("a(b)c".data, 9) :=
  ⟨⟨by decide, by decide⟩,
   (comm_between_outermost_brackets ['7', '7', ' '] ['a', '(', 'b', ')', 'c'] ['S', ' ', '1']
      (by decide) (by decide)).1⟩

/-! ## C27: no record is added, dropped or duplicated -/

theorem identity_of_clear_priority (l1 l2 : List ProcessInfo)
    (hf : l1.map clear_priority = l2.map clear_priority) :
    l1.map record_identity = l2.map record_identity := by
  have := congrArg (List.map clear_suspended) hf
  simpa [List.map_map, Function.comp_def, clear_suspended, clear_priority, record_identity]
    using this

theorem identity_of_clear_suspended (l1 l2 : List ProcessInfo)
    (hf : l1.map clear_suspended = l2.map clear_suspended) :
    l1.map record_identity = l2.map record_identity := by
  have := congrArg (List.map clear_priority) hf
  simpa [List.map_map, Function.comp_def, clear_suspended, clear_priority, record_identity]
    using this

theorem apply_mode_proc_identity (os : OS) (mode : Mode) (thr : ℚ) (proc : ProcessInfo)
    (h : List Call) :
    record_identity (apply_mode_proc os mode thr proc h).1 = record_identity proc := by
  rcases apply_mode_proc_cases os mode thr proc h with ⟨_, h0⟩ | ⟨_, h1 | h2 | h3⟩
  · rw [h0]
  · rw [h1]
    rfl
  · obtain ⟨_, _, _, hr | hr⟩ := h2 <;> rw [hr] <;> rfl
  · obtain ⟨_, _, _, _, hr | hr⟩ := h3 <;> rw [hr] <;> rfl

theorem apply_mode_settings_identity (os : OS) (mode : Mode) (thr : ℚ) :
    ∀ (processes : List ProcessInfo) (h : List Call),
      (apply_mode_settings os mode thr processes h).1.map record_identity =
        processes.map record_identity := by
  intro processes
  induction processes with
  | nil => intro _; simp [apply_mode_settings]
  | cons proc rest ih =>
    intro h
    simp only [apply_mode_settings, List.map_cons, apply_mode_proc_identity, ih]

theorem perform_scheduling_identity (S : StdSort) (os : OS) (alg : SchedulingAlgorithm)
    (processes : List ProcessInfo) (h : List Call) :
    List.Perm ((perform_scheduling S os alg processes h).1.map record_identity)
      (processes.map record_identity) := by
  cases alg
  · simp only [perform_scheduling, fcfs_schedule]
    rw [identity_of_clear_priority _ _ (sequential_assign_frame os _ _ _)]
    exact (S.perm _ _).map _
  · simp only [perform_scheduling, sjf_schedule]
    rw [identity_of_clear_priority _ _ (sequential_assign_frame os _ _ _)]
    exact (S.perm _ _).map _
  · exact (S.perm _ _).map _
  · simp only [perform_scheduling, rr_schedule_eq, List.map_map]
    apply List.Perm.of_eq
    apply List.map_congr_left
    intro p _
    simp only [Function.comp_def]
    split_ifs <;> rfl
  · simp only [perform_scheduling, hybrid_schedule_eq_walk]
    rw [identity_of_clear_priority _ _ (hybrid_walk_frame os processes h)]

theorem optimize_memory_identity (S : StdSort) (os : OS) (mem swap thr : ℚ)
    (processes : List ProcessInfo) (h : List Call) :
    List.Perm ((optimize_memory S os mem swap thr processes h).1.map record_identity)
      (processes.map record_identity) := by
  by_cases hp : mem > 90 ∨ swap > 70
  · rw [optimize_memory_pressure S os mem swap thr processes h hp,
      identity_of_clear_suspended _ _ (suspend_loop_frame os thr _ _ _)]
    exact (S.perm _ _).map _
  · by_cases hr : mem < 70 ∧ swap < 50
    · rw [optimize_memory_relief S os mem swap thr processes h hr.1 hr.2,
        identity_of_clear_suspended _ _ (resume_loop_frame os _ _)]
    · rw [optimize_memory_idle S os mem swap thr processes h hp hr]

theorem nodup_pid_of_identity (l1 l2 : List ProcessInfo)
    (hperm : List.Perm (l1.map record_identity) (l2.map record_identity))
    (hn : (l2.map (fun p => p.pid)).Nodup) : (l1.map (fun p => p.pid)).Nodup := by
  have h1 : ∀ l : List ProcessInfo,
      (l.map record_identity).map (fun p => p.pid) = l.map (fun p => p.pid) := by
    intro l
    simp [List.map_map, Function.comp_def, record_identity]
  have := hperm.map (fun p => p.pid)
  rw [h1, h1] at this
  exact this.nodup_iff.mpr hn

/-- C27. After `apply_mode_settings` (any mode), after `perform_scheduling`
(any algorithm) and after `optimize_memory` (any reading), the table is a
permutation of the input when records are compared on every field but
`priority` and `is_suspended`; hence a table with distinct pids keeps distinct
pids.  Holds for every `std::sort` and every operating system. -/
theorem operations_preserve_records (S : StdSort) (os : OS) (processes : List ProcessInfo)
    (h : List Call) :
    (∀ (mode : Mode) (thr : ℚ),
      List.Perm ((apply_mode_settings os mode thr processes h).1.map record_identity)
        (processes.map record_identity)) ∧
    (∀ alg : SchedulingAlgorithm,
      List.Perm ((perform_scheduling S os alg processes h).1.map record_identity)
        (processes.map record_identity)) ∧
    (∀ mem swap thr : ℚ,
      List.Perm ((optimize_memory S os mem swap thr processes h).1.map record_identity)
        (processes.map record_identity)) ∧
    ((processes.map (fun p => p.pid)).Nodup →
      (∀ (mode : Mode) (thr : ℚ),
        ((apply_mode_settings os mode thr processes h).1.map (fun p => p.pid)).Nodup) ∧
      (∀ alg : SchedulingAlgorithm,
        ((perform_scheduling S os alg processes h).1.map (fun p => p.pid)).Nodup) ∧
      (∀ mem swap thr : ℚ,
        ((optimize_memory S os mem swap thr processes h).1.map (fun p => p.pid)).Nodup)) := by
  have h1 : ∀ (mode : Mode) (thr : ℚ),
      List.Perm ((apply_mode_settings os mode thr processes h).1.map record_identity)
        (processes.map record_identity) := fun mode thr =>
    List.Perm.of_eq (apply_mode_settings_identity os mode thr processes h)
  refine ⟨h1, fun alg => perform_scheduling_identity S os alg processes h,
    fun mem swap thr => optimize_memory_identity S os mem swap thr processes h, ?_⟩
  intro hn
  exact ⟨fun mode thr => nodup_pid_of_identity _ _ (h1 mode thr) hn,
    fun alg => nodup_pid_of_identity _ _ (perform_scheduling_identity S os alg processes h) hn,
    fun mem swap thr =>
      nodup_pid_of_identity _ _ (optimize_memory_identity S os mem swap thr processes h) hn⟩

/-! ## C29, C30 -/

/-- C29, the code at the failing input: two interactive records receive -15
and -14 when every call succeeds, but -15 and -15 when the first
`set_priority` is refused, because the `continue` of the catch block skips
`priority = min(-10, priority + 1)`; so a failure for one record changes the
priority written for another record of its bucket. -/
theorem hybrid_failure_changes_assignment :
    (hybrid_schedule os_ok two_interactive []).1.map (fun p => (p.pid, p.priority)) =
      [(2001, -15), (2002, -14)] ∧
    (hybrid_schedule os_first_denied two_interactive []).1.map (fun p => (p.pid, p.priority)) =
      [(2001, -15), (2002, -15)] ∧
    (hybrid_schedule os_first_denied two_interactive []).1.map (fun p => p.priority) ≠
      (hybrid_schedule os_ok two_interactive []).1.map (fun p => p.priority) := by
  refine ⟨by decide!, by decide!, by decide!⟩

theorem set_priority_ok (os : OS) (pid priority : Int) (h : List Call)
    (hok : os h (Call.setpriority pid (max (-20) (min 19 priority))) = none) :
    set_priority os pid priority h =
      (.ok (), [Call.setpriority pid (max (-20) (min 19 priority))]) := by
  simp only [set_priority, hok]

theorem mode_target_no_suspend (mode : Mode) (thr : ℚ) (proc : ProcessInfo)
    (hm : mode ≠ Mode.POWER_SAVING) : (mode_target mode thr proc).2 = false := by
  cases hs : (mode_target mode thr proc).2 with
  | false => rfl
  | true => exact absurd (mode_target_suspend mode thr proc hs).1 hm

theorem apply_mode_proc_all_ok (os : OS) (mode : Mode) (thr : ℚ) (proc : ProcessInfo)
    (h : List Call) (hok : ∀ (h' : List Call) (c : Call), os h' c = none)
    (hm : mode ≠ Mode.POWER_SAVING) :
    apply_mode_proc os mode thr proc h =
      if proc.pid ≤ 0 then (proc, [])
      else if proc.is_suspended then
        ({ proc with priority := (mode_target mode thr proc).1, is_suspended := false },
         [Call.setpriority proc.pid (max (-20) (min 19 (mode_target mode thr proc).1)),
          Call.kill proc.pid Signal.SIGCONT])
      else
        ({ proc with priority := (mode_target mode thr proc).1, is_suspended := false },
         [Call.setpriority proc.pid (max (-20) (min 19 (mode_target mode thr proc).1))]) := by
  have hns := mode_target_no_suspend mode thr proc hm
  have hmb : (mode != Mode.POWER_SAVING) = true := by simpa using hm
  unfold apply_mode_proc
  by_cases hpid : proc.pid ≤ 0
  · simp only [hpid, if_true]
  · simp only [hpid, if_false]
    rw [set_priority_ok os _ _ _ (hok _ _)]
    simp only [hns, Bool.false_and, Bool.false_eq_true, if_false, Bool.not_false, Bool.true_and]
    by_cases hsus : proc.is_suspended = true
    · simp only [hsus, hmb, Bool.and_self, if_true]
      rw [resume_process, send_signal_ok os _ _ _ _ (hok _ _)]
      rfl
    · have hsus' : proc.is_suspended = false := by simpa using hsus
      simp only [hsus', Bool.false_and, Bool.false_eq_true, if_false]

theorem apply_mode_settings_all_ok (os : OS) (mode : Mode) (thr : ℚ)
    (hok : ∀ (h' : List Call) (c : Call), os h' c = none) (hm : mode ≠ Mode.POWER_SAVING) :
    ∀ (processes : List ProcessInfo) (h : List Call),
      (apply_mode_settings os mode thr processes h).1 =
        processes.map (fun p =>
          if p.pid ≤ 0 then p
          else { p with priority := (mode_target mode thr p).1, is_suspended := false }) ∧
      (apply_mode_settings os mode thr processes h).2.filter is_resume =
        (processes.filter (fun p => decide (0 < p.pid) && p.is_suspended)).map
          (fun p => Call.kill p.pid Signal.SIGCONT) := by
  intro processes
  induction processes with
  | nil => intro _; simp [apply_mode_settings]
  | cons proc rest ih =>
    intro h
    obtain ⟨ih1, ih2⟩ := ih (h ++ (apply_mode_proc os mode thr proc h).2)
    simp only [apply_mode_settings, List.map_cons, List.filter_append, ih1, ih2,
      List.filter_cons]
    rw [apply_mode_proc_all_ok os mode thr proc h hok hm]
    by_cases hpid : proc.pid ≤ 0
    · have hnp : ¬ (0 < proc.pid) := by omega
      simp [hpid, hnp]
    · have hp : 0 < proc.pid := by omega
      by_cases hsus : proc.is_suspended = true
      · simp [hpid, hp, hsus, is_resume]
      · simp [hpid, hp, hsus, is_resume]

/-- C30. In Gaming or Productivity mode, when every actuator call succeeds,
the resumes `apply_mode_settings` issues are, in table order, exactly one for
each record with pid > 0 that is marked suspended, system records included,
and afterwards no record with pid > 0 is marked suspended.  In Power-Saving
mode, whatever the operating system answers, no resume is issued and no
`is_suspended` flag is cleared. -/
theorem mode_resume_rule (os : OS) (thr : ℚ) (processes : List ProcessInfo) (h : List Call)
    (hok : ∀ (h' : List Call) (c : Call), os h' c = none) :
    (∀ mode, mode = Mode.GAMING ∨ mode = Mode.PRODUCTIVITY →
      (apply_mode_settings os mode thr processes h).2.filter is_resume =
        (processes.filter (fun p => decide (0 < p.pid) && p.is_suspended)).map
          (fun p => Call.kill p.pid Signal.SIGCONT) ∧
      (∀ q ∈ (apply_mode_settings os mode thr processes h).1,
        0 < q.pid → q.is_suspended = false)) ∧
    (∀ (os' : OS) (thr' : ℚ) (processes' : List ProcessInfo) (h' : List Call),
      (∀ pid, Call.kill pid Signal.SIGCONT ∉
        (apply_mode_settings os' Mode.POWER_SAVING thr' processes' h').2) ∧
      (∀ ab ∈ List.zip processes'
          (apply_mode_settings os' Mode.POWER_SAVING thr' processes' h').1,
        ab.1.is_suspended = true → ab.2.is_suspended = true)) := by
  constructor
  · intro mode hmode
    have hm : mode ≠ Mode.POWER_SAVING := by
      rcases hmode with hmode | hmode <;> rw [hmode] <;> decide
    obtain ⟨h1, h2⟩ := apply_mode_settings_all_ok os mode thr hok hm processes h
    refine ⟨h2, ?_⟩
    intro q hq hpos
    rw [h1] at hq
    obtain ⟨p, _, hpq⟩ := List.mem_map.mp hq
    by_cases hpid : p.pid ≤ 0
    · rw [if_pos hpid] at hpq
      rw [← hpq] at hpos
      omega
    · rw [if_neg hpid] at hpq
      rw [← hpq]
  · intro os' thr' processes' h'
    constructor
    · intro pid hc
      obtain ⟨p, _, h'', hc'⟩ :=
        apply_mode_settings_calls_mem os' Mode.POWER_SAVING thr' processes' h' _ hc
      rcases apply_mode_proc_cases os' Mode.POWER_SAVING thr' p h'' with
        ⟨_, h0⟩ | ⟨_, h1 | h2 | h3⟩
      · rw [h0] at hc'
        simp at hc'
      · rw [h1] at hc'
        simp at hc'
      · obtain ⟨_, _, hcalls, _⟩ := h2
        rw [hcalls] at hc'
        simp at hc'
      · exact absurd rfl h3.2.2.1
    · intro ab hab hsus
      obtain ⟨h'', hh⟩ :=
        apply_mode_settings_pairs os' Mode.POWER_SAVING thr' processes' h' ab hab
      rw [hh]
      rcases apply_mode_proc_cases os' Mode.POWER_SAVING thr' ab.1 h'' with
        ⟨_, h0⟩ | ⟨_, h1 | h2 | h3⟩
      · rw [h0]
        exact hsus
      · rw [h1]
        exact hsus
      · obtain ⟨_, _, _, hr | hr⟩ := h2
        · rw [hr]
          exact hsus
        · rw [hr]
      · exact absurd rfl h3.2.2.1

/-- Witness of C30: a Gaming pass over a table with a stopped user process
(pid 2001) and a stopped system process (pid 12) resumes both. -/
theorem mode_resume_rule_witness :
    (∀ (h' : List Call) (c : Call), os_ok h' c = none) ∧
    (apply_mode_settings os_ok Mode.GAMING 200 stopped_table []).2.filter is_resume =
      [Call.kill 2001 Signal.SIGCONT, Call.kill 12 Signal.SIGCONT] ∧
    (apply_mode_settings os_ok Mode.GAMING 200 stopped_table []).1.map
      (fun p => (p.pid, p.is_suspended)) = [(2001, false), (12, false), (2002, false)] := by
  have hw := (mode_resume_rule os_ok 200 stopped_table [] (fun _ _ => rfl)).1 Mode.GAMING
    (Or.inl rfl)
  refine ⟨fun _ _ => rfl, ?_, by decide!⟩
  rw [hw.1]
  decide

/-! ## A failed `set_priority` inside the mode pass -/

theorem set_priority_congr (os os' : OS) (pid p : Int) (h h' : List Call)
    (ha : os' h' (Call.setpriority pid (max (-20) (min 19 p))) =
      os h (Call.setpriority pid (max (-20) (min 19 p)))) :
    set_priority os' pid p h' = set_priority os pid p h := by
  simp only [set_priority, ha]

theorem send_signal_congr (os os' : OS) (sig : Signal) (verb : String) (pid : Int)
    (h h' : List Call) (ha : os' h' (Call.kill pid sig) = os h (Call.kill pid sig)) :
    send_signal os' sig verb pid h' = send_signal os sig verb pid h := by
  simp only [send_signal, ha]

/-- One iteration of the mode pass depends on the operating system only
through its answers to the calls for the record's pid. -/
theorem apply_mode_proc_congr (os os' : OS) (mode : Mode) (thr : ℚ) (proc : ProcessInfo)
    (h h' : List Call)
    (ha : ∀ (k : List Call) (c : Call), c.pid = proc.pid → os' (h' ++ k) c = os (h ++ k) c) :
    apply_mode_proc os' mode thr proc h' = apply_mode_proc os mode thr proc h := by
  have hsp : ∀ p, set_priority os' proc.pid p h' = set_priority os proc.pid p h := by
    intro p
    apply set_priority_congr
    simpa using ha [] (Call.setpriority proc.pid (max (-20) (min 19 p))) rfl
  have hsig : ∀ sig verb k,
      send_signal os' sig verb proc.pid (h' ++ k) = send_signal os sig verb proc.pid (h ++ k) := by
    intro sig verb k
    apply send_signal_congr
    exact ha k (Call.kill proc.pid sig) rfl
  unfold apply_mode_proc
  simp only [hsp, suspend_process, resume_process, hsig]

/-- The mode pass over a table depends on the operating system only through
its answers to the calls for the pids of that table. -/
theorem apply_mode_settings_congr (os os' : OS) (mode : Mode) (thr : ℚ) :
    ∀ (processes : List ProcessInfo) (h h' : List Call),
      (∀ (k : List Call) (c : Call), c.pid ∈ processes.map ProcessInfo.pid →
        os' (h' ++ k) c = os (h ++ k) c) →
      apply_mode_settings os' mode thr processes h' =
        apply_mode_settings os mode thr processes h := by
  intro processes
  induction processes with
  | nil => intro _ _ _; rfl
  | cons proc rest ih =>
    intro h h' ha
    have h1 : apply_mode_proc os' mode thr proc h' = apply_mode_proc os mode thr proc h :=
      apply_mode_proc_congr os os' mode thr proc h h'
        (fun k c hc => ha k c (by simp [hc]))
    have h2 := ih (h ++ (apply_mode_proc os mode thr proc h).2)
      (h' ++ (apply_mode_proc os mode thr proc h).2)
      (fun k c hc => by
        rw [List.append_assoc, List.append_assoc]
        exact ha _ c (by simp only [List.map_cons, List.mem_cons]; exact Or.inr hc))
    simp only [apply_mode_settings, h1, h2]

/-- The mode pass over a table split in two: the second part is walked after
the first, with the calls of the first part in the history. -/
theorem apply_mode_settings_append (os : OS) (mode : Mode) (thr : ℚ) :
    ∀ (pre suf : List ProcessInfo) (h : List Call),
      apply_mode_settings os mode thr (pre ++ suf) h =
        ((apply_mode_settings os mode thr pre h).1 ++
            (apply_mode_settings os mode thr suf
              (h ++ (apply_mode_settings os mode thr pre h).2)).1,
         (apply_mode_settings os mode thr pre h).2 ++
            (apply_mode_settings os mode thr suf
              (h ++ (apply_mode_settings os mode thr pre h).2)).2) := by
  intro pre
  induction pre with
  | nil => intro suf h; simp [apply_mode_settings]
  | cons p pre ih =>
    intro suf h
    rw [List.cons_append]
    simp only [apply_mode_settings]
    rw [ih]
    simp only [List.append_assoc, List.cons_append]

/-- The iteration whose `set_priority` throws: the new priority is stored,
nothing else changes and `setpriority` is the only call. -/
theorem apply_mode_proc_failed (os : OS) (mode : Mode) (thr : ℚ) (proc : ProcessInfo)
    (h : List Call) (hpid : 0 < proc.pid)
    (hfail : ∃ msg, (set_priority os proc.pid (mode_target mode thr proc).1 h).1 =
      Except.error msg) :
    apply_mode_proc os mode thr proc h =
      ({ proc with priority := (mode_target mode thr proc).1 },
        [Call.setpriority proc.pid (max (-20) (min 19 (mode_target mode thr proc).1))]) := by
  obtain ⟨msg, hmsg⟩ := hfail
  have hc := set_priority_calls os proc.pid (mode_target mode thr proc).1 h
  simp only [apply_mode_proc, if_neg (not_le.mpr hpid)]
  rcases hsp : set_priority os proc.pid (mode_target mode thr proc).1 h with ⟨res, c1⟩
  rw [hsp] at hmsg hc
  simp only at hmsg hc
  subst hmsg
  subst hc
  rfl

/-- C31. In `apply_mode_settings`, when `set_priority` throws for a record
with pid > 0 (reached after the records `pre`), the iteration for that record
issues the `setpriority` call and nothing else, so no suspend and no resume,
and leaves the record as it was except for `priority`, which holds the newly
computed value; the pass then walks the remaining records `rest`.  The result
for `rest` is the one of any run in which the operating system answers the
calls for the pids of `rest` in the same way, whatever happened before, in
particular of a run in which the `set_priority` had succeeded. -/
theorem mode_pass_set_priority_failure (os : OS) (mode : Mode) (thr : ℚ)
    (pre rest : List ProcessInfo) (proc : ProcessInfo) (h : List Call)
    (hpid : 0 < proc.pid)
    (hfail : ∃ msg, (set_priority os proc.pid (mode_target mode thr proc).1
        (h ++ (apply_mode_settings os mode thr pre h).2)).1 = Except.error msg) :
    apply_mode_proc os mode thr proc (h ++ (apply_mode_settings os mode thr pre h).2) =
      ({ proc with priority := (mode_target mode thr proc).1 },
        [Call.setpriority proc.pid (max (-20) (min 19 (mode_target mode thr proc).1))]) ∧
    apply_mode_settings os mode thr (pre ++ proc :: rest) h =
      ((apply_mode_settings os mode thr pre h).1 ++
          { proc with priority := (mode_target mode thr proc).1 } ::
            (apply_mode_settings os mode thr rest
              (h ++ (apply_mode_settings os mode thr pre h).2 ++
                [Call.setpriority proc.pid
                  (max (-20) (min 19 (mode_target mode thr proc).1))])).1,
       (apply_mode_settings os mode thr pre h).2 ++
          Call.setpriority proc.pid (max (-20) (min 19 (mode_target mode thr proc).1)) ::
            (apply_mode_settings os mode thr rest
              (h ++ (apply_mode_settings os mode thr pre h).2 ++
                [Call.setpriority proc.pid
                  (max (-20) (min 19 (mode_target mode thr proc).1))])).2) ∧
    (∀ (os' : OS) (h' : List Call),
      (∀ (k : List Call) (c : Call), c.pid ∈ rest.map ProcessInfo.pid →
        os' (h' ++ k) c =
          os (h ++ (apply_mode_settings os mode thr pre h).2 ++
            [Call.setpriority proc.pid (max (-20) (min 19 (mode_target mode thr proc).1))] ++
            k) c) →
      apply_mode_settings os' mode thr rest h' =
        apply_mode_settings os mode thr rest
          (h ++ (apply_mode_settings os mode thr pre h).2 ++
            [Call.setpriority proc.pid
              (max (-20) (min 19 (mode_target mode thr proc).1))])) := by
  have hp := apply_mode_proc_failed os mode thr proc _ hpid hfail
  refine ⟨hp, ?_, ?_⟩
  · rw [apply_mode_settings_append]
    simp only [apply_mode_settings, hp, List.singleton_append]
  · intro os' h' ha
    exact apply_mode_settings_congr os os' mode thr rest _ h' ha

/-- Witness of C31: a Gaming pass over a table whose first record (pid 2001,
stopped) meets a refused `setpriority`: the record keeps its flag and gets
priority 5, no `SIGCONT` is sent to it, and the stopped record after it
(pid 12) is resumed as in a run where every call succeeds. -/
theorem mode_pass_set_priority_failure_witness :
    (0 : Int) < (mk_proc 2001 false false true 0 1000).pid ∧
    apply_mode_settings os_first_denied Mode.GAMING 200 stopped_table [] =
      ([mk_proc 2001 false false true 5 1000, mk_proc 12 true false false 0 1000,
        mk_proc 2002 false false false 5 1000],
       [Call.setpriority 2001 5, Call.setpriority 12 0, Call.kill 12 Signal.SIGCONT,
        Call.setpriority 2002 5]) ∧
    apply_mode_settings os_ok Mode.GAMING 200
        [mk_proc 12 true false true 0 1000, mk_proc 2002 false false false 0 1000] [] =
      ([mk_proc 12 true false false 0 1000, mk_proc 2002 false false false 5 1000],
       [Call.setpriority 12 0, Call.kill 12 Signal.SIGCONT, Call.setpriority 2002 5]) := by
  have hw := mode_pass_set_priority_failure os_first_denied Mode.GAMING 200 []
    [mk_proc 12 true false true 0 1000, mk_proc 2002 false false false 0 1000]
    (mk_proc 2001 false false true 0 1000) [] (by decide) ⟨_, rfl⟩
  refine ⟨by decide, ?_, ?_⟩
  · exact hw.2.1.trans (by decide)
  · exact (hw.2.2 os_ok [] (fun _ _ _ => rfl)).trans (by decide)

/-! ## Repeated Gaming passes -/

theorem apply_mode_proc_static (os : OS) (mode : Mode) (thr : ℚ) (proc : ProcessInfo)
    (h : List Call) :
    (apply_mode_proc os mode thr proc h).1.pid = proc.pid ∧
    (apply_mode_proc os mode thr proc h).1.is_foreground = proc.is_foreground ∧
    (apply_mode_proc os mode thr proc h).1.is_system = proc.is_system := by
  have hid := apply_mode_proc_identity os mode thr proc h
  exact ⟨congrArg (fun r => r.pid) hid, congrArg (fun r => r.is_foreground) hid,
    congrArg (fun r => r.is_system) hid⟩

/-- One Gaming iteration followed by `n` closed-form steps is `n + 1`
closed-form steps. -/
theorem gaming_after_step (os : OS) (thr : ℚ) (proc : ProcessInfo) (h : List Call) (n : Nat) :
    gaming_after n (apply_mode_proc os Mode.GAMING thr proc h).1 = gaming_after (n + 1) proc := by
  obtain ⟨h1, h2, h3⟩ := apply_mode_proc_static os Mode.GAMING thr proc h
  have h4 := apply_mode_proc_priority os Mode.GAMING thr proc h
  simp only [gaming_after, h1, h2, h3, h4, mode_target]
  push_cast
  by_cases hp : proc.pid ≤ 0
  · simp [hp]
  · simp only [hp, if_false]
    by_cases hn : n = 0
    · subst hn
      cases proc.is_foreground <;> cases proc.is_system <;> simp
    · have hn1 : (1 : Int) ≤ (n : Int) := by omega
      simp only [hn, if_false, Nat.succ_ne_zero]
      cases proc.is_foreground <;> cases proc.is_system <;>
        simp only [Bool.not_true, Bool.not_false, if_true, if_false, Bool.false_eq_true] <;>
        omega

theorem apply_mode_settings_gaming_after (os : OS) (thr : ℚ) (n : Nat) :
    ∀ (processes : List ProcessInfo) (h : List Call),
      (apply_mode_settings os Mode.GAMING thr processes h).1.map
          (fun q => (record_identity q, gaming_after n q)) =
        processes.map (fun p => (record_identity p, gaming_after (n + 1) p)) := by
  intro processes
  induction processes with
  | nil => intro _; rfl
  | cons proc rest ih =>
    intro h
    simp only [apply_mode_settings, List.map_cons, ih, apply_mode_proc_identity,
      gaming_after_step]

/-- The closed form of `n` consecutive Gaming passes: every record keeps its
identity and its priority is `gaming_after n` of the original one. -/
theorem mode_passes_gaming (os : OS) (thr : ℚ) :
    ∀ (n : Nat) (processes : List ProcessInfo) (h : List Call),
      (mode_passes os Mode.GAMING thr n processes h).1.map
          (fun q => (record_identity q, q.priority)) =
        processes.map (fun p => (record_identity p, gaming_after n p)) := by
  intro n
  induction n with
  | zero =>
    intro processes h
    simp only [mode_passes]
    apply List.map_congr_left
    intro p _
    simp [gaming_after]
  | succ n ih =>
    intro processes h
    simp only [mode_passes]
    rw [ih]
    exact apply_mode_settings_gaming_after os thr n processes h

theorem mode_passes_gaming_priority (os : OS) (thr : ℚ) (n : Nat)
    (processes : List ProcessInfo) (h : List Call) :
    (mode_passes os Mode.GAMING thr n processes h).1.map ProcessInfo.priority =
      processes.map (gaming_after n) := by
  have := congrArg (List.map Prod.snd) (mode_passes_gaming os thr n processes h)
  simpa [List.map_map, Function.comp_def] using this

theorem mode_passes_gaming_mem (os : OS) (thr : ℚ) (n : Nat)
    (processes : List ProcessInfo) (h : List Call) (q : ProcessInfo)
    (hq : q ∈ (mode_passes os Mode.GAMING thr n processes h).1) :
    ∃ p ∈ processes, q.pid = p.pid ∧ q.is_foreground = p.is_foreground ∧
      q.is_system = p.is_system ∧ q.priority = gaming_after n p := by
  have hm : (record_identity q, q.priority) ∈
      (mode_passes os Mode.GAMING thr n processes h).1.map
        (fun q => (record_identity q, q.priority)) := List.mem_map.mpr ⟨q, hq, rfl⟩
  rw [mode_passes_gaming] at hm
  obtain ⟨p, hp, hpq⟩ := List.mem_map.mp hm
  have hid : record_identity p = record_identity q := congrArg Prod.fst hpq
  have hpr : gaming_after n p = q.priority := congrArg Prod.snd hpq
  exact ⟨p, hp, (congrArg (fun r => r.pid) hid).symm,
    (congrArg (fun r => r.is_foreground) hid).symm,
    (congrArg (fun r => r.is_system) hid).symm, hpr.symm⟩

/-- From the seventh pass on the closed form has reached the clamps. -/
theorem gaming_after_seven (n : Nat) (hn : 7 ≤ n) (p : ProcessInfo)
    (hr : -20 ≤ p.priority ∧ p.priority ≤ 19) :
    gaming_after n p =
      if p.pid ≤ 0 then p.priority
      else if p.is_foreground then -15
      else if !p.is_system then 15
      else p.priority := by
  have hn1 : (7 : Int) ≤ (n : Int) := by omega
  have hn0 : n ≠ 0 := by omega
  simp only [gaming_after, hn0, if_false]
  by_cases hp : p.pid ≤ 0
  · simp [hp]
  · simp only [hp, if_false]
    cases p.is_foreground <;> cases p.is_system <;>
      simp only [Bool.not_true, Bool.not_false, if_true, if_false, Bool.false_eq_true] <;>
      omega

theorem apply_mode_settings_priorities (os : OS) (mode : Mode) (thr : ℚ) :
    ∀ (processes : List ProcessInfo) (h : List Call),
      (apply_mode_settings os mode thr processes h).1.map ProcessInfo.priority =
        processes.map
          (fun p => if p.pid ≤ 0 then p.priority else (mode_target mode thr p).1) := by
  intro processes
  induction processes with
  | nil => intro _; rfl
  | cons proc rest ih =>
    intro h
    simp only [apply_mode_settings, List.map_cons, ih, apply_mode_proc_priority]

/-- One call of `adjust_priorities` is one pass of `mode_passes` in the
controller's mode over the controller's table. -/
theorem adjust_priorities_one_pass (s : Scheduler) (os : OS) (h : List Call) :
    (s.adjust_priorities os h).1.processes =
      (mode_passes os s.current_mode s.mem_threshold_mb 1 s.processes h).1 ∧
    (s.adjust_priorities os h).2 =
      (mode_passes os s.current_mode s.mem_threshold_mb 1 s.processes h).2 := by
  simp [Scheduler.adjust_priorities, mode_passes]

/-- C32. Repeated Gaming passes converge to the clamps.  For every table whose
priorities lie in [-20, 19], whatever the operating system answers, after 7
consecutive `apply_mode_settings` passes in Gaming mode every record with
pid > 0 that is foreground has priority -15 and every record with pid > 0 that
is neither foreground nor a system process has priority 15; one more Gaming
pass, under any operating system and threshold, leaves every priority of the
table as it is, and so does any number of passes beyond the seventh.  A single
pass is not idempotent: a foreground record at priority 0 is at -5 after one
pass and at -10 after two. -/
theorem gaming_passes_converge (os : OS) (thr : ℚ) (processes : List ProcessInfo)
    (h : List Call) (hr : PriorityInRange processes) :
    (∀ q ∈ (mode_passes os Mode.GAMING thr 7 processes h).1, 0 < q.pid →
      (q.is_foreground = true → q.priority = -15) ∧
      (q.is_foreground = false → q.is_system = false → q.priority = 15)) ∧
    (∀ (os' : OS) (thr' : ℚ) (h' : List Call),
      (apply_mode_settings os' Mode.GAMING thr'
          (mode_passes os Mode.GAMING thr 7 processes h).1 h').1.map ProcessInfo.priority =
        (mode_passes os Mode.GAMING thr 7 processes h).1.map ProcessInfo.priority) ∧
    (∀ n, 7 ≤ n →
      (mode_passes os Mode.GAMING thr n processes h).1.map ProcessInfo.priority =
        (mode_passes os Mode.GAMING thr 7 processes h).1.map ProcessInfo.priority) ∧
    ((mode_passes os Mode.GAMING thr 1 fg_table h).1.map ProcessInfo.priority = [-5] ∧
     (mode_passes os Mode.GAMING thr 2 fg_table h).1.map ProcessInfo.priority = [-10]) := by
  have hseven : ∀ q ∈ (mode_passes os Mode.GAMING thr 7 processes h).1,
      q.priority =
        if q.pid ≤ 0 then q.priority
        else if q.is_foreground then -15
        else if !q.is_system then 15
        else q.priority := by
    intro q hq
    obtain ⟨p, hp, h1, h2, h3, h4⟩ := mode_passes_gaming_mem os thr 7 processes h q hq
    have h5 := gaming_after_seven 7 (le_refl 7) p (hr p hp)
    rw [← h4, ← h1, ← h2, ← h3] at h5
    split_ifs at h5 ⊢ <;> first | rfl | exact h5
  refine ⟨?_, ?_, ?_, ?_⟩
  · intro q hq hpos
    have hq7 := hseven q hq
    rw [if_neg (not_le.mpr hpos)] at hq7
    constructor
    · intro hfg
      rw [hq7, hfg]
      rfl
    · intro hfg hsys
      rw [hq7, hfg, hsys]
      rfl
  · intro os' thr' h'
    rw [apply_mode_settings_priorities]
    apply List.map_congr_left
    intro q hq
    have hq7 := hseven q hq
    by_cases hp : q.pid ≤ 0
    · rw [if_pos hp]
    · rw [if_neg hp] at hq7 ⊢
      simp only [mode_target]
      cases hfg : q.is_foreground <;> cases hsys : q.is_system <;>
        simp only [hfg, hsys, Bool.not_true, Bool.not_false, if_true, if_false,
          Bool.false_eq_true] at hq7 ⊢ <;>
        omega
  · intro n hn
    rw [mode_passes_gaming_priority, mode_passes_gaming_priority]
    apply List.map_congr_left
    intro p hp
    rw [gaming_after_seven n hn p (hr p hp), gaming_after_seven 7 (le_refl 7) p (hr p hp)]
  · rw [mode_passes_gaming_priority, mode_passes_gaming_priority]
    exact ⟨by decide, by decide⟩

/-- Witness of C32: the table with one foreground user process at priority 0
is in range; seven Gaming passes under an operating system that refuses every
call bring it to -15, and an eighth pass keeps it there. -/
theorem gaming_passes_converge_witness :
    PriorityInRange fg_table ∧
    (mode_passes os_eperm Mode.GAMING 200 7 fg_table []).1.map ProcessInfo.priority = [-15] ∧
    (mode_passes os_eperm Mode.GAMING 200 8 fg_table []).1.map ProcessInfo.priority = [-15] := by
  have hrange : PriorityInRange fg_table := by
    intro p hp
    simp only [fg_table, List.mem_singleton] at hp
    subst hp
    decide
  have hw := gaming_passes_converge os_eperm 200 fg_table [] hrange
  refine ⟨hrange, by decide, ?_⟩
  rw [hw.2.2.1 8 (by decide)]
  decide

end Ralloc
